import Mathlib

/-!
Verification of the SSE normalizing proxy (`src/docker/centurion-base/sse-proxy.py`).

Modelling conventions (shallow embedding of the Python source):

* A Python `bytes` value is `Bytes := List Nat` (each entry a byte value).
* A Python `str` value is `Str := List Nat` (each entry a Unicode code point;
  Python strings are sequences of code points).
* `bytes.decode("utf-8", errors="replace")` is `utf8Decode` (one U+FFFD per
  maximal invalid subpart, as CPython does).
* `str.encode("utf-8")` is `utf8Encode`.
* `json.loads` / `json.dumps` are modelled by `loads` / `dumps` below.  JSON
  numbers are kept as their raw source token (`Json.jnum`); Python instead
  converts them to `int`/`float` and re-formats them on `dumps`.  For tokens in
  canonical integer form (as in all payloads this proxy produces, e.g. the
  inserted `0`) the two agree; non-canonical tokens such as `1.50` are
  re-emitted verbatim here while Python would normalise them.  Lone-surrogate
  `\uXXXX` escapes, which CPython's scanner accepts, are likewise representable
  since strings are code-point lists.
* A Python statement that can raise is modelled in the `Except PyErr` monad;
  `try/except` blocks become `match`es on the `Except` value.
-/

namespace SseProxy

/-- Python `bytes`: a list of byte values. -/
abbrev Bytes := List Nat

/-- Python `str`: a list of Unicode code points. -/
abbrev Str := List Nat

/-- Code points of a Lean string literal (used to transcribe the Python string
literals appearing in the source). -/
def strCp (s : String) : Str := s.data.map Char.toNat

/-- The exceptions the modelled fragments of the source can raise. -/
inductive PyErr where
  | typeError : PyErr
  | attributeError : PyErr
  deriving DecidableEq, Repr

/-! ## UTF-8

`utf8Encode` models `str.encode("utf-8")` on scalar code points;
`utf8Decode` models `bytes.decode("utf-8", errors="replace")`: CPython emits
one U+FFFD per maximal subpart of an invalid sequence and resumes at the first
offending byte. -/

/-- UTF-8 encoding of a single code point (standard 1-4 byte forms). -/
def utf8EncodeChar (n : Nat) : Bytes :=
  if n < 0x80 then [n]
  else if n < 0x800 then [0xC0 + n / 64, 0x80 + n % 64]
  else if n < 0x10000 then [0xE0 + n / 4096, 0x80 + n / 64 % 64, 0x80 + n % 64]
  else [0xF0 + n / 262144, 0x80 + n / 4096 % 64, 0x80 + n / 64 % 64, 0x80 + n % 64]

/-- UTF-8 encoding of a string of code points. -/
def utf8Encode : Str → Bytes
  | [] => []
  | c :: cs => utf8EncodeChar c ++ utf8Encode cs

/-- Lower bound for the first continuation byte of a 3-byte sequence. -/
def cont3lo (b0 : Nat) : Nat := if b0 = 0xE0 then 0xA0 else 0x80

/-- Upper bound for the first continuation byte of a 3-byte sequence
(`0xED` caps at `0x9F`, excluding surrogates). -/
def cont3hi (b0 : Nat) : Nat := if b0 = 0xED then 0x9F else 0xBF

/-- Lower bound for the first continuation byte of a 4-byte sequence. -/
def cont4lo (b0 : Nat) : Nat := if b0 = 0xF0 then 0x90 else 0x80

/-- Upper bound for the first continuation byte of a 4-byte sequence
(`0xF4` caps at `0x8F`, keeping code points below `0x110000`). -/
def cont4hi (b0 : Nat) : Nat := if b0 = 0xF4 then 0x8F else 0xBF

/-- Is `b` a UTF-8 continuation byte within the closed range `[lo, hi]`? -/
def isCont (lo hi b : Nat) : Bool := lo ≤ b && b ≤ hi

/-- `bytes.decode("utf-8", errors="replace")`. -/
def utf8Decode : Bytes → Str
  | [] => []
  | b0 :: rest =>
    if b0 < 0x80 then b0 :: utf8Decode rest
    else if 0xC2 ≤ b0 && b0 ≤ 0xDF then
      match rest with
      | [] => [0xFFFD]
      | b1 :: rest1 =>
        if isCont 0x80 0xBF b1 then
          ((b0 - 0xC0) * 64 + (b1 - 0x80)) :: utf8Decode rest1
        else 0xFFFD :: utf8Decode (b1 :: rest1)
    else if 0xE0 ≤ b0 && b0 ≤ 0xEF then
      match rest with
      | [] => [0xFFFD]
      | b1 :: rest1 =>
        if isCont (cont3lo b0) (cont3hi b0) b1 then
          match rest1 with
          | [] => [0xFFFD]
          | b2 :: rest2 =>
            if isCont 0x80 0xBF b2 then
              ((b0 - 0xE0) * 4096 + (b1 - 0x80) * 64 + (b2 - 0x80)) :: utf8Decode rest2
            else 0xFFFD :: utf8Decode (b2 :: rest2)
        else 0xFFFD :: utf8Decode (b1 :: rest1)
    else if 0xF0 ≤ b0 && b0 ≤ 0xF4 then
      match rest with
      | [] => [0xFFFD]
      | b1 :: rest1 =>
        if isCont (cont4lo b0) (cont4hi b0) b1 then
          match rest1 with
          | [] => [0xFFFD]
          | b2 :: rest2 =>
            if isCont 0x80 0xBF b2 then
              match rest2 with
              | [] => [0xFFFD]
              | b3 :: rest3 =>
                if isCont 0x80 0xBF b3 then
                  ((b0 - 0xF0) * 262144 + (b1 - 0x80) * 4096 + (b2 - 0x80) * 64
                      + (b3 - 0x80)) :: utf8Decode rest3
                else 0xFFFD :: utf8Decode (b3 :: rest3)
            else 0xFFFD :: utf8Decode (b2 :: rest2)
        else 0xFFFD :: utf8Decode (b1 :: rest1)
    else 0xFFFD :: utf8Decode rest

/-- `bytes.rstrip(b"\r\n")`: drop trailing bytes that are CR or LF. -/
def rstripCrLf (bs : Bytes) : Bytes :=
  (List.dropWhile (fun b => b == 13 || b == 10) bs.reverse).reverse

/-- Split a byte stream into lines the way iterating a binary file object does:
each line keeps its trailing `\n`; a final unterminated chunk is kept too. -/
def splitLinesGo : Bytes → Bytes → List Bytes
  | acc, [] => if acc = [] then [] else [acc.reverse]
  | acc, b :: bs =>
    if b = 10 then (acc.reverse ++ [10]) :: splitLinesGo [] bs
    else splitLinesGo (b :: acc) bs

/-- Lines of an upstream body (`for raw_line in resp`). -/
def splitLines (bs : Bytes) : List Bytes := splitLinesGo [] bs

/-! ## JSON values

Arrays and objects are encoded with explicit cons/nil constructors (rather
than `List` fields) so that every function below is plain structural
recursion, which the kernel can evaluate.  `jnum` keeps the raw source token
of the number (see the header comment). -/

inductive Json where
  | jnull : Json
  | jbool : Bool → Json
  | jnum : Str → Json
  | jstr : Str → Json
  | anil : Json
  | acons : Json → Json → Json
  | onil : Json
  | ocons : Str → Json → Json → Json
  deriving DecidableEq, Repr

namespace Json

/-- Is this value a Python `list` (a JSON array)? -/
def isArr : Json → Bool
  | anil => true
  | acons _ _ => true
  | _ => false

/-- Is this value a Python `dict` (a JSON object)? -/
def isObj : Json → Bool
  | onil => true
  | ocons _ _ _ => true
  | _ => false

/-- The elements of an array chain (empty on other values). -/
def arrElems : Json → List Json
  | acons h t => h :: arrElems t
  | _ => []

/-- Build an array chain from a list of elements. -/
def listToArr : List Json → Json
  | [] => anil
  | h :: t => acons h (listToArr t)

/-- The key/value pairs of an object chain, in insertion order. -/
def objPairs : Json → List (Str × Json)
  | ocons k v t => (k, v) :: objPairs t
  | _ => []

/-- `dict.__getitem__`-style lookup on an object chain. -/
def objLookup : Json → Str → Option Json
  | ocons k v t, key => if k = key then some v else objLookup t key
  | _, _ => none

/-- `key in dict` on an object chain. -/
def objHasKey (v : Json) (key : Str) : Bool := (objLookup v key).isSome

/-- `d[key] = x` on a Python dict: replace in place if the key exists
(keeping its position), otherwise append at the end.  Identity on
non-objects. -/
def objSet : Json → Str → Json → Json
  | ocons k v t, key, x => if k = key then ocons k x t else ocons k v (objSet t key x)
  | onil, key, x => ocons key x onil
  | v, _, _ => v

end Json

/-! ## `json.dumps`

Models `json.dumps(payload, separators=(isep, ksep))` with the default
`ensure_ascii=True`: every code point outside printable ASCII is `\uXXXX`
escaped (with a surrogate pair above `0xFFFF`); the result is pure ASCII. -/

/-- Lowercase hex digit (as a code point). -/
def hexDigit (m : Nat) : Nat := if m < 10 then 48 + m else 87 + m

/-- Four lowercase hex digits of `n % 0x10000`. -/
def hex4 (n : Nat) : Str :=
  [hexDigit (n / 4096 % 16), hexDigit (n / 256 % 16), hexDigit (n / 16 % 16), hexDigit (n % 16)]

/-- Escape one code point of a JSON string (`ensure_ascii=True`). -/
def escCp (n : Nat) : Str :=
  if n = 0x22 then [0x5C, 0x22]
  else if n = 0x5C then [0x5C, 0x5C]
  else if n = 8 then [0x5C, 0x62]
  else if n = 12 then [0x5C, 0x66]
  else if n = 10 then [0x5C, 0x6E]
  else if n = 13 then [0x5C, 0x72]
  else if n = 9 then [0x5C, 0x74]
  else if n < 0x20 then [0x5C, 0x75] ++ hex4 n
  else if n ≤ 0x7E then [n]
  else if n < 0x10000 then [0x5C, 0x75] ++ hex4 n
  else [0x5C, 0x75] ++ hex4 (0xD800 + (n - 0x10000) / 1024)
    ++ [0x5C, 0x75] ++ hex4 (0xDC00 + (n - 0x10000) % 1024)

/-- Escape a whole string. -/
def escStr : Str → Str
  | [] => []
  | c :: cs => escCp c ++ escStr cs

/-- Serialize a value.  The `tail` flag distinguishes serializing a whole
value (`false`) from continuing inside an array/object chain (`true`), which
lets all of `dumps` be one structural recursion.  In tail position an
array/object chain emits the item separator before each further element and
the closing bracket at `anil`/`onil`. -/
def dmp (isep ksep : Str) : Bool → Json → Str
  | false, .jnull => strCp "null"
  | false, .jbool true => strCp "true"
  | false, .jbool false => strCp "false"
  | false, .jnum t => t
  | false, .jstr s => [0x22] ++ escStr s ++ [0x22]
  | false, .anil => [0x5B, 0x5D]
  | false, .acons h t => [0x5B] ++ dmp isep ksep false h ++ dmp isep ksep true t
  | false, .onil => [0x7B, 0x7D]
  | false, .ocons k v t =>
      [0x7B, 0x22] ++ escStr k ++ [0x22] ++ ksep ++ dmp isep ksep false v ++ dmp isep ksep true t
  | true, .anil => [0x5D]
  | true, .acons h t => isep ++ dmp isep ksep false h ++ dmp isep ksep true t
  | true, .onil => [0x7D]
  | true, .ocons k v t =>
      isep ++ [0x22] ++ escStr k ++ [0x22] ++ ksep ++ dmp isep ksep false v ++ dmp isep ksep true t
  | true, _ => []

/-- `json.dumps(v, separators=(",", ":"))` — the compact form used for
response lines (source line 61). -/
def dumpsC (v : Json) : Str := dmp [0x2C] [0x3A] false v

/-- `json.dumps(v)` with the default separators `(", ", ": ")` — used for the
request body rewrite (source line 82). -/
def dumpsD (v : Json) : Str := dmp [0x2C, 0x20] [0x3A, 0x20] false v

/-! ## `json.loads`

A fueled recursive-descent scanner mirroring CPython's `json` module:
the same whitespace set, string-escape rules (including lone surrogates,
representable here because strings are code-point lists), number token regex,
`NaN`/`Infinity`/`-Infinity` constants, last-wins duplicate keys, and the
whole-input requirement of `json.loads`. -/

/-- JSON whitespace (`' '`, `\t`, `\n`, `\r`). -/
def isWsCp (c : Nat) : Bool := c = 0x20 || c = 9 || c = 10 || c = 13

/-- Skip JSON whitespace. -/
def skipWs (s : Str) : Str := List.dropWhile isWsCp s

/-- ASCII decimal digit? -/
def isDigitCp (c : Nat) : Bool := 48 ≤ c && c ≤ 57

/-- Value of a hex digit code point (either case). -/
def hexVal (c : Nat) : Option Nat :=
  if 48 ≤ c && c ≤ 57 then some (c - 48)
  else if 97 ≤ c && c ≤ 102 then some (c - 87)
  else if 65 ≤ c && c ≤ 70 then some (c - 55)
  else none

/-- Scan the body of a JSON string (after the opening quote), returning the
decoded code points and the remainder after the closing quote.  Mirrors
CPython `py_scanstring` in strict mode: raw control characters are rejected,
`\uXXXX` escapes combine surrogate pairs and keep lone surrogates.  The
fuel argument (one unit per scanned code point) only makes the recursion
structural; `parseStrBody` below supplies enough for any input. -/
def parseStrB : Nat → Str → Option (Str × Str)
  | 0, _ => none
  | _ + 1, [] => none
  | fuel + 1, c :: rest =>
    if c = 0x22 then some ([], rest)
    else if c = 0x5C then
      match rest with
      | [] => none
      | e :: rest1 =>
        if e = 0x22 then (fun p => (0x22 :: p.1, p.2)) <$> parseStrB fuel rest1
        else if e = 0x5C then (fun p => (0x5C :: p.1, p.2)) <$> parseStrB fuel rest1
        else if e = 0x2F then (fun p => (0x2F :: p.1, p.2)) <$> parseStrB fuel rest1
        else if e = 0x62 then (fun p => (8 :: p.1, p.2)) <$> parseStrB fuel rest1
        else if e = 0x66 then (fun p => (12 :: p.1, p.2)) <$> parseStrB fuel rest1
        else if e = 0x6E then (fun p => (10 :: p.1, p.2)) <$> parseStrB fuel rest1
        else if e = 0x72 then (fun p => (13 :: p.1, p.2)) <$> parseStrB fuel rest1
        else if e = 0x74 then (fun p => (9 :: p.1, p.2)) <$> parseStrB fuel rest1
        else if e = 0x75 then
          match rest1 with
          | h1 :: h2 :: h3 :: h4 :: rest2 =>
            match hexVal h1, hexVal h2, hexVal h3, hexVal h4 with
            | some x1, some x2, some x3, some x4 =>
              let u := x1 * 4096 + x2 * 256 + x3 * 16 + x4
              if 0xD800 ≤ u && u ≤ 0xDBFF then
                match rest2 with
                | a :: b :: g1 :: g2 :: g3 :: g4 :: rest3 =>
                  match hexVal g1, hexVal g2, hexVal g3, hexVal g4 with
                  | some y1, some y2, some y3, some y4 =>
                    let u2 := y1 * 4096 + y2 * 256 + y3 * 16 + y4
                    if a = 0x5C && b = 0x75 && (0xDC00 ≤ u2 && u2 ≤ 0xDFFF) then
                      (fun p => ((0x10000 + (u - 0xD800) * 1024 + (u2 - 0xDC00)) :: p.1, p.2))
                        <$> parseStrB fuel rest3
                    else
                      (fun p => (u :: p.1, p.2)) <$>
                        parseStrB fuel (a :: b :: g1 :: g2 :: g3 :: g4 :: rest3)
                  | _, _, _, _ =>
                    (fun p => (u :: p.1, p.2)) <$>
                      parseStrB fuel (a :: b :: g1 :: g2 :: g3 :: g4 :: rest3)
                | short => (fun p => (u :: p.1, p.2)) <$> parseStrB fuel short
              else (fun p => (u :: p.1, p.2)) <$> parseStrB fuel rest2
            | _, _, _, _ => none
          | _ => none
        else none
    else if c < 0x20 then none
    else (fun p => (c :: p.1, p.2)) <$> parseStrB fuel rest

/-- `parseStrB` with always-sufficient fuel (the scanner consumes at least
one input code point per step). -/
def parseStrBody (s : Str) : Option (Str × Str) := parseStrB (s.length + 1) s

/-- The optional fraction part `(\.\d+)?` of a number token. -/
def scanFrac (s : Str) : Str × Str :=
  match s with
  | 46 :: d :: r =>
    if isDigitCp d then
      let (ds, r2) := List.span isDigitCp r
      (46 :: d :: ds, r2)
    else ([], s)
  | _ => ([], s)

/-- The optional exponent part `([eE][-+]?\d+)?` of a number token. -/
def scanExp (s : Str) : Str × Str :=
  match s with
  | e :: sg :: d :: r =>
    if e = 0x65 ∨ e = 0x45 then
      if (sg = 43 ∨ sg = 45) ∧ isDigitCp d then
        let (ds, r2) := List.span isDigitCp r
        (e :: sg :: d :: ds, r2)
      else if isDigitCp sg then
        let (ds, r2) := List.span isDigitCp (d :: r)
        (e :: sg :: ds, r2)
      else ([], s)
    else ([], s)
  | [e, d] =>
    if (e = 0x65 ∨ e = 0x45) ∧ isDigitCp d then ([e, d], []) else ([], s)
  | _ => ([], s)

/-- Scan a number token per CPython's `NUMBER_RE`
(`-?(0|[1-9]\d*)(\.\d+)?([eE][-+]?\d+)?`), returning the token and the
remainder; `none` when no number starts here. -/
def scanNum (s : Str) : Option (Str × Str) :=
  let (neg, s1) : Str × Str := match s with
    | 45 :: r => ([45], r)
    | _ => ([], s)
  match s1 with
  | [] => none
  | c :: r =>
    if c = 48 then
      let (frac, s2) := scanFrac r
      let (ex, s3) := scanExp s2
      some (neg ++ [48] ++ frac ++ ex, s3)
    else if 49 ≤ c ∧ c ≤ 57 then
      let (ds, rest0) := List.span isDigitCp r
      let (frac, s2) := scanFrac rest0
      let (ex, s3) := scanExp s2
      some (neg ++ (c :: ds) ++ frac ++ ex, s3)
    else none

/-- Parser task: a whole value, the continuation of an array after at least
one element, or the continuation of an object positioned at a key. -/
inductive PTask where
  | pv : PTask
  | pa : List Json → PTask
  | po : Json → PTask

/-- The fueled scanner.  `pv` scans one JSON value exactly like CPython's
`scan_once` (no leading-whitespace skip; containers skip whitespace
internally); `pa acc` continues an array (expects `,` or `]`); `po acc`
continues an object (expects a quoted key). -/
def parseF : Nat → PTask → Str → Option (Json × Str)
  | 0, _, _ => none
  | _ + 1, .pv, [] => none
  | fuel + 1, .pv, c :: rest =>
    if c = 0x22 then
      (fun p => (Json.jstr p.1, p.2)) <$> parseStrBody rest
    else if c = 0x5B then
      let s1 := skipWs rest
      match s1 with
      | 0x5D :: r => some (Json.anil, r)
      | _ =>
        match parseF fuel .pv s1 with
        | some (v, r1) => parseF fuel (.pa [v]) r1
        | none => none
    else if c = 0x7B then
      let s1 := skipWs rest
      match s1 with
      | 0x7D :: r => some (Json.onil, r)
      | _ => parseF fuel (.po Json.onil) s1
    else if (strCp "null").isPrefixOf (c :: rest) then
      some (Json.jnull, (c :: rest).drop 4)
    else if (strCp "true").isPrefixOf (c :: rest) then
      some (Json.jbool true, (c :: rest).drop 4)
    else if (strCp "false").isPrefixOf (c :: rest) then
      some (Json.jbool false, (c :: rest).drop 5)
    else
      match scanNum (c :: rest) with
      | some (tok, r) => some (Json.jnum tok, r)
      | none =>
        if (strCp "NaN").isPrefixOf (c :: rest) then
          some (Json.jnum (strCp "NaN"), (c :: rest).drop 3)
        else if (strCp "Infinity").isPrefixOf (c :: rest) then
          some (Json.jnum (strCp "Infinity"), (c :: rest).drop 8)
        else if (strCp "-Infinity").isPrefixOf (c :: rest) then
          some (Json.jnum (strCp "-Infinity"), (c :: rest).drop 9)
        else none
  | fuel + 1, .pa acc, s =>
    let s1 := skipWs s
    match s1 with
    | 0x5D :: r => some (Json.listToArr acc, r)
    | 0x2C :: r =>
      match parseF fuel .pv (skipWs r) with
      | some (v, r1) => parseF fuel (.pa (acc ++ [v])) r1
      | none => none
    | _ => none
  | fuel + 1, .po acc, s =>
    match s with
    | 0x22 :: r =>
      match parseStrBody r with
      | some (k, r1) =>
        match skipWs r1 with
        | 0x3A :: r2 =>
          match parseF fuel .pv (skipWs r2) with
          | some (v, r3) =>
            let acc2 := Json.objSet acc k v
            match skipWs r3 with
            | 0x7D :: r4 => some (acc2, r4)
            | 0x2C :: r4 => parseF fuel (.po acc2) (skipWs r4)
            | _ => none
          | none => none
        | _ => none
      | none => none
    | _ => none

/-- `json.loads` on a Python `str`: skip leading whitespace, scan one value,
require only whitespace to remain.  `none` models `JSONDecodeError`. -/
def loads (s : Str) : Option Json :=
  let t := skipWs s
  match parseF (t.length + 1) .pv t with
  | some (j, r) => if skipWs r = [] then some j else none
  | none => none

/-! ## Well-formed JSON values

`wf` characterizes the values `loads` can produce (with string values and
keys of the kind any CPython `str` reachable here can hold): array/object
chains are built from the chain constructors, object keys are distinct,
number tokens match the scanner, and strings never carry a high surrogate
immediately followed by a low one (the scanner would have combined those).
`dumps` followed by `loads` is the identity on such values. -/

/-- A representable code point (any CPython `str` element). -/
def cpOK (n : Nat) : Bool := n < 0x110000

/-- High (leading) surrogate code point. -/
def isHiSurr (n : Nat) : Bool := 0xD800 ≤ n && n ≤ 0xDBFF

/-- Low (trailing) surrogate code point. -/
def isLoSurr (n : Nat) : Bool := 0xDC00 ≤ n && n ≤ 0xDFFF

/-- No high surrogate is immediately followed by a low surrogate. -/
def noHiLo : Str → Bool
  | a :: b :: rest => !(isHiSurr a && isLoSurr b) && noHiLo (b :: rest)
  | _ => true

/-- A string value/key as the scanner can produce it. -/
def wfStr (s : Str) : Bool := s.all cpOK && noHiLo s

/-- A number token as the scanner can produce it. -/
def numTokOK (t : Str) : Bool :=
  scanNum t == some (t, []) || t == strCp "NaN" || t == strCp "Infinity"
    || t == strCp "-Infinity"

/-- The tail of an array value is again an array value. -/
def wfArrChain : Json → Bool
  | .anil => true
  | .acons _ t => wfArrChain t
  | _ => false

/-- The tail of an object value is again an object value. -/
def wfObjChain : Json → Bool
  | .onil => true
  | .ocons _ _ t => wfObjChain t
  | _ => false

/-- Well-formed JSON values (see the section comment). -/
def wf : Json → Bool
  | .jnull => true
  | .jbool _ => true
  | .jnum t => numTokOK t
  | .jstr s => wfStr s
  | .anil => true
  | .acons h t => wf h && wfArrChain t && wf t
  | .onil => true
  | .ocons k v t => wfStr k && wf v && wfObjChain t && wf t && !t.objHasKey k

/-- Does the string start with a `\uXXXX` escape denoting a low surrogate?
Exactly the inputs on which `parseStrB` can emit a leading low-surrogate
code point. -/
def isLoEsc : Str → Bool
  | 0x5C :: 0x75 :: h1 :: h2 :: h3 :: h4 :: _ =>
    match hexVal h1, hexVal h2, hexVal h3, hexVal h4 with
    | some x1, some x2, some x3, some x4 =>
      isLoSurr (x1 * 4096 + x2 * 256 + x3 * 16 + x4)
    | _, _, _, _ => false
  | _ => false

/-- Invariant carried by the parser's task accumulators: array accumulators
hold well-formed elements, object accumulators are well-formed objects. -/
def taskPre : PTask → Prop
  | .pv => True
  | .pa acc => ∀ x ∈ acc, wf x = true
  | .po acc => wf acc = true ∧ acc.isObj = true

/-! ## Python operations that can raise

These model the attribute accesses, iterations, `in` tests and item
assignments that `fix_sse_line` performs on parsed JSON values, together
with the exception each raises when the value has an unexpected type. -/

/-- `v.get(key, default)`.  Only dicts have `.get`; on any other value the
attribute access raises `AttributeError`. -/
def pyGetDefault (v : Json) (key : Str) (dflt : Json) : Except PyErr Json :=
  match v with
  | .onil => .ok dflt
  | .ocons _ _ _ => .ok ((v.objLookup key).getD dflt)
  | _ => .error .attributeError

/-- `for x in v`: a list yields its elements, a dict its keys, a str its
characters (as 1-character strings); `None`, booleans and numbers are not
iterable (`TypeError`). -/
def pyIterElems (v : Json) : Except PyErr (List Json) :=
  match v with
  | .anil => .ok []
  | .acons _ _ => .ok v.arrElems
  | .onil => .ok []
  | .ocons _ _ _ => .ok (v.objPairs.map (fun kv => Json.jstr kv.1))
  | .jstr s => .ok (s.map (fun c => Json.jstr [c]))
  | _ => .error .typeError

/-- Contiguous-substring test (`needle in s` on Python strs). -/
def strContains (needle : Str) : Str → Bool
  | [] => needle = []
  | c :: rest => needle.isPrefixOf (c :: rest) || strContains needle rest

/-- `needle in v` for a `str` needle: key test on a dict, substring test on a
str, `==`-membership on a list (a str equals only an equal str); `TypeError`
on non-containers. -/
def pyContains (needle : Str) (v : Json) : Except PyErr Bool :=
  match v with
  | .onil => .ok false
  | .ocons _ _ _ => .ok (v.objHasKey needle)
  | .jstr s => .ok (strContains needle s)
  | .anil => .ok false
  | .acons _ _ => .ok (v.arrElems.any (fun e => e == Json.jstr needle))
  | _ => .error .typeError

/-- `v[key] = x` for a `str` key: valid on dicts, `TypeError` on anything
else (lists want integer indices, strs and scalars reject item assignment). -/
def pySetItem (v : Json) (key : Str) (x : Json) : Except PyErr Json :=
  match v with
  | .onil => .ok (v.objSet key x)
  | .ocons _ _ _ => .ok (v.objSet key x)
  | _ => .error .typeError

/-- `v.startswith(pre)`: only strs have `.startswith`. -/
def pyStartswith (v : Json) (pre : Str) : Except PyErr Bool :=
  match v with
  | .jstr s => .ok (pre.isPrefixOf s)
  | _ => .error .attributeError

/-- Per-process configuration: `MODEL_NAME` (`sys.argv[3]` or `""`). -/
structure Config where
  modelName : Str

/-! ## The Event Rewriter `fix_sse_line` (source lines 28-62)

Python mutates the parsed payload in place; here each `for` loop returns the
mutated elements and the enclosing containers are rebuilt at the same keys
(`json.loads` never produces aliased nodes, so this is the same payload). -/

/-- Loop body of source lines 50-52 for one `tc`:
`if "index" not in tc: tc["index"] = 0` (and record the mutation). -/
def fixOneTc (tc : Json) : Except PyErr (Json × Bool) := do
  let has ← pyContains (strCp "index") tc
  if has then pure (tc, false)
  else do
    let tc2 ← pySetItem tc (strCp "index") (Json.jnum [48])
    pure (tc2, true)

/-- The loop of source lines 50-52 over the elements of `tool_calls`,
left to right, stopping at the first exception as Python does. -/
def fixTcList : List Json → Except PyErr (List Json × Bool)
  | [] => pure ([], false)
  | t :: ts => do
    let (t2, c1) ← fixOneTc t
    let (ts2, c2) ← fixTcList ts
    pure (t2 :: ts2, c1 || c2)

/-- Source lines 49-52 for one `choice`: `delta = choice.get("delta", {})`,
iterate `delta.get("tool_calls", [])`, patch each element.  The mutated
elements are visible in the payload only where Python's aliasing would make
them so: when `tool_calls` is an actual list stored under its key (a `.get`
default is a fresh object whose mutation is dropped, and string/dict
iteration yields fresh key/char strings). -/
def fixChoice (choice : Json) : Except PyErr (Json × Bool) := do
  let delta ← pyGetDefault choice (strCp "delta") Json.onil
  let tcv ← pyGetDefault delta (strCp "tool_calls") Json.anil
  let elems ← pyIterElems tcv
  let (elems2, ch) ← fixTcList elems
  let tcv2 := if tcv.isArr then Json.listToArr elems2 else tcv
  let delta2 := if delta.objHasKey (strCp "tool_calls") then
      delta.objSet (strCp "tool_calls") tcv2 else delta
  let choice2 := if choice.objHasKey (strCp "delta") then
      choice.objSet (strCp "delta") delta2 else choice
  pure (choice2, ch)

/-- The outer loop of source line 48 over the choices. -/
def fixChoiceList : List Json → Except PyErr (List Json × Bool)
  | [] => pure ([], false)
  | c :: cs => do
    let (c2, ch1) ← fixChoice c
    let (cs2, ch2) ← fixChoiceList cs
    pure (c2 :: cs2, ch1 || ch2)

/-- Fix 2 (source lines 48-53): add missing `"index"` to tool_calls deltas. -/
def fixChoices (payload : Json) : Except PyErr (Json × Bool) := do
  let cv ← pyGetDefault payload (strCp "choices") Json.anil
  let elems ← pyIterElems cv
  let (elems2, ch) ← fixChoiceList elems
  let cv2 := if cv.isArr then Json.listToArr elems2 else cv
  let payload2 := if payload.objHasKey (strCp "choices") then
      payload.objSet (strCp "choices") cv2 else payload
  pure (payload2, ch)

/-- Fix 3 (source lines 56-58): rewrite a `gpt-4o-mini*` model name to the
configured one.  `MODEL_NAME and ...` short-circuits, so nothing is
evaluated when no model is configured. -/
def fixModel (cfg : Config) (payload : Json) : Except PyErr (Json × Bool) :=
  if cfg.modelName = [] then pure (payload, false)
  else do
    let m ← pyGetDefault payload (strCp "model") (Json.jstr [])
    let b ← pyStartswith m (strCp "gpt-4o-mini")
    if b then pure (payload.objSet (strCp "model") (Json.jstr cfg.modelName), true)
    else pure (payload, false)

/-- Fix 1 (source lines 33-34): insert the space after `data:` when missing. -/
def normalizeDataLine (line : Str) : Str :=
  if (strCp "data:").isPrefixOf line && !((strCp "data: ").isPrefixOf line)
  then strCp "data: " ++ line.drop 5 else line

/-! ### Pure forms of the fixes

When a run of fixes 2 and 3 raises no exception, the mutated payload and the
`changed` flag are the following pure functions of the input payload; the
lemmas `fixChoices_elim`/`fixModel_elim` below establish this. -/

/-- Does fix 2 mutate this element?  (Only dict elements without an `index`
key are assigned; any other element either passes the `in` test or raises.) -/
def tcFlag (tc : Json) : Bool := tc.isObj && !tc.objHasKey (strCp "index")

/-- A tool-call element after fix 2. -/
def tcFixed (tc : Json) : Json :=
  if tcFlag tc then tc.objSet (strCp "index") (Json.jnum [48]) else tc

/-- A choice after fix 2 (mutations are visible only through an actual
`tool_calls` list stored under its key, mirroring Python's aliasing). -/
def choiceFixed (c : Json) : Json :=
  let delta := (c.objLookup (strCp "delta")).getD Json.onil
  let tcv := (delta.objLookup (strCp "tool_calls")).getD Json.anil
  let tcv2 := if tcv.isArr then Json.listToArr (tcv.arrElems.map tcFixed) else tcv
  let delta2 := if delta.objHasKey (strCp "tool_calls") then
      delta.objSet (strCp "tool_calls") tcv2 else delta
  if c.objHasKey (strCp "delta") then c.objSet (strCp "delta") delta2 else c

/-- Does fix 2 mutate anything under this choice? -/
def choiceFlag (c : Json) : Bool :=
  let delta := (c.objLookup (strCp "delta")).getD Json.onil
  let tcv := (delta.objLookup (strCp "tool_calls")).getD Json.anil
  tcv.isArr && tcv.arrElems.any tcFlag

/-- The payload after fix 2. -/
def payloadFixed (p : Json) : Json :=
  let cv := (p.objLookup (strCp "choices")).getD Json.anil
  let cv2 := if cv.isArr then Json.listToArr (cv.arrElems.map choiceFixed) else cv
  if p.objHasKey (strCp "choices") then p.objSet (strCp "choices") cv2 else p

/-- Does fix 2 mutate anything in this payload? -/
def payloadFlag (p : Json) : Bool :=
  let cv := (p.objLookup (strCp "choices")).getD Json.anil
  cv.isArr && cv.arrElems.any choiceFlag

/-- Does fix 3 rewrite the model? -/
def modelFlag (cfg : Config) (p : Json) : Bool :=
  !cfg.modelName.isEmpty &&
    (match p.objLookup (strCp "model") with
     | some (Json.jstr s) => (strCp "gpt-4o-mini").isPrefixOf s
     | _ => false)

/-- The payload after fix 3. -/
def modelFixed (cfg : Config) (p : Json) : Json :=
  if modelFlag cfg p then p.objSet (strCp "model") (Json.jstr cfg.modelName) else p

/-- `fix_sse_line` (source lines 28-62).  The result is `ok` with the bytes
the Python function returns, or `error` with the exception it raises. -/
def fix_sse_line (cfg : Config) (lineBytes : Bytes) : Except PyErr Bytes :=
  let line := normalizeDataLine (utf8Decode lineBytes)
  if !((strCp "data: \x7b").isPrefixOf line) then .ok (utf8Encode line)
  else
    match loads (line.drop 6) with
    | none => .ok (utf8Encode line)
    | some payload => do
      let (p1, c1) ← fixChoices payload
      let (p2, c2) ← fixModel cfg p1
      if c1 || c2 then .ok (utf8Encode (strCp "data: " ++ dumpsC p2))
      else .ok (utf8Encode line)

/-! ## The streaming loop `_stream_sse` (source lines 129-156)

The output is the list of byte chunks written to the client, one entry per
`self.wfile.write` call, paired with the exception that escaped the loop, if
any (`BrokenPipeError`/`ConnectionResetError` are out of scope: the claims
assume the client stays connected).  An escaped exception aborts the loop
before the missing-sentinel synthesis, exactly as in the source, where the
`if not saw_done` block is only reached when the `for` loop completes. -/

/-- The canonical sentinel write, `b"data: [DONE]\n\n"`. -/
def doneChunk : Bytes := strCp "data: [DONE]\n\n"

/-- The loop of `_stream_sse` over the remaining upstream lines, carrying
`saw_done`. -/
def streamRun (cfg : Config) : List Bytes → Bool → List Bytes × Option PyErr
  | [], sawDone => (if sawDone then [] else [doneChunk], none)
  | raw :: rest, sawDone =>
    let r := rstripCrLf raw
    if r = strCp "data: [DONE]" ∨ r = strCp "data:[DONE]" then
      let (cs, e) := streamRun cfg rest true
      (doneChunk :: cs, e)
    else
      match fix_sse_line cfg r with
      | .error e => ([], some e)
      | .ok fixed =>
        let (cs, e) := streamRun cfg rest sawDone
        ((fixed ++ [10]) ::
          (if (strCp "data: ").isPrefixOf fixed then [10] :: cs else cs), e)

/-- `_stream_sse` on an upstream body: iterate its lines with
`saw_done = False`. -/
def streamSse (cfg : Config) (body : Bytes) : List Bytes × Option PyErr :=
  streamRun cfg (splitLines body) false

/-- The client-visible byte stream (all chunks concatenated). -/
def streamBytes (cfg : Config) (body : Bytes) : Bytes :=
  (streamSse cfg body).1.flatten

/-! ## The request-body rewrite in `ProxyHandler._proxy` (source lines 73-84) -/

/-- UTF-8 decoding with `errors="surrogatepass"` (`None` on any other
invalid sequence), as CPython's `json.loads` uses on `bytes`: a
`UnicodeDecodeError` is a `ValueError`, caught by the handler.  Relative to
strict UTF-8, the only change is that after a leading `0xED` the first
continuation byte may run up to `0xBF`, admitting the three-byte encodings
`ED A0 80` – `ED BF BF` of the surrogates `U+D800` – `U+DFFF`; overlongs,
out-of-range and truncated sequences still fail. -/
def utf8DecodeSP : Bytes → Option Str
  | [] => some []
  | b0 :: rest =>
    if b0 < 0x80 then (fun s => b0 :: s) <$> utf8DecodeSP rest
    else if 0xC2 ≤ b0 && b0 ≤ 0xDF then
      match rest with
      | [] => none
      | b1 :: rest1 =>
        if isCont 0x80 0xBF b1 then
          (fun s => ((b0 - 0xC0) * 64 + (b1 - 0x80)) :: s) <$> utf8DecodeSP rest1
        else none
    else if 0xE0 ≤ b0 && b0 ≤ 0xEF then
      match rest with
      | b1 :: b2 :: rest2 =>
        if isCont (cont3lo b0) 0xBF b1 && isCont 0x80 0xBF b2 then
          (fun s => ((b0 - 0xE0) * 4096 + (b1 - 0x80) * 64 + (b2 - 0x80)) :: s)
            <$> utf8DecodeSP rest2
        else none
      | _ => none
    else if 0xF0 ≤ b0 && b0 ≤ 0xF4 then
      match rest with
      | b1 :: b2 :: b3 :: rest3 =>
        if isCont (cont4lo b0) (cont4hi b0) b1 && isCont 0x80 0xBF b2
            && isCont 0x80 0xBF b3 then
          (fun s => ((b0 - 0xF0) * 262144 + (b1 - 0x80) * 4096 + (b2 - 0x80) * 64
              + (b3 - 0x80)) :: s) <$> utf8DecodeSP rest3
        else none
      | _ => none
    else none

/-- Split a byte string into UTF-16 code units of the given endianness;
`none` on an odd trailing byte (CPython: "truncated data", an error
`surrogatepass` does not handle). -/
def utf16Units (le : Bool) : Bytes → Option (List Nat)
  | [] => some []
  | [_] => none
  | b0 :: b1 :: rest =>
    (fun us => (if le then b1 * 256 + b0 else b0 * 256 + b1) :: us)
      <$> utf16Units le rest

/-- Combine UTF-16 code units into code points: a high surrogate directly
followed by a low one pairs up; with `errors="surrogatepass"` any lone
surrogate passes through as its own code point.  Fueled (one unit of fuel
per consumed code unit suffices). -/
def utf16CombineF : Nat → List Nat → Str
  | _, [] => []
  | 0, us => us
  | fuel + 1, u :: us =>
    if 0xD800 ≤ u && u ≤ 0xDBFF then
      match us with
      | v :: us2 =>
        if 0xDC00 ≤ v && v ≤ 0xDFFF then
          (0x10000 + (u - 0xD800) * 1024 + (v - 0xDC00)) :: utf16CombineF fuel us2
        else u :: utf16CombineF fuel (v :: us2)
      | [] => [u]
    else u :: utf16CombineF fuel us

/-- `bytes.decode("utf-16-le"/"utf-16-be", errors="surrogatepass")`. -/
def utf16DecodeSP (le : Bool) (bs : Bytes) : Option Str :=
  (fun us => utf16CombineF us.length us) <$> utf16Units le bs

/-- `bytes.decode("utf-32-le"/"utf-32-be", errors="surrogatepass")`:
surrogate code points pass, values above `0x10FFFF` and truncated units
still fail. -/
def utf32DecodeSP (le : Bool) : Bytes → Option Str
  | [] => some []
  | b0 :: b1 :: b2 :: b3 :: rest =>
    (fun u => if u < 0x110000 then (fun s => u :: s) <$> utf32DecodeSP le rest
              else none)
      (if le then ((b3 * 256 + b2) * 256 + b1) * 256 + b0
       else ((b0 * 256 + b1) * 256 + b2) * 256 + b3)
  | _ => none

/-- `json.detect_encoding` followed by the `surrogatepass` decode (CPython
`json/__init__.py`): a UTF-32/16/8 BOM picks the codec (and is stripped);
otherwise NUL bytes among the first four (or exactly two) bytes select a
UTF-16/32 endianness, defaulting to UTF-8. -/
def pyJsonDecode (b : Bytes) : Option Str :=
  if [0x00, 0x00, 0xFE, 0xFF].isPrefixOf b then utf32DecodeSP false (b.drop 4)
  else if [0xFF, 0xFE, 0x00, 0x00].isPrefixOf b then utf32DecodeSP true (b.drop 4)
  else if [0xFE, 0xFF].isPrefixOf b then utf16DecodeSP false (b.drop 2)
  else if [0xFF, 0xFE].isPrefixOf b then utf16DecodeSP true (b.drop 2)
  else if [0xEF, 0xBB, 0xBF].isPrefixOf b then utf8DecodeSP (b.drop 3)
  else
    match b with
    | b0 :: b1 :: b2 :: b3 :: _ =>
      if b0 = 0 then
        (if b1 ≠ 0 then utf16DecodeSP false b else utf32DecodeSP false b)
      else if b1 = 0 then
        (if b2 ≠ 0 ∨ b3 ≠ 0 then utf16DecodeSP true b else utf32DecodeSP true b)
      else utf8DecodeSP b
    | [b0, b1] =>
      if b0 = 0 then utf16DecodeSP false [b0, b1]
      else if b1 = 0 then utf16DecodeSP true [b0, b1]
      else utf8DecodeSP [b0, b1]
    | _ => utf8DecodeSP b

/-- `json.loads` on `bytes` (CPython): decode via `detect_encoding` with
`errors="surrogatepass"`, then parse the resulting text. -/
def loadsBytes (bs : Bytes) : Option Json :=
  match pyJsonDecode bs with
  | some s => loads s
  | none => none

/-! ## Predicates used to state the claims -/

/-- Is `n` a Unicode scalar value (what a Lean `Char`, or any code point of a
UTF-8 decoding, can be)? -/
def isScalar (n : Nat) : Bool := n < 0xD800 || (0xE000 ≤ n && n < 0x110000)

/-- Every code point of `s` is a scalar value. -/
def isScalarStr (s : Str) : Bool := s.all isScalar

/-- What `parseStrB` guarantees on all-scalar input `s`: the decoded string
has in-range code points, never a high surrogate directly followed by a low
one, the remainder is again all-scalar, and a leading low surrogate can only
come from a leading `\uXXXX` low-surrogate escape. -/
def strBOK (s out r : Str) : Prop :=
  out.all cpOK = true ∧ noHiLo out = true ∧ r.all isScalar = true ∧
    (∀ d ds, out = d :: ds → isLoSurr d = true → isLoEsc s = true)

/-- A byte string is valid UTF-8 iff it is the encoding of some scalar
string. -/
def ValidUtf8 (bs : Bytes) : Prop := ∃ s, isScalarStr s = true ∧ utf8Encode s = bs

/-- The JSON payload `fix_sse_line` would attempt to parse for this input
(`none` when the fast path returns before parsing, or parsing fails). -/
def linePayload (lineBytes : Bytes) : Option Json :=
  let line := normalizeDataLine (utf8Decode lineBytes)
  if !((strCp "data: \x7b").isPrefixOf line) then none
  else loads (line.drop 6)

/-- Shape condition on a `choice`'s `delta` under which fix 2 cannot raise:
if a `delta` key is present it holds a dict whose `tool_calls`, if present,
is a list of dicts. -/
def deltaShapeOK (c : Json) : Bool :=
  match c.objLookup (strCp "delta") with
  | none => true
  | some d => d.isObj &&
      (match d.objLookup (strCp "tool_calls") with
       | none => true
       | some tv => tv.isArr && tv.arrElems.all Json.isObj)

/-- Shape condition on `choices` under which fix 2 cannot raise: absent, or a
list of dicts each satisfying `deltaShapeOK`. -/
def choicesShapeOK (p : Json) : Bool :=
  match p.objLookup (strCp "choices") with
  | none => true
  | some cv => cv.isArr && cv.arrElems.all (fun c => c.isObj && deltaShapeOK c)

/-- Shape condition under which fix 3 cannot raise: no model configured, or
the `model` field absent or a string. -/
def modelShapeOK (cfg : Config) (p : Json) : Bool :=
  cfg.modelName.isEmpty ||
    (match p.objLookup (strCp "model") with
     | none => true
     | some (Json.jstr _) => true
     | some _ => false)

/-- Payload shape under which `fix_sse_line` cannot raise: a dict (which a
successfully parsed `data: {` payload always is) whose `choices` and `model`
fields are well-shaped. -/
def shapeOK (cfg : Config) (p : Json) : Bool :=
  p.isObj && choicesShapeOK p && modelShapeOK cfg p

/-- Claim C8's invariant on one `tool_calls` element, as written (an `index`
key, which only a dict can have). -/
def tcElemKeyed (e : Json) : Bool := e.objHasKey (strCp "index")

/-- The amended C8 invariant on one element: every dict element has an
`index` key (non-dict elements, which the rewriter leaves alone whenever it
does not raise, are exempt). -/
def tcElemIndexed (e : Json) : Bool := !e.isObj || e.objHasKey (strCp "index")

/-- Apply an element predicate across every `choices[*].delta.tool_calls[*]`
path of a payload (paths whose `choices`/`tool_calls` are not lists, or whose
`delta` is not a dict, carry no such array elements and are vacuously true). -/
def allTcElems (pred : Json → Bool) (p : Json) : Bool :=
  match p.objLookup (strCp "choices") with
  | none => true
  | some cv =>
    !cv.isArr || cv.arrElems.all (fun c =>
      match c.objLookup (strCp "delta") with
      | none => true
      | some d =>
        match d.objLookup (strCp "tool_calls") with
        | none => true
        | some tv => !tv.isArr || tv.arrElems.all pred)

/-- The claim C8 invariant as written: every element has an `index` key. -/
def allKeyed (p : Json) : Bool := allTcElems tcElemKeyed p

/-- The amended C8 invariant: every dict element has an `index` key. -/
def allIndexed (p : Json) : Bool := allTcElems tcElemIndexed p

/-- Does the streaming loop recognize this raw upstream line as the
termination sentinel (source line 135)? -/
def isSentinelLine (raw : Bytes) : Bool :=
  rstripCrLf raw == strCp "data: [DONE]" || rstripCrLf raw == strCp "data:[DONE]"

/-- Source lines 77-84: rewrite `gpt-4o-mini*` in the request body.  The
`except (JSONDecodeError, ValueError)` catches only parse/decode failures
(`loadsBytes = none`); an `AttributeError` from `.get`/`.startswith` on a
payload of unexpected type propagates, as in the source. -/
def rewriteRequestBody (cfg : Config) (body : Bytes) : Except PyErr Bytes :=
  if body ≠ [] ∧ cfg.modelName ≠ [] then
    match loadsBytes body with
    | none => .ok body
    | some rj => do
      let m ← pyGetDefault rj (strCp "model") (Json.jstr [])
      let b ← pyStartswith m (strCp "gpt-4o-mini")
      if b then .ok (utf8Encode (dumpsD (rj.objSet (strCp "model") (Json.jstr cfg.modelName))))
      else .ok body
  else .ok body

/-! ## Fuel accounting and folds for the parser roundtrip -/

/-- A lower bound on the fuel `parseF` needs to scan the serialized form of
a value; the roundtrip lemmas quantify over arbitrary extra fuel. -/
def cost : Json → Nat
  | .acons h t => cost h + cost t + 1
  | .ocons _ v t => cost v + cost t + 2
  | _ => 0

/-- The serialized form of an object chain as the `.po` parser task sees it:
everything after the opening `\x7b` (or after the separating `,`). -/
def poStr (isep ksep : Str) : Json → Str
  | .ocons k v t => [0x22] ++ escStr k ++ [0x22] ++ ksep ++ dmp isep ksep false v
      ++ dmp isep ksep true t
  | _ => []

/-- Folding the parser's `objSet` inserts over an object chain's pairs. -/
def objFold (acc : Json) : Json → Json
  | .ocons k v t => objFold (acc.objSet k v) t
  | _ => acc

/-- Concatenation of object chains. -/
def objCat : Json → Json → Json
  | .onil, t => t
  | .ocons k v a, t => .ocons k v (objCat a t)
  | x, _ => x

/-- The head of this string, if any, is not a decimal digit. -/
def nonDigitHead : Str → Bool
  | [] => true
  | d :: _ => !isDigitCp d

/-- What can follow a serialized value inside a dumped document: nothing, or
the separator/closer of the enclosing container. -/
def delimHead (X : Str) : Prop :=
  X = [] ∨ (∃ Y, X = 0x2C :: Y) ∨ (∃ Y, X = 0x5D :: Y) ∨ (∃ Y, X = 0x7D :: Y)

/-- The anatomy of a token `NUMBER_RE` can produce: optional sign, integer
part (`0` or a nonzero digit followed by digits), optional fraction,
optional exponent. -/
def numShape (tok : Str) : Prop :=
  ∃ neg c ds fr ex, tok = neg ++ (c :: ds) ++ fr ++ ex
    ∧ (neg = [] ∨ neg = [45])
    ∧ ((c = 48 ∧ ds = []) ∨ (49 ≤ c ∧ c ≤ 57 ∧ ds.all isDigitCp = true))
    ∧ (fr = [] ∨ ∃ d ds2, fr = 46 :: d :: ds2 ∧ isDigitCp d = true
        ∧ ds2.all isDigitCp = true)
    ∧ (ex = [] ∨ ∃ e sg ds2, ex = e :: sg :: ds2 ∧ (e = 0x65 ∨ e = 0x45)
        ∧ (((sg = 43 ∨ sg = 45) ∧ ∃ d ds3, ds2 = d :: ds3 ∧ isDigitCp d = true
              ∧ ds3.all isDigitCp = true)
          ∨ (isDigitCp sg = true ∧ ds2.all isDigitCp = true)))

/-! ## Lemmas: UTF-8 -/

set_option maxRecDepth 8192

theorem utf8Encode_append (s t : Str) : utf8Encode (s ++ t) = utf8Encode s ++ utf8Encode t := by
  induction s with
  | nil => rfl
  | cons c cs ih => simp [utf8Encode, ih]

/-- Decoder step: an ASCII byte. -/
theorem utf8Decode_ascii (b0 : Nat) (rest : Bytes) (h : b0 < 0x80) :
    utf8Decode (b0 :: rest) = b0 :: utf8Decode rest := by
  conv_lhs => rw [utf8Decode.eq_def]
  simp [h]

/-- Decoder step: a valid 2-byte sequence. -/
theorem utf8Decode_two (b0 b1 : Nat) (rest : Bytes)
    (h0 : 0xC2 ≤ b0 ∧ b0 ≤ 0xDF) (h1 : 0x80 ≤ b1 ∧ b1 ≤ 0xBF) :
    utf8Decode (b0 :: b1 :: rest) = ((b0 - 0xC0) * 64 + (b1 - 0x80)) :: utf8Decode rest := by
  conv_lhs => rw [utf8Decode.eq_def]
  have e0 : ¬ b0 < 0x80 := by omega
  have e1 : (0xC2 ≤ b0 && b0 ≤ 0xDF) = true := by
    simp only [Bool.and_eq_true, decide_eq_true_eq]; omega
  have e2 : isCont 0x80 0xBF b1 = true := by
    simp only [isCont, Bool.and_eq_true, decide_eq_true_eq]; omega
  simp [e0, e1, e2]

/-- Decoder step: a valid 3-byte sequence. -/
theorem utf8Decode_three (b0 b1 b2 : Nat) (rest : Bytes)
    (h0 : 0xE0 ≤ b0 ∧ b0 ≤ 0xEF) (h1 : cont3lo b0 ≤ b1 ∧ b1 ≤ cont3hi b0)
    (h2 : 0x80 ≤ b2 ∧ b2 ≤ 0xBF) :
    utf8Decode (b0 :: b1 :: b2 :: rest)
      = ((b0 - 0xE0) * 4096 + (b1 - 0x80) * 64 + (b2 - 0x80)) :: utf8Decode rest := by
  conv_lhs => rw [utf8Decode.eq_def]
  have e0 : ¬ b0 < 0x80 := by omega
  have e1 : ¬ (0xC2 ≤ b0 && b0 ≤ 0xDF) = true := by
    simp only [Bool.and_eq_true, decide_eq_true_eq]; omega
  have e2 : (0xE0 ≤ b0 && b0 ≤ 0xEF) = true := by
    simp only [Bool.and_eq_true, decide_eq_true_eq]; omega
  have e3 : isCont (cont3lo b0) (cont3hi b0) b1 = true := by
    simp only [isCont, Bool.and_eq_true, decide_eq_true_eq]; omega
  have e4 : isCont 0x80 0xBF b2 = true := by
    simp only [isCont, Bool.and_eq_true, decide_eq_true_eq]; omega
  simp [e0, e1, e2, e3, e4]

/-- Decoder step: a valid 4-byte sequence. -/
theorem utf8Decode_four (b0 b1 b2 b3 : Nat) (rest : Bytes)
    (h0 : 0xF0 ≤ b0 ∧ b0 ≤ 0xF4) (h1 : cont4lo b0 ≤ b1 ∧ b1 ≤ cont4hi b0)
    (h2 : 0x80 ≤ b2 ∧ b2 ≤ 0xBF) (h3 : 0x80 ≤ b3 ∧ b3 ≤ 0xBF) :
    utf8Decode (b0 :: b1 :: b2 :: b3 :: rest)
      = ((b0 - 0xF0) * 262144 + (b1 - 0x80) * 4096 + (b2 - 0x80) * 64 + (b3 - 0x80))
          :: utf8Decode rest := by
  conv_lhs => rw [utf8Decode.eq_def]
  have e0 : ¬ b0 < 0x80 := by omega
  have e1 : ¬ (0xC2 ≤ b0 && b0 ≤ 0xDF) = true := by
    simp only [Bool.and_eq_true, decide_eq_true_eq]; omega
  have e2 : ¬ (0xE0 ≤ b0 && b0 ≤ 0xEF) = true := by
    simp only [Bool.and_eq_true, decide_eq_true_eq]; omega
  have e3 : (0xF0 ≤ b0 && b0 ≤ 0xF4) = true := by
    simp only [Bool.and_eq_true, decide_eq_true_eq]; omega
  have e4 : isCont (cont4lo b0) (cont4hi b0) b1 = true := by
    simp only [isCont, Bool.and_eq_true, decide_eq_true_eq]; omega
  have e5 : isCont 0x80 0xBF b2 = true := by
    simp only [isCont, Bool.and_eq_true, decide_eq_true_eq]; omega
  have e6 : isCont 0x80 0xBF b3 = true := by
    simp only [isCont, Bool.and_eq_true, decide_eq_true_eq]; omega
  simp [e0, e1, e2, e3, e4, e5, e6]

/-- Decoder step: a byte that can start no sequence (`0x80`-`0xC1`,
`0xF5` and above). -/
theorem utf8Decode_bad0 (b0 : Nat) (rest : Bytes) (h0 : ¬ b0 < 0x80)
    (h1 : ¬ (0xC2 ≤ b0 ∧ b0 ≤ 0xDF)) (h2 : ¬ (0xE0 ≤ b0 ∧ b0 ≤ 0xEF))
    (h3 : ¬ (0xF0 ≤ b0 ∧ b0 ≤ 0xF4)) :
    utf8Decode (b0 :: rest) = 0xFFFD :: utf8Decode rest := by
  conv_lhs => rw [utf8Decode.eq_def]
  have e1 : ¬ (0xC2 ≤ b0 && b0 ≤ 0xDF) = true := by
    simp only [Bool.and_eq_true, decide_eq_true_eq]; omega
  have e2 : ¬ (0xE0 ≤ b0 && b0 ≤ 0xEF) = true := by
    simp only [Bool.and_eq_true, decide_eq_true_eq]; omega
  have e3 : ¬ (0xF0 ≤ b0 && b0 ≤ 0xF4) = true := by
    simp only [Bool.and_eq_true, decide_eq_true_eq]; omega
  simp [h0, e1, e2, e3]

/-- Decoder step: a 2-byte starter with a bad continuation byte. -/
theorem utf8Decode_two_bad (b0 b1 : Nat) (rest : Bytes) (h0 : 0xC2 ≤ b0 ∧ b0 ≤ 0xDF)
    (h1 : ¬ (0x80 ≤ b1 ∧ b1 ≤ 0xBF)) :
    utf8Decode (b0 :: b1 :: rest) = 0xFFFD :: utf8Decode (b1 :: rest) := by
  conv_lhs => rw [utf8Decode.eq_def]
  have e0 : ¬ b0 < 0x80 := by omega
  have e1 : (0xC2 ≤ b0 && b0 ≤ 0xDF) = true := by
    simp only [Bool.and_eq_true, decide_eq_true_eq]; omega
  have e2 : ¬ isCont 0x80 0xBF b1 = true := by
    simp only [isCont, Bool.and_eq_true, decide_eq_true_eq]; omega
  simp [e0, e1, e2]

/-- Decoder step: a truncated 2-byte sequence at end of input. -/
theorem utf8Decode_two_trunc (b0 : Nat) (h0 : 0xC2 ≤ b0 ∧ b0 ≤ 0xDF) :
    utf8Decode [b0] = [0xFFFD] := by
  conv_lhs => rw [utf8Decode.eq_def]
  have e0 : ¬ b0 < 0x80 := by omega
  have e1 : (0xC2 ≤ b0 && b0 ≤ 0xDF) = true := by
    simp only [Bool.and_eq_true, decide_eq_true_eq]; omega
  simp [e0, e1]

/-- Decoder step: a 3-byte starter whose first continuation is invalid. -/
theorem utf8Decode_three_bad1 (b0 b1 : Nat) (rest : Bytes) (h0 : 0xE0 ≤ b0 ∧ b0 ≤ 0xEF)
    (h1 : ¬ (cont3lo b0 ≤ b1 ∧ b1 ≤ cont3hi b0)) :
    utf8Decode (b0 :: b1 :: rest) = 0xFFFD :: utf8Decode (b1 :: rest) := by
  conv_lhs => rw [utf8Decode.eq_def]
  have e0 : ¬ b0 < 0x80 := by omega
  have e1 : ¬ (0xC2 ≤ b0 && b0 ≤ 0xDF) = true := by
    simp only [Bool.and_eq_true, decide_eq_true_eq]; omega
  have e2 : (0xE0 ≤ b0 && b0 ≤ 0xEF) = true := by
    simp only [Bool.and_eq_true, decide_eq_true_eq]; omega
  have e3 : ¬ isCont (cont3lo b0) (cont3hi b0) b1 = true := by
    simp only [isCont, Bool.and_eq_true, decide_eq_true_eq]; omega
  simp [e0, e1, e2, e3]

/-- Decoder step: a 3-byte starter with a good first and bad second
continuation — one replacement for the 2-byte maximal subpart. -/
theorem utf8Decode_three_bad2 (b0 b1 b2 : Nat) (rest : Bytes) (h0 : 0xE0 ≤ b0 ∧ b0 ≤ 0xEF)
    (h1 : cont3lo b0 ≤ b1 ∧ b1 ≤ cont3hi b0) (h2 : ¬ (0x80 ≤ b2 ∧ b2 ≤ 0xBF)) :
    utf8Decode (b0 :: b1 :: b2 :: rest) = 0xFFFD :: utf8Decode (b2 :: rest) := by
  conv_lhs => rw [utf8Decode.eq_def]
  have e0 : ¬ b0 < 0x80 := by omega
  have e1 : ¬ (0xC2 ≤ b0 && b0 ≤ 0xDF) = true := by
    simp only [Bool.and_eq_true, decide_eq_true_eq]; omega
  have e2 : (0xE0 ≤ b0 && b0 ≤ 0xEF) = true := by
    simp only [Bool.and_eq_true, decide_eq_true_eq]; omega
  have e3 : isCont (cont3lo b0) (cont3hi b0) b1 = true := by
    simp only [isCont, Bool.and_eq_true, decide_eq_true_eq]; omega
  have e4 : ¬ isCont 0x80 0xBF b2 = true := by
    simp only [isCont, Bool.and_eq_true, decide_eq_true_eq]; omega
  simp [e0, e1, e2, e3, e4]

/-- Decoder step: a truncated 3-byte sequence (only the starter). -/
theorem utf8Decode_three_trunc1 (b0 : Nat) (h0 : 0xE0 ≤ b0 ∧ b0 ≤ 0xEF) :
    utf8Decode [b0] = [0xFFFD] := by
  conv_lhs => rw [utf8Decode.eq_def]
  have e0 : ¬ b0 < 0x80 := by omega
  have e1 : ¬ (0xC2 ≤ b0 && b0 ≤ 0xDF) = true := by
    simp only [Bool.and_eq_true, decide_eq_true_eq]; omega
  have e2 : (0xE0 ≤ b0 && b0 ≤ 0xEF) = true := by
    simp only [Bool.and_eq_true, decide_eq_true_eq]; omega
  simp [e0, e1, e2]

/-- Decoder step: a truncated 3-byte sequence (starter and one good
continuation). -/
theorem utf8Decode_three_trunc2 (b0 b1 : Nat) (h0 : 0xE0 ≤ b0 ∧ b0 ≤ 0xEF)
    (h1 : cont3lo b0 ≤ b1 ∧ b1 ≤ cont3hi b0) :
    utf8Decode [b0, b1] = [0xFFFD] := by
  conv_lhs => rw [utf8Decode.eq_def]
  have e0 : ¬ b0 < 0x80 := by omega
  have e1 : ¬ (0xC2 ≤ b0 && b0 ≤ 0xDF) = true := by
    simp only [Bool.and_eq_true, decide_eq_true_eq]; omega
  have e2 : (0xE0 ≤ b0 && b0 ≤ 0xEF) = true := by
    simp only [Bool.and_eq_true, decide_eq_true_eq]; omega
  have e3 : isCont (cont3lo b0) (cont3hi b0) b1 = true := by
    simp only [isCont, Bool.and_eq_true, decide_eq_true_eq]; omega
  simp [e0, e1, e2, e3]

/-- Decoder step: a 4-byte starter whose first continuation is invalid. -/
theorem utf8Decode_four_bad1 (b0 b1 : Nat) (rest : Bytes) (h0 : 0xF0 ≤ b0 ∧ b0 ≤ 0xF4)
    (h1 : ¬ (cont4lo b0 ≤ b1 ∧ b1 ≤ cont4hi b0)) :
    utf8Decode (b0 :: b1 :: rest) = 0xFFFD :: utf8Decode (b1 :: rest) := by
  conv_lhs => rw [utf8Decode.eq_def]
  have e0 : ¬ b0 < 0x80 := by omega
  have e1 : ¬ (0xC2 ≤ b0 && b0 ≤ 0xDF) = true := by
    simp only [Bool.and_eq_true, decide_eq_true_eq]; omega
  have e2 : ¬ (0xE0 ≤ b0 && b0 ≤ 0xEF) = true := by
    simp only [Bool.and_eq_true, decide_eq_true_eq]; omega
  have e3 : (0xF0 ≤ b0 && b0 ≤ 0xF4) = true := by
    simp only [Bool.and_eq_true, decide_eq_true_eq]; omega
  have e4 : ¬ isCont (cont4lo b0) (cont4hi b0) b1 = true := by
    simp only [isCont, Bool.and_eq_true, decide_eq_true_eq]; omega
  simp [e0, e1, e2, e3, e4]

/-- Decoder step: a 4-byte starter, good first, bad second continuation. -/
theorem utf8Decode_four_bad2 (b0 b1 b2 : Nat) (rest : Bytes) (h0 : 0xF0 ≤ b0 ∧ b0 ≤ 0xF4)
    (h1 : cont4lo b0 ≤ b1 ∧ b1 ≤ cont4hi b0) (h2 : ¬ (0x80 ≤ b2 ∧ b2 ≤ 0xBF)) :
    utf8Decode (b0 :: b1 :: b2 :: rest) = 0xFFFD :: utf8Decode (b2 :: rest) := by
  conv_lhs => rw [utf8Decode.eq_def]
  have e0 : ¬ b0 < 0x80 := by omega
  have e1 : ¬ (0xC2 ≤ b0 && b0 ≤ 0xDF) = true := by
    simp only [Bool.and_eq_true, decide_eq_true_eq]; omega
  have e2 : ¬ (0xE0 ≤ b0 && b0 ≤ 0xEF) = true := by
    simp only [Bool.and_eq_true, decide_eq_true_eq]; omega
  have e3 : (0xF0 ≤ b0 && b0 ≤ 0xF4) = true := by
    simp only [Bool.and_eq_true, decide_eq_true_eq]; omega
  have e4 : isCont (cont4lo b0) (cont4hi b0) b1 = true := by
    simp only [isCont, Bool.and_eq_true, decide_eq_true_eq]; omega
  have e5 : ¬ isCont 0x80 0xBF b2 = true := by
    simp only [isCont, Bool.and_eq_true, decide_eq_true_eq]; omega
  simp [e0, e1, e2, e3, e4, e5]

/-- Decoder step: a 4-byte starter, two good continuations, bad third. -/
theorem utf8Decode_four_bad3 (b0 b1 b2 b3 : Nat) (rest : Bytes) (h0 : 0xF0 ≤ b0 ∧ b0 ≤ 0xF4)
    (h1 : cont4lo b0 ≤ b1 ∧ b1 ≤ cont4hi b0) (h2 : 0x80 ≤ b2 ∧ b2 ≤ 0xBF)
    (h3 : ¬ (0x80 ≤ b3 ∧ b3 ≤ 0xBF)) :
    utf8Decode (b0 :: b1 :: b2 :: b3 :: rest) = 0xFFFD :: utf8Decode (b3 :: rest) := by
  conv_lhs => rw [utf8Decode.eq_def]
  have e0 : ¬ b0 < 0x80 := by omega
  have e1 : ¬ (0xC2 ≤ b0 && b0 ≤ 0xDF) = true := by
    simp only [Bool.and_eq_true, decide_eq_true_eq]; omega
  have e2 : ¬ (0xE0 ≤ b0 && b0 ≤ 0xEF) = true := by
    simp only [Bool.and_eq_true, decide_eq_true_eq]; omega
  have e3 : (0xF0 ≤ b0 && b0 ≤ 0xF4) = true := by
    simp only [Bool.and_eq_true, decide_eq_true_eq]; omega
  have e4 : isCont (cont4lo b0) (cont4hi b0) b1 = true := by
    simp only [isCont, Bool.and_eq_true, decide_eq_true_eq]; omega
  have e5 : isCont 0x80 0xBF b2 = true := by
    simp only [isCont, Bool.and_eq_true, decide_eq_true_eq]; omega
  have e6 : ¬ isCont 0x80 0xBF b3 = true := by
    simp only [isCont, Bool.and_eq_true, decide_eq_true_eq]; omega
  simp [e0, e1, e2, e3, e4, e5, e6]

/-- Decoder step: a truncated 4-byte sequence (only the starter). -/
theorem utf8Decode_four_trunc1 (b0 : Nat) (h0 : 0xF0 ≤ b0 ∧ b0 ≤ 0xF4) :
    utf8Decode [b0] = [0xFFFD] := by
  conv_lhs => rw [utf8Decode.eq_def]
  have e0 : ¬ b0 < 0x80 := by omega
  have e1 : ¬ (0xC2 ≤ b0 && b0 ≤ 0xDF) = true := by
    simp only [Bool.and_eq_true, decide_eq_true_eq]; omega
  have e2 : ¬ (0xE0 ≤ b0 && b0 ≤ 0xEF) = true := by
    simp only [Bool.and_eq_true, decide_eq_true_eq]; omega
  have e3 : (0xF0 ≤ b0 && b0 ≤ 0xF4) = true := by
    simp only [Bool.and_eq_true, decide_eq_true_eq]; omega
  simp [e0, e1, e2, e3]

/-- Decoder step: a truncated 4-byte sequence (starter plus one good
continuation). -/
theorem utf8Decode_four_trunc2 (b0 b1 : Nat) (h0 : 0xF0 ≤ b0 ∧ b0 ≤ 0xF4)
    (h1 : cont4lo b0 ≤ b1 ∧ b1 ≤ cont4hi b0) :
    utf8Decode [b0, b1] = [0xFFFD] := by
  conv_lhs => rw [utf8Decode.eq_def]
  have e0 : ¬ b0 < 0x80 := by omega
  have e1 : ¬ (0xC2 ≤ b0 && b0 ≤ 0xDF) = true := by
    simp only [Bool.and_eq_true, decide_eq_true_eq]; omega
  have e2 : ¬ (0xE0 ≤ b0 && b0 ≤ 0xEF) = true := by
    simp only [Bool.and_eq_true, decide_eq_true_eq]; omega
  have e3 : (0xF0 ≤ b0 && b0 ≤ 0xF4) = true := by
    simp only [Bool.and_eq_true, decide_eq_true_eq]; omega
  have e4 : isCont (cont4lo b0) (cont4hi b0) b1 = true := by
    simp only [isCont, Bool.and_eq_true, decide_eq_true_eq]; omega
  simp [e0, e1, e2, e3, e4]

/-- Decoder step: a truncated 4-byte sequence (starter plus two good
continuations). -/
theorem utf8Decode_four_trunc3 (b0 b1 b2 : Nat) (h0 : 0xF0 ≤ b0 ∧ b0 ≤ 0xF4)
    (h1 : cont4lo b0 ≤ b1 ∧ b1 ≤ cont4hi b0) (h2 : 0x80 ≤ b2 ∧ b2 ≤ 0xBF) :
    utf8Decode [b0, b1, b2] = [0xFFFD] := by
  conv_lhs => rw [utf8Decode.eq_def]
  have e0 : ¬ b0 < 0x80 := by omega
  have e1 : ¬ (0xC2 ≤ b0 && b0 ≤ 0xDF) = true := by
    simp only [Bool.and_eq_true, decide_eq_true_eq]; omega
  have e2 : ¬ (0xE0 ≤ b0 && b0 ≤ 0xEF) = true := by
    simp only [Bool.and_eq_true, decide_eq_true_eq]; omega
  have e3 : (0xF0 ≤ b0 && b0 ≤ 0xF4) = true := by
    simp only [Bool.and_eq_true, decide_eq_true_eq]; omega
  have e4 : isCont (cont4lo b0) (cont4hi b0) b1 = true := by
    simp only [isCont, Bool.and_eq_true, decide_eq_true_eq]; omega
  have e5 : isCont 0x80 0xBF b2 = true := by
    simp only [isCont, Bool.and_eq_true, decide_eq_true_eq]; omega
  simp [e0, e1, e2, e3, e4, e5]

/-- Decoding a validly encoded scalar code point peels it off and continues. -/
theorem decode_encodeChar (c : Nat) (h : isScalar c = true) (bs : Bytes) :
    utf8Decode (utf8EncodeChar c ++ bs) = c :: utf8Decode bs := by
  simp only [isScalar, Bool.or_eq_true, decide_eq_true_eq, Bool.and_eq_true] at h
  by_cases h1 : c < 0x80
  · simp only [utf8EncodeChar, if_pos h1, List.cons_append, List.nil_append]
    rw [utf8Decode_ascii _ _ h1]
  · by_cases h2 : c < 0x800
    · simp only [utf8EncodeChar, if_neg h1, if_pos h2, List.cons_append, List.nil_append]
      rw [utf8Decode_two _ _ _ (by omega) (by omega)]
      congr 1
      omega
    · by_cases h3 : c < 0x10000
      · simp only [utf8EncodeChar, if_neg h1, if_neg h2, if_pos h3, List.cons_append,
          List.nil_append]
        rw [utf8Decode_three _ _ _ _ (by omega)
          (by constructor <;> simp only [cont3lo, cont3hi] <;> split <;> omega) (by omega)]
        congr 1
        omega
      · simp only [utf8EncodeChar, if_neg h1, if_neg h2, if_neg h3, List.cons_append,
          List.nil_append]
        rw [utf8Decode_four _ _ _ _ _ (by omega)
          (by constructor <;> simp only [cont4lo, cont4hi] <;> split <;> omega)
          (by omega) (by omega)]
        congr 1
        omega

theorem isScalar_of (n : Nat) (h : n < 0xD800 ∨ (0xE000 ≤ n ∧ n < 0x110000)) :
    isScalar n = true := by
  simp only [isScalar, Bool.or_eq_true, Bool.and_eq_true, decide_eq_true_eq]
  omega

theorem isScalarStr_cons (c : Nat) (s : Str) :
    isScalarStr (c :: s) = (isScalar c && isScalarStr s) := rfl

/-- Every code point a decode emits is a scalar value (valid sequences decode
below the surrogate gap or above it, and the replacement character U+FFFD is
scalar). -/
theorem decode_scalar (bs : Bytes) : isScalarStr (utf8Decode bs) = true := by
  suffices h : ∀ n bs, List.length bs ≤ n → isScalarStr (utf8Decode bs) = true from
    h bs.length bs le_rfl
  intro n
  induction n with
  | zero =>
    intro bs hb
    rw [List.length_eq_zero.mp (Nat.le_zero.mp hb)]
    rfl
  | succ n ih =>
    intro bs hb
    match bs with
    | [] => rfl
    | b0 :: rest =>
      simp only [List.length_cons, Nat.add_le_add_iff_right] at hb
      by_cases hA : b0 < 0x80
      · rw [utf8Decode_ascii _ _ hA, isScalarStr_cons, isScalar_of _ (by omega),
          ih rest hb, Bool.and_self]
      · by_cases hB : 0xC2 ≤ b0 ∧ b0 ≤ 0xDF
        · match rest, hb with
          | [], _ => rw [utf8Decode_two_trunc _ hB]; rfl
          | b1 :: rest1, hb =>
            by_cases hC : 0x80 ≤ b1 ∧ b1 ≤ 0xBF
            · rw [utf8Decode_two _ _ _ hB hC, isScalarStr_cons, isScalar_of _ (by omega),
                ih rest1 (by simpa using Nat.le_of_succ_le hb), Bool.and_self]
            · rw [utf8Decode_two_bad _ _ _ hB hC, isScalarStr_cons, isScalar_of _ (by omega),
                ih (b1 :: rest1) hb, Bool.and_self]
        · by_cases hD : 0xE0 ≤ b0 ∧ b0 ≤ 0xEF
          · match rest, hb with
            | [], _ => rw [utf8Decode_three_trunc1 _ hD]; rfl
            | b1 :: rest1, hb =>
              by_cases hC : cont3lo b0 ≤ b1 ∧ b1 ≤ cont3hi b0
              · match rest1, hb with
                | [], _ => rw [utf8Decode_three_trunc2 _ _ hD hC]; rfl
                | b2 :: rest2, hb =>
                  by_cases hE : 0x80 ≤ b2 ∧ b2 ≤ 0xBF
                  · rw [utf8Decode_three _ _ _ _ hD hC hE, isScalarStr_cons]
                    have hval : isScalar ((b0 - 0xE0) * 4096 + (b1 - 0x80) * 64 + (b2 - 0x80))
                        = true := by
                      apply isScalar_of
                      simp only [cont3lo, cont3hi] at hC
                      split_ifs at hC <;> omega
                    rw [hval, ih rest2 (by simp only [List.length_cons] at hb; omega), Bool.and_self]
                  · rw [utf8Decode_three_bad2 _ _ _ _ hD hC hE, isScalarStr_cons,
                      isScalar_of _ (by omega), ih (b2 :: rest2)
                        (by simpa using Nat.le_of_succ_le hb), Bool.and_self]
              · rw [utf8Decode_three_bad1 _ _ _ hD hC, isScalarStr_cons,
                  isScalar_of _ (by omega), ih (b1 :: rest1) hb, Bool.and_self]
          · by_cases hF : 0xF0 ≤ b0 ∧ b0 ≤ 0xF4
            · match rest, hb with
              | [], _ => rw [utf8Decode_four_trunc1 _ hF]; rfl
              | b1 :: rest1, hb =>
                by_cases hC : cont4lo b0 ≤ b1 ∧ b1 ≤ cont4hi b0
                · match rest1, hb with
                  | [], _ => rw [utf8Decode_four_trunc2 _ _ hF hC]; rfl
                  | b2 :: rest2, hb =>
                    by_cases hE : 0x80 ≤ b2 ∧ b2 ≤ 0xBF
                    · match rest2, hb with
                      | [], _ => rw [utf8Decode_four_trunc3 _ _ _ hF hC hE]; rfl
                      | b3 :: rest3, hb =>
                        by_cases hG : 0x80 ≤ b3 ∧ b3 ≤ 0xBF
                        · rw [utf8Decode_four _ _ _ _ _ hF hC hE hG, isScalarStr_cons]
                          have hval : isScalar ((b0 - 0xF0) * 262144 + (b1 - 0x80) * 4096
                              + (b2 - 0x80) * 64 + (b3 - 0x80)) = true := by
                            apply isScalar_of
                            simp only [cont4lo, cont4hi] at hC
                            split_ifs at hC <;> omega
                          rw [hval, ih rest3 (by simp only [List.length_cons] at hb; omega), Bool.and_self]
                        · rw [utf8Decode_four_bad3 _ _ _ _ _ hF hC hE hG, isScalarStr_cons,
                            isScalar_of _ (by omega), ih (b3 :: rest3) (by simp only [List.length_cons] at hb ⊢; omega),
                            Bool.and_self]
                    · rw [utf8Decode_four_bad2 _ _ _ _ hF hC hE, isScalarStr_cons,
                        isScalar_of _ (by omega), ih (b2 :: rest2)
                          (by simpa using Nat.le_of_succ_le hb), Bool.and_self]
                · rw [utf8Decode_four_bad1 _ _ _ hF hC, isScalarStr_cons,
                    isScalar_of _ (by omega), ih (b1 :: rest1) hb, Bool.and_self]
            · rw [utf8Decode_bad0 _ _ hA hB hD hF, isScalarStr_cons, isScalar_of _ (by omega),
                ih rest hb, Bool.and_self]

/-- Decoding inverts encoding on scalar strings. -/
theorem decode_encode (s : Str) (h : isScalarStr s = true) :
    utf8Decode (utf8Encode s) = s := by
  induction s with
  | nil => rfl
  | cons c cs ih =>
    simp only [isScalarStr, List.all_cons, Bool.and_eq_true] at h
    have : utf8Encode (c :: cs) = utf8EncodeChar c ++ utf8Encode cs := rfl
    rw [this, decode_encodeChar c h.1, ih h.2]

/-- The first byte of a multi-byte encoding is not ASCII; an ASCII code point
encodes as itself alone. -/
theorem utf8EncodeChar_head (d : Nat) :
    (d < 0x80 ∧ utf8EncodeChar d = [d]) ∨
    (0x80 ≤ d ∧ ∃ b t, utf8EncodeChar d = b :: t ∧ 0x80 ≤ b) := by
  by_cases h1 : d < 0x80
  · left
    exact ⟨h1, by simp [utf8EncodeChar, h1]⟩
  · right
    refine ⟨by omega, ?_⟩
    by_cases h2 : d < 0x800
    · exact ⟨0xC0 + d / 64, [0x80 + d % 64], by simp [utf8EncodeChar, h1, h2], by omega⟩
    · by_cases h3 : d < 0x10000
      · exact ⟨0xE0 + d / 4096, [0x80 + d / 64 % 64, 0x80 + d % 64],
          by simp [utf8EncodeChar, h1, h2, h3], by omega⟩
      · exact ⟨0xF0 + d / 262144, [0x80 + d / 4096 % 64, 0x80 + d / 64 % 64, 0x80 + d % 64],
          by simp [utf8EncodeChar, h1, h2, h3], by omega⟩

/-- An all-ASCII pattern is a prefix of an encoded string iff it is a prefix
of the string itself. -/
theorem ascii_isPrefixOf_encode (p : Str) (hp : p.all (fun c => c < 0x80) = true) :
    ∀ s : Str, p.isPrefixOf (utf8Encode s) = p.isPrefixOf s := by
  induction p with
  | nil => intro s; simp [List.isPrefixOf]
  | cons c p' ih =>
    intro s
    simp only [List.all_cons, Bool.and_eq_true, decide_eq_true_eq] at hp
    match s with
    | [] => rfl
    | d :: s' =>
      have hstep : utf8Encode (d :: s') = utf8EncodeChar d ++ utf8Encode s' := rfl
      rcases utf8EncodeChar_head d with ⟨hd, he⟩ | ⟨hd, b, t, he, hb⟩
      · rw [hstep, he]
        simp only [List.cons_append, List.nil_append, List.isPrefixOf_cons₂]
        rw [ih hp.2 s']
      · rw [hstep, he]
        simp only [List.cons_append, List.isPrefixOf_cons₂]
        have hcb : (c == b) = false := by
          simp only [beq_eq_false_iff_ne, ne_eq]
          omega
        have hcd : (c == d) = false := by
          simp only [beq_eq_false_iff_ne, ne_eq]
          omega
        rw [hcb, hcd]
        simp

/-- An ASCII code point appears in a decode only where the byte itself
appears in the input (multi-byte sequences and U+FFFD decode above ASCII). -/
theorem ascii_mem_decode (c : Nat) (hc : c < 0x80) (bs : Bytes)
    (h : c ∈ utf8Decode bs) : c ∈ bs := by
  have main : ∀ n bs, List.length bs ≤ n → c ∈ utf8Decode bs → c ∈ bs := by
    intro n
    induction n with
    | zero =>
      intro bs hb
      rw [List.length_eq_zero.mp (Nat.le_zero.mp hb)]
      intro h
      exact absurd h (by simp [utf8Decode])
    | succ n ih =>
      intro bs hb hm
      match bs with
      | [] => exact absurd hm (by simp [utf8Decode] at hm)
      | b0 :: rest =>
        simp only [List.length_cons, Nat.add_le_add_iff_right] at hb
        by_cases hA : b0 < 0x80
        · rw [utf8Decode_ascii _ _ hA] at hm
          rcases List.mem_cons.mp hm with h | h
          · simp [h]
          · exact List.mem_cons_of_mem _ (ih rest hb h)
        · by_cases hB : 0xC2 ≤ b0 ∧ b0 ≤ 0xDF
          · match rest, hb with
            | [], _ => rw [utf8Decode_two_trunc _ hB] at hm; simp at hm; omega
            | b1 :: rest1, hb =>
              by_cases hC : 0x80 ≤ b1 ∧ b1 ≤ 0xBF
              · rw [utf8Decode_two _ _ _ hB hC] at hm
                rcases List.mem_cons.mp hm with h | h
                · omega
                · exact List.mem_cons_of_mem _ (List.mem_cons_of_mem _
                    (ih rest1 (by simp only [List.length_cons] at hb; omega) h))
              · rw [utf8Decode_two_bad _ _ _ hB hC] at hm
                rcases List.mem_cons.mp hm with h | h
                · omega
                · exact List.mem_cons_of_mem _ (ih (b1 :: rest1) hb h)
          · by_cases hD : 0xE0 ≤ b0 ∧ b0 ≤ 0xEF
            · match rest, hb with
              | [], _ => rw [utf8Decode_three_trunc1 _ hD] at hm; simp at hm; omega
              | b1 :: rest1, hb =>
                by_cases hC : cont3lo b0 ≤ b1 ∧ b1 ≤ cont3hi b0
                · match rest1, hb with
                  | [], _ => rw [utf8Decode_three_trunc2 _ _ hD hC] at hm; simp at hm; omega
                  | b2 :: rest2, hb =>
                    by_cases hE : 0x80 ≤ b2 ∧ b2 ≤ 0xBF
                    · rw [utf8Decode_three _ _ _ _ hD hC hE] at hm
                      rcases List.mem_cons.mp hm with h | h
                      · have : cont3lo b0 ≤ b1 := hC.1
                        simp only [cont3lo] at this
                        split_ifs at this <;> omega
                      · exact List.mem_cons_of_mem _ (List.mem_cons_of_mem _
                          (List.mem_cons_of_mem _
                            (ih rest2 (by simp only [List.length_cons] at hb; omega) h)))
                    · rw [utf8Decode_three_bad2 _ _ _ _ hD hC hE] at hm
                      rcases List.mem_cons.mp hm with h | h
                      · omega
                      · exact List.mem_cons_of_mem _ (List.mem_cons_of_mem _
                          (ih (b2 :: rest2) (by simp only [List.length_cons] at hb ⊢; omega) h))
                · rw [utf8Decode_three_bad1 _ _ _ hD hC] at hm
                  rcases List.mem_cons.mp hm with h | h
                  · omega
                  · exact List.mem_cons_of_mem _ (ih (b1 :: rest1) hb h)
            · by_cases hF : 0xF0 ≤ b0 ∧ b0 ≤ 0xF4
              · match rest, hb with
                | [], _ => rw [utf8Decode_four_trunc1 _ hF] at hm; simp at hm; omega
                | b1 :: rest1, hb =>
                  by_cases hC : cont4lo b0 ≤ b1 ∧ b1 ≤ cont4hi b0
                  · match rest1, hb with
                    | [], _ => rw [utf8Decode_four_trunc2 _ _ hF hC] at hm; simp at hm; omega
                    | b2 :: rest2, hb =>
                      by_cases hE : 0x80 ≤ b2 ∧ b2 ≤ 0xBF
                      · match rest2, hb with
                        | [], _ =>
                          rw [utf8Decode_four_trunc3 _ _ _ hF hC hE] at hm
                          simp at hm; omega
                        | b3 :: rest3, hb =>
                          by_cases hG : 0x80 ≤ b3 ∧ b3 ≤ 0xBF
                          · rw [utf8Decode_four _ _ _ _ _ hF hC hE hG] at hm
                            rcases List.mem_cons.mp hm with h | h
                            · have : cont4lo b0 ≤ b1 := hC.1
                              simp only [cont4lo] at this
                              split_ifs at this <;> omega
                            · refine List.mem_cons_of_mem _ (List.mem_cons_of_mem _
                                (List.mem_cons_of_mem _ (List.mem_cons_of_mem _
                                  (ih rest3 (by simp only [List.length_cons] at hb; omega) h))))
                          · rw [utf8Decode_four_bad3 _ _ _ _ _ hF hC hE hG] at hm
                            rcases List.mem_cons.mp hm with h | h
                            · omega
                            · refine List.mem_cons_of_mem _ (List.mem_cons_of_mem _
                                (List.mem_cons_of_mem _ (ih (b3 :: rest3)
                                  (by simp only [List.length_cons] at hb ⊢; omega) h)))
                      · rw [utf8Decode_four_bad2 _ _ _ _ hF hC hE] at hm
                        rcases List.mem_cons.mp hm with h | h
                        · omega
                        · exact List.mem_cons_of_mem _ (List.mem_cons_of_mem _
                            (ih (b2 :: rest2) (by simp only [List.length_cons] at hb ⊢; omega) h))
                  · rw [utf8Decode_four_bad1 _ _ _ hF hC] at hm
                    rcases List.mem_cons.mp hm with h | h
                    · omega
                    · exact List.mem_cons_of_mem _ (ih (b1 :: rest1) hb h)
              · rw [utf8Decode_bad0 _ _ hA hB hD hF] at hm
                rcases List.mem_cons.mp hm with h | h
                · omega
                · exact List.mem_cons_of_mem _ (ih rest hb h)
  exact main bs.length bs le_rfl h

/-! ## Lemmas: the `data:` prefix normalization -/

/-- A line already carrying the space is left alone by fix 1. -/
theorem normalize_of_dataSpace (l : Str) (h : (strCp "data: ").isPrefixOf l = true) :
    normalizeDataLine l = l := by
  simp [normalizeDataLine, h]

/-- A line not starting with `data:` is left alone by fix 1. -/
theorem normalize_of_not_data (l : Str) (h : ¬ (strCp "data:").isPrefixOf l = true) :
    normalizeDataLine l = l := by
  simp [normalizeDataLine, h]

/-- The output of fix 1 never starts with `data:` without the space, so a
second application changes nothing. -/
theorem normalize_idem (l : Str) : normalizeDataLine (normalizeDataLine l) = normalizeDataLine l := by
  by_cases h1 : (strCp "data:").isPrefixOf l = true
  · by_cases h2 : (strCp "data: ").isPrefixOf l = true
    · rw [normalize_of_dataSpace l h2, normalize_of_dataSpace l h2]
    · have hstep : normalizeDataLine l = strCp "data: " ++ l.drop 5 := by
        simp [normalizeDataLine, h1, h2]
      rw [hstep]
      apply normalize_of_dataSpace
      simp [List.isPrefixOf_iff_prefix]
  · rw [normalize_of_not_data l h1, normalize_of_not_data l h1]

/-! ## Lemmas: dict operations -/

namespace Json

theorem isObj_objSet (p : Json) (k : Str) (v : Json) : (p.objSet k v).isObj = p.isObj := by
  cases p <;> try rfl
  case ocons k0 v0 t =>
    show (if k0 = k then Json.ocons k0 v t else Json.ocons k0 v0 (t.objSet k v)).isObj = true
    split <;> rfl

theorem objLookup_objSet_self (p : Json) (k : Str) (v : Json) (h : wfObjChain p = true) :
    (p.objSet k v).objLookup k = some v := by
  induction p with
  | ocons k0 v0 t ihv ih =>
    simp only [wfObjChain] at h
    by_cases hk : k0 = k
    · simp [objSet, hk, objLookup]
    · simp [objSet, hk, objLookup, ih h]
  | onil => simp [objSet, objLookup]
  | _ => simp [wfObjChain] at h

theorem objLookup_objSet_ne (p : Json) (k k' : Str) (v : Json) (hne : k ≠ k') :
    (p.objSet k v).objLookup k' = p.objLookup k' := by
  induction p with
  | ocons k0 v0 t ihv ih =>
    by_cases hk : k0 = k
    · subst hk
      simp [objSet, objLookup, hne]
    · by_cases hk' : k0 = k'
      · subst hk'
        have hne' : ¬ (k0 = k) := hk
        simp [objSet, hne', objLookup]
      · simp [objSet, hk, objLookup, hk', ih]
  | onil => simp [objSet, objLookup, hne]
  | _ => simp [objSet]

theorem objSet_same (p : Json) (k : Str) (v : Json) (h : p.objLookup k = some v) :
    p.objSet k v = p := by
  induction p with
  | ocons k0 v0 t ihv ih =>
    by_cases hk : k0 = k
    · subst hk
      simp only [objLookup, if_pos, Option.some.injEq] at h
      simp [objSet, h]
    · simp only [objLookup, if_neg hk] at h
      simp [objSet, hk, ih h]
  | _ => simp_all [objLookup]

theorem objHasKey_objSet_self (p : Json) (k : Str) (v : Json) (h : wfObjChain p = true) :
    (p.objSet k v).objHasKey k = true := by
  simp [objHasKey, objLookup_objSet_self p k v h]

theorem objHasKey_objSet (p : Json) (k k' : Str) (v : Json) (h : wfObjChain p = true) :
    (p.objSet k v).objHasKey k' = (k == k' || p.objHasKey k') := by
  by_cases hk : k = k'
  · subst hk
    simp [objHasKey_objSet_self p k v h]
  · simp [objHasKey, objLookup_objSet_ne p k k' v hk, hk]

theorem wfObjChain_objSet (p : Json) (k : Str) (v : Json) (h : wfObjChain p = true) :
    wfObjChain (p.objSet k v) = true := by
  induction p with
  | ocons k0 v0 t ihv ih =>
    simp only [wfObjChain] at h
    by_cases hk : k0 = k
    · simp [objSet, hk, wfObjChain, h]
    · simp [objSet, hk, wfObjChain, ih h]
  | onil => simp [objSet, wfObjChain]
  | _ => simp [wfObjChain] at h

theorem wfObjChain_of_wf (p : Json) (hobj : p.isObj = true) (h : wf p = true) :
    wfObjChain p = true := by
  cases p <;> simp_all [isObj, wf, wfObjChain, Bool.and_eq_true]

theorem wf_objLookup (p : Json) (k : Str) (v : Json) (hw : wf p = true)
    (h : p.objLookup k = some v) : wf v = true := by
  induction p with
  | ocons k0 v0 t ihv ih =>
    simp only [wf, Bool.and_eq_true] at hw
    simp only [objLookup] at h
    by_cases hk : k0 = k
    · rw [if_pos hk] at h
      cases h
      exact hw.1.1.1.2
    · rw [if_neg hk] at h
      exact ih hw.1.2 h
  | _ => simp_all [objLookup]

theorem wf_arrElem (a : Json) (x : Json) (hw : wf a = true) (h : x ∈ a.arrElems) :
    wf x = true := by
  induction a with
  | acons hd t ihh ih =>
    simp only [wf, Bool.and_eq_true] at hw
    simp only [arrElems, List.mem_cons] at h
    rcases h with h | h
    · subst h
      exact hw.1.1
    · exact ih hw.2 h
  | _ => simp_all [arrElems]

theorem arrElems_listToArr (l : List Json) : (listToArr l).arrElems = l := by
  induction l with
  | nil => rfl
  | cons h t ih => simp [listToArr, arrElems, ih]

theorem isArr_listToArr (l : List Json) : (listToArr l).isArr = true := by
  cases l <;> simp [listToArr, isArr]

theorem listToArr_arrElems (a : Json) (h : wfArrChain a = true) : listToArr a.arrElems = a := by
  induction a with
  | anil => rfl
  | acons hd t ihh ih =>
    simp only [wfArrChain] at h
    simp [arrElems, listToArr, ih h]
  | _ => simp [wfArrChain] at h

theorem objSet_objSet_self (p : Json) (k : Str) (v v' : Json) :
    (p.objSet k v).objSet k v' = p.objSet k v' := by
  induction p with
  | ocons k0 v0 t ihv ih =>
    by_cases hk : k0 = k
    · simp [objSet, hk]
    · simp [objSet, hk, ih]
  | onil => simp [objSet]
  | _ => simp [objSet]

end Json

/-! ## Lemmas: unfolding equations for `fix_sse_line` -/

/-- Fast path (source lines 36-37): not a `data: {` line after fix 1. -/
theorem fix_fastpath (cfg : Config) (bs : Bytes)
    (h : ¬ (strCp "data: \x7b").isPrefixOf (normalizeDataLine (utf8Decode bs)) = true) :
    fix_sse_line cfg bs = .ok (utf8Encode (normalizeDataLine (utf8Decode bs))) := by
  simp [fix_sse_line, h]

/-- Parse-failure path (source lines 40-43). -/
theorem fix_parsefail (cfg : Config) (bs : Bytes)
    (hp : (strCp "data: \x7b").isPrefixOf (normalizeDataLine (utf8Decode bs)) = true)
    (h : loads ((normalizeDataLine (utf8Decode bs)).drop 6) = none) :
    fix_sse_line cfg bs = .ok (utf8Encode (normalizeDataLine (utf8Decode bs))) := by
  simp [fix_sse_line, hp, h]

/-- Parsed path (source lines 45-62). -/
theorem fix_parsed (cfg : Config) (bs : Bytes) (payload : Json)
    (hp : (strCp "data: \x7b").isPrefixOf (normalizeDataLine (utf8Decode bs)) = true)
    (h : loads ((normalizeDataLine (utf8Decode bs)).drop 6) = some payload) :
    fix_sse_line cfg bs =
      (fixChoices payload).bind (fun pc1 =>
        (fixModel cfg pc1.1).bind (fun pc2 =>
          if pc1.2 || pc2.2 then .ok (utf8Encode (strCp "data: " ++ dumpsC pc2.1))
          else .ok (utf8Encode (normalizeDataLine (utf8Decode bs))))) := by
  simp only [fix_sse_line, hp, Bool.not_true, Bool.false_eq_true, if_false, h]
  rfl

/-! ## Lemmas: the fixes cannot raise on well-shaped payloads -/

theorem bind_ok {α β : Type} (a : α) (f : α → Except PyErr β) :
    (Except.ok a >>= f) = f a := rfl

theorem bind_error {α β : Type} (e : PyErr) (f : α → Except PyErr β) :
    ((Except.error e : Except PyErr α) >>= f) = Except.error e := rfl

theorem pyGetDefault_obj (p : Json) (key : Str) (dflt : Json) (h : p.isObj = true) :
    pyGetDefault p key dflt = .ok ((p.objLookup key).getD dflt) := by
  cases p <;> simp_all [pyGetDefault, Json.isObj, Json.objLookup]

theorem pyIterElems_arr (v : Json) (h : v.isArr = true) :
    pyIterElems v = .ok v.arrElems := by
  cases v <;> simp_all [pyIterElems, Json.isArr, Json.arrElems]

theorem fixOneTc_ok_of_obj (tc : Json) (h : tc.isObj = true) :
    ∃ r, fixOneTc tc = .ok r := by
  match tc, h with
  | .onil, _ => exact ⟨_, rfl⟩
  | .ocons k v t, _ =>
    show ∃ r, (pyContains (strCp "index") (.ocons k v t) >>= fun has =>
      if has then pure (Json.ocons k v t, false)
      else pySetItem (.ocons k v t) (strCp "index") (Json.jnum [48]) >>= fun tc2 =>
        pure (tc2, true)) = .ok r
    rw [show pyContains (strCp "index") (.ocons k v t)
        = .ok ((Json.ocons k v t).objHasKey (strCp "index")) from rfl, bind_ok]
    by_cases hk : (Json.ocons k v t).objHasKey (strCp "index") = true
    · rw [hk, if_pos rfl]
      exact ⟨_, rfl⟩
    · rw [Bool.not_eq_true] at hk
      rw [hk]
      exact ⟨_, rfl⟩

theorem fixTcList_ok_of_objs (ts : List Json) (h : ∀ t ∈ ts, t.isObj = true) :
    ∃ r, fixTcList ts = .ok r := by
  induction ts with
  | nil => exact ⟨_, rfl⟩
  | cons t ts ih =>
    obtain ⟨r1, h1⟩ := fixOneTc_ok_of_obj t (h t (List.mem_cons_self t ts))
    obtain ⟨r2, h2⟩ := ih (fun x hx => h x (List.mem_cons_of_mem _ hx))
    show ∃ r, (fixOneTc t >>= fun p1 => fixTcList ts >>= fun p2 =>
      pure (p1.1 :: p2.1, p1.2 || p2.2)) = .ok r
    rw [h1, bind_ok, h2, bind_ok]
    exact ⟨_, rfl⟩

theorem fixChoice_ok_of_shape (c : Json) (hobj : c.isObj = true)
    (hshape : deltaShapeOK c = true) : ∃ r, fixChoice c = .ok r := by
  unfold deltaShapeOK at hshape
  have hd : ∃ d, pyGetDefault c (strCp "delta") Json.onil = .ok d ∧ d.isObj = true ∧
      (∀ tv, d.objLookup (strCp "tool_calls") = some tv →
        tv.isArr = true ∧ tv.arrElems.all Json.isObj = true) := by
    rw [pyGetDefault_obj c _ _ hobj]
    cases hdl : c.objLookup (strCp "delta") with
    | none =>
      refine ⟨Json.onil, rfl, rfl, ?_⟩
      intro tv htv
      simp [Json.objLookup] at htv
    | some d =>
      rw [hdl] at hshape
      refine ⟨d, rfl, (Bool.and_eq_true _ _ |>.mp hshape).1, ?_⟩
      intro tv htv
      have := (Bool.and_eq_true _ _ |>.mp hshape).2
      rw [htv] at this
      exact Bool.and_eq_true _ _ |>.mp this
  obtain ⟨d, hd1, hd2, hd3⟩ := hd
  have htv : ∃ tv, pyGetDefault d (strCp "tool_calls") Json.anil = .ok tv ∧
      tv.isArr = true ∧ (∀ t ∈ tv.arrElems, t.isObj = true) := by
    rw [pyGetDefault_obj d _ _ hd2]
    cases htl : d.objLookup (strCp "tool_calls") with
    | none => exact ⟨Json.anil, rfl, rfl, by intro t ht; simp [Json.arrElems] at ht⟩
    | some tv =>
      obtain ⟨ha, ho⟩ := hd3 tv htl
      exact ⟨tv, rfl, ha, fun t ht => List.all_eq_true.mp ho t ht⟩
  obtain ⟨tv, htv1, htv2, htv3⟩ := htv
  obtain ⟨r, hr⟩ := fixTcList_ok_of_objs tv.arrElems htv3
  show ∃ r, (pyGetDefault c (strCp "delta") Json.onil >>= fun delta =>
    pyGetDefault delta (strCp "tool_calls") Json.anil >>= fun tcv =>
    pyIterElems tcv >>= fun elems =>
    fixTcList elems >>= fun p =>
    pure (_, p.2)) = .ok r
  rw [hd1, bind_ok, htv1, bind_ok, pyIterElems_arr tv htv2, bind_ok, hr, bind_ok]
  exact ⟨_, rfl⟩

theorem fixChoiceList_ok_of_shape (cs : List Json)
    (h : ∀ c ∈ cs, c.isObj = true ∧ deltaShapeOK c = true) :
    ∃ r, fixChoiceList cs = .ok r := by
  induction cs with
  | nil => exact ⟨_, rfl⟩
  | cons c cs ih =>
    obtain ⟨hc1, hc2⟩ := h c (List.mem_cons_self c cs)
    obtain ⟨r1, h1⟩ := fixChoice_ok_of_shape c hc1 hc2
    obtain ⟨r2, h2⟩ := ih (fun x hx => h x (List.mem_cons_of_mem _ hx))
    show ∃ r, (fixChoice c >>= fun p1 => fixChoiceList cs >>= fun p2 =>
      pure (p1.1 :: p2.1, p1.2 || p2.2)) = .ok r
    rw [h1, bind_ok, h2, bind_ok]
    exact ⟨_, rfl⟩

theorem fixChoices_ok_of_shape (cfg : Config) (p : Json) (hshape : shapeOK cfg p = true) :
    ∃ r, fixChoices p = .ok r := by
  have hobj : p.isObj = true := by
    unfold shapeOK at hshape
    exact (Bool.and_eq_true _ _ |>.mp (Bool.and_eq_true _ _ |>.mp hshape).1).1
  have hch : choicesShapeOK p = true := by
    unfold shapeOK at hshape
    exact (Bool.and_eq_true _ _ |>.mp (Bool.and_eq_true _ _ |>.mp hshape).1).2
  unfold choicesShapeOK at hch
  have hcv : ∃ cv, pyGetDefault p (strCp "choices") Json.anil = .ok cv ∧ cv.isArr = true ∧
      (∀ c ∈ cv.arrElems, c.isObj = true ∧ deltaShapeOK c = true) := by
    rw [pyGetDefault_obj p _ _ hobj]
    cases hcl : p.objLookup (strCp "choices") with
    | none => exact ⟨Json.anil, rfl, rfl, by intro c hc; simp [Json.arrElems] at hc⟩
    | some cv =>
      rw [hcl] at hch
      refine ⟨cv, rfl, (Bool.and_eq_true _ _ |>.mp hch).1, ?_⟩
      intro c hc
      have := List.all_eq_true.mp (Bool.and_eq_true _ _ |>.mp hch).2 c hc
      exact Bool.and_eq_true _ _ |>.mp this
  obtain ⟨cv, hcv1, hcv2, hcv3⟩ := hcv
  obtain ⟨r, hr⟩ := fixChoiceList_ok_of_shape cv.arrElems hcv3
  show ∃ r, (pyGetDefault p (strCp "choices") Json.anil >>= fun cv =>
    pyIterElems cv >>= fun elems =>
    fixChoiceList elems >>= fun pr =>
    pure (_, pr.2)) = .ok r
  rw [hcv1, bind_ok, pyIterElems_arr cv hcv2, bind_ok, hr, bind_ok]
  exact ⟨_, rfl⟩

theorem fixModel_ok_of_shape (cfg : Config) (p : Json) (hobj : p.isObj = true)
    (hshape : modelShapeOK cfg p = true) : ∃ r, fixModel cfg p = .ok r := by
  unfold modelShapeOK at hshape
  unfold fixModel
  by_cases hmn : cfg.modelName = []
  · rw [if_pos hmn]
    exact ⟨_, rfl⟩
  · rw [if_neg hmn]
    have : (cfg.modelName.isEmpty = true) = False := by
      simp [List.isEmpty_iff, hmn]
    rw [Bool.or_eq_true, this, false_or] at hshape
    rw [pyGetDefault_obj p _ _ hobj, bind_ok]
    cases hml : p.objLookup (strCp "model") with
    | none =>
      simp only [Option.getD_none]
      rw [show pyStartswith (Json.jstr []) (strCp "gpt-4o-mini")
          = .ok ((strCp "gpt-4o-mini").isPrefixOf []) from rfl, bind_ok]
      exact ⟨_, rfl⟩
    | some m =>
      rw [hml] at hshape
      simp only [Option.getD_some]
      match m, hshape with
      | .jstr s, _ =>
        rw [show pyStartswith (Json.jstr s) (strCp "gpt-4o-mini")
            = .ok ((strCp "gpt-4o-mini").isPrefixOf s) from rfl, bind_ok]
        by_cases hpre : (strCp "gpt-4o-mini").isPrefixOf s = true
        · rw [if_pos hpre]
          exact ⟨_, rfl⟩
        · rw [if_neg hpre]
          exact ⟨_, rfl⟩

/-! ## Lemmas: what a successful run of the fixes returns -/

theorem bind_eq_ok {α β : Type} {x : Except PyErr α} {f : α → Except PyErr β} {b : β}
    (h : (x >>= f) = .ok b) : ∃ a, x = .ok a ∧ f a = .ok b := by
  cases x with
  | ok a => exact ⟨a, rfl, h⟩
  | error e =>
    rw [bind_error] at h
    exact absurd h (by simp)

theorem pyGetDefault_inv {v : Json} {k : Str} {d x : Json}
    (h : pyGetDefault v k d = .ok x) : v.isObj = true ∧ x = (v.objLookup k).getD d := by
  cases v <;> simp_all [pyGetDefault, Json.isObj, Json.objLookup]

theorem pySetItem_inv {v : Json} {k : Str} {x y : Json}
    (h : pySetItem v k x = .ok y) : v.isObj = true ∧ y = v.objSet k x := by
  cases v <;> simp_all [pySetItem, Json.isObj]

theorem pyIterElems_inv {v : Json} {es : List Json} (h : pyIterElems v = .ok es) :
    (v.isArr = true ∧ es = v.arrElems) ∨
    (v.isArr = false ∧ ∀ e ∈ es, ∃ s, e = Json.jstr s) := by
  cases v with
  | anil => exact .inl ⟨rfl, by simp_all [pyIterElems, Json.arrElems]⟩
  | acons hd t => exact .inl ⟨rfl, by simp_all [pyIterElems]⟩
  | onil =>
    refine .inr ⟨rfl, ?_⟩
    simp only [pyIterElems, Except.ok.injEq] at h
    subst h
    intro e he
    simp [Json.objPairs] at he
  | ocons k v t =>
    refine .inr ⟨rfl, ?_⟩
    simp only [pyIterElems, Except.ok.injEq] at h
    subst h
    intro e he
    rw [List.mem_map] at he
    obtain ⟨kv, _, hkv⟩ := he
    exact ⟨kv.1, hkv.symm⟩
  | jstr s =>
    refine .inr ⟨rfl, ?_⟩
    simp only [pyIterElems, Except.ok.injEq] at h
    subst h
    intro e he
    rw [List.mem_map] at he
    obtain ⟨c, _, hc⟩ := he
    exact ⟨[c], hc.symm⟩
  | jnull => simp [pyIterElems] at h
  | jbool b => simp [pyIterElems] at h
  | jnum t => simp [pyIterElems] at h

theorem fixOneTc_elim {tc : Json} {r : Json × Bool} (h : fixOneTc tc = .ok r) :
    r = (tcFixed tc, tcFlag tc) := by
  unfold fixOneTc at h
  obtain ⟨has, h1, h2⟩ := bind_eq_ok h
  by_cases hb : has = true
  · subst hb
    rw [if_pos rfl] at h2
    have hr : r = (tc, false) := by
      injection h2 with h3
      exact h3.symm
    have hflag : tcFlag tc = false := by
      cases tc <;> simp_all [pyContains, tcFlag, Json.isObj]
    rw [hr, hflag, tcFixed, hflag]
    simp
  · rw [Bool.not_eq_true] at hb
    subst hb
    rw [if_neg (by simp)] at h2
    obtain ⟨tc2, h3, h4⟩ := bind_eq_ok h2
    obtain ⟨hobj, htc2⟩ := pySetItem_inv h3
    have hr : r = (tc2, true) := by
      injection h4 with h5
      exact h5.symm
    have hkey : tc.objHasKey (strCp "index") = false := by
      cases tc <;> simp_all [pyContains, Json.isObj, Json.objHasKey, Json.objLookup]
    have hflag : tcFlag tc = true := by
      simp [tcFlag, hobj, hkey]
    rw [hr, htc2, hflag, tcFixed, hflag]
    simp

theorem fixTcList_elim {ts : List Json} {l : List Json} {ch : Bool}
    (h : fixTcList ts = .ok (l, ch)) :
    l = ts.map tcFixed ∧ ch = ts.any tcFlag := by
  induction ts generalizing l ch with
  | nil =>
    simp only [fixTcList, pure, Except.pure, Except.ok.injEq] at h
    obtain ⟨h1, h2⟩ := Prod.mk.injEq _ _ _ _ ▸ h
    simp_all
  | cons t ts ih =>
    unfold fixTcList at h
    obtain ⟨r1, h1, h2⟩ := bind_eq_ok h
    obtain ⟨r2, h3, h4⟩ := bind_eq_ok h2
    have hr1 := fixOneTc_elim h1
    have hr : (r1.1 :: r2.1, r1.2 || r2.2) = (l, ch) := by
      injection h4 with h5
    obtain ⟨hr2a, hr2b⟩ := ih (by rw [h3])
    rw [Prod.mk.injEq] at hr
    obtain ⟨hla, hlb⟩ := hr
    subst hla
    subst hlb
    rw [hr1, hr2a, hr2b]
    simp [List.map_cons, List.any_cons]

/-- A list of string values never triggers the index fix. -/
theorem any_tcFlag_jstr (es : List Json) (h : ∀ e ∈ es, ∃ s, e = Json.jstr s) :
    es.any tcFlag = false := by
  rw [List.any_eq_false]
  intro e he
  obtain ⟨s, hs⟩ := h e he
  subst hs
  simp [tcFlag, Json.isObj]

theorem fixChoice_elim {c : Json} {r : Json × Bool} (h : fixChoice c = .ok r) :
    c.isObj = true ∧ r = (choiceFixed c, choiceFlag c) := by
  unfold fixChoice at h
  obtain ⟨delta, h1, h2⟩ := bind_eq_ok h
  obtain ⟨tcv, h3, h4⟩ := bind_eq_ok h2
  obtain ⟨es, h5, h6⟩ := bind_eq_ok h4
  obtain ⟨lc, h7, h8⟩ := bind_eq_ok h6
  obtain ⟨hcobj, hdelta⟩ := pyGetDefault_inv h1
  obtain ⟨hdobj, htcv⟩ := pyGetDefault_inv h3
  obtain ⟨hl, hc⟩ := @fixTcList_elim es lc.1 lc.2 (by rw [← h7])
  have hr : r = (if c.objHasKey (strCp "delta") then
      c.objSet (strCp "delta")
        (if delta.objHasKey (strCp "tool_calls") then
          delta.objSet (strCp "tool_calls")
            (if tcv.isArr then Json.listToArr lc.1 else tcv)
         else delta)
      else c, lc.2) := by
    injection h8 with h9
    exact h9.symm
  refine ⟨hcobj, ?_⟩
  rcases pyIterElems_inv h5 with ⟨ha, hes⟩ | ⟨ha, hes⟩
  · rw [hr, choiceFixed, choiceFlag, ← hdelta, ← htcv, hl, hes, hc, hes, ha]
    simp
  · rw [hr, choiceFixed, choiceFlag, ← hdelta, ← htcv, ha, hc, any_tcFlag_jstr es hes]
    simp

theorem fixChoiceList_elim {cs : List Json} {l : List Json} {ch : Bool}
    (h : fixChoiceList cs = .ok (l, ch)) :
    l = cs.map choiceFixed ∧ ch = cs.any choiceFlag := by
  induction cs generalizing l ch with
  | nil =>
    simp only [fixChoiceList, pure, Except.pure, Except.ok.injEq] at h
    obtain ⟨h1, h2⟩ := Prod.mk.injEq _ _ _ _ ▸ h
    simp_all
  | cons c cs ih =>
    unfold fixChoiceList at h
    obtain ⟨r1, h1, h2⟩ := bind_eq_ok h
    obtain ⟨r2, h3, h4⟩ := bind_eq_ok h2
    have hr1 := (fixChoice_elim h1).2
    have hr : (r1.1 :: r2.1, r1.2 || r2.2) = (l, ch) := by
      injection h4 with h5
    obtain ⟨hr2a, hr2b⟩ := ih (by rw [h3])
    rw [Prod.mk.injEq] at hr
    obtain ⟨hla, hlb⟩ := hr
    subst hla
    subst hlb
    rw [hr1, hr2a, hr2b]
    simp [List.map_cons, List.any_cons]

/-- Choices produced by iterating a non-list never trigger the index fix. -/
theorem any_choiceFlag_jstr (cs : List Json) (h : ∀ c ∈ cs, ∃ s, c = Json.jstr s) :
    cs.any choiceFlag = false := by
  rw [List.any_eq_false]
  intro c hc
  obtain ⟨s, hs⟩ := h c hc
  subst hs
  simp [choiceFlag, Json.objLookup, Json.isArr, Json.arrElems]

theorem fixChoices_elim {p : Json} {r : Json × Bool} (h : fixChoices p = .ok r) :
    p.isObj = true ∧ r = (payloadFixed p, payloadFlag p) := by
  unfold fixChoices at h
  obtain ⟨cv, h1, h2⟩ := bind_eq_ok h
  obtain ⟨es, h3, h4⟩ := bind_eq_ok h2
  obtain ⟨lc, h5, h6⟩ := bind_eq_ok h4
  obtain ⟨hpobj, hcv⟩ := pyGetDefault_inv h1
  obtain ⟨hl, hc⟩ := @fixChoiceList_elim es lc.1 lc.2 (by rw [← h5])
  have hr : r = (if p.objHasKey (strCp "choices") then
      p.objSet (strCp "choices") (if cv.isArr then Json.listToArr lc.1 else cv)
      else p, lc.2) := by
    injection h6 with h7
    exact h7.symm
  refine ⟨hpobj, ?_⟩
  rcases pyIterElems_inv h3 with ⟨ha, hes⟩ | ⟨ha, hes⟩
  · rw [hr, payloadFixed, payloadFlag, ← hcv, hl, hes, hc, hes, ha]
    simp
  · rw [hr, payloadFixed, payloadFlag, ← hcv, ha, hc, any_choiceFlag_jstr es hes]
    simp

theorem pyStartswith_inv {m : Json} {pre : Str} {b : Bool}
    (h : pyStartswith m pre = .ok b) : ∃ s, m = Json.jstr s ∧ b = pre.isPrefixOf s := by
  cases m <;> simp_all [pyStartswith]

theorem fixModel_elim {cfg : Config} {p : Json} {r : Json × Bool}
    (h : fixModel cfg p = .ok r) :
    r = (modelFixed cfg p, modelFlag cfg p) := by
  unfold fixModel at h
  by_cases hmn : cfg.modelName = []
  · rw [if_pos hmn] at h
    have hr : r = (p, false) := by
      injection h with h1
      exact h1.symm
    have hflag : modelFlag cfg p = false := by
      simp [modelFlag, hmn]
    rw [hr, hflag, modelFixed, hflag]
    simp
  · rw [if_neg hmn] at h
    obtain ⟨m, h1, h2⟩ := bind_eq_ok h
    obtain ⟨b, h3, h4⟩ := bind_eq_ok h2
    obtain ⟨hpobj, hm⟩ := pyGetDefault_inv h1
    obtain ⟨s, hms, hb⟩ := pyStartswith_inv h3
    have hne : cfg.modelName.isEmpty = false := by
      simp [List.isEmpty_iff, hmn]
    have hlook : (match p.objLookup (strCp "model") with
        | some (Json.jstr s) => (strCp "gpt-4o-mini").isPrefixOf s
        | _ => false) = b := by
      cases hml : p.objLookup (strCp "model") with
      | none =>
        rw [hml] at hm
        simp only [Option.getD_none] at hm
        rw [hm] at hms
        injection hms with hs
        rw [hb, ← hs]
        rfl
      | some v =>
        rw [hml] at hm
        simp only [Option.getD_some] at hm
        subst hm
        rw [hms]
        exact hb.symm
    have hflag : modelFlag cfg p = b := by
      rw [modelFlag, hne, hlook]
      simp
    by_cases hbv : b = true
    · subst hbv
      rw [if_pos rfl] at h4
      have hr : r = (p.objSet (strCp "model") (Json.jstr cfg.modelName), true) := by
        injection h4 with h5
        exact h5.symm
      rw [hr, modelFixed, hflag]
      simp
    · rw [Bool.not_eq_true] at hbv
      subst hbv
      rw [if_neg (by simp)] at h4
      have hr : r = (p, false) := by
        injection h4 with h5
        exact h5.symm
      rw [hr, modelFixed, hflag]
      simp

/-! ## Lemmas: well-formedness is preserved by the fixes -/

theorem wfArrChain_listToArr (l : List Json) : wfArrChain (Json.listToArr l) = true := by
  induction l with
  | nil => rfl
  | cons h t ih => simp [Json.listToArr, wfArrChain, ih]

theorem wf_listToArr (l : List Json) (h : ∀ x ∈ l, wf x = true) :
    wf (Json.listToArr l) = true := by
  induction l with
  | nil => rfl
  | cons x t ih =>
    simp only [Json.listToArr, wf, Bool.and_eq_true]
    exact ⟨⟨h x (List.mem_cons_self x t), wfArrChain_listToArr t⟩,
      ih (fun y hy => h y (List.mem_cons_of_mem _ hy))⟩

theorem wf_objSet (p : Json) (k : Str) (v : Json) (hw : wf p = true)
    (hk : wfStr k = true) (hv : wf v = true) : wf (p.objSet k v) = true := by
  induction p with
  | ocons k0 v0 t ihv ih =>
    simp only [wf, Bool.and_eq_true] at hw
    obtain ⟨⟨⟨⟨hk0, hv0⟩, hch⟩, ht⟩, hnk⟩ := hw
    by_cases hkk : k0 = k
    · subst hkk
      simp only [Json.objSet, if_pos rfl, wf, Bool.and_eq_true]
      exact ⟨⟨⟨⟨hk0, hv⟩, hch⟩, ht⟩, hnk⟩
    · simp only [Json.objSet, if_neg hkk, wf, Bool.and_eq_true]
      refine ⟨⟨⟨⟨hk0, hv0⟩, Json.wfObjChain_objSet t k v hch⟩, ih ht⟩, ?_⟩
      rw [Json.objHasKey_objSet t k k0 v hch]
      have hnk2 : t.objHasKey k0 = false := by
        rw [Bool.not_eq_true'] at hnk; exact hnk
      rw [Bool.not_eq_true', Bool.or_eq_false_iff]
      refine ⟨?_, hnk2⟩
      simp only [beq_eq_false_iff_ne, ne_eq]
      exact fun hc => hkk hc.symm
  | onil =>
    show wf (Json.ocons k v Json.onil) = true
    simp [wf, wfObjChain, Json.objHasKey, Json.objLookup, hk, hv]
  | _ => simp_all [Json.objSet]

theorem wf_index_tok : wfStr (strCp "index") = true := by decide

theorem wf_zero_tok : wf (Json.jnum [48]) = true := by decide

theorem wf_tcFixed (tc : Json) (hw : wf tc = true) : wf (tcFixed tc) = true := by
  unfold tcFixed
  split
  · exact wf_objSet tc _ _ hw wf_index_tok wf_zero_tok
  · exact hw

/-! ## Lemmas: a second run of the fixes changes nothing -/

theorem pyContains_obj (key : Str) (v : Json) (h : v.isObj = true) :
    pyContains key v = .ok (v.objHasKey key) := by
  cases v <;> simp_all [pyContains, Json.isObj, Json.objHasKey, Json.objLookup]

theorem tcFlag_obj (tc : Json) (h : tcFlag tc = true) :
    tc.isObj = true ∧ tc.objHasKey (strCp "index") = false := by
  simp only [tcFlag, Bool.and_eq_true, Bool.not_eq_true'] at h
  exact h

theorem fixOneTc_of_done (tc : Json) (hobjless : tcFlag tc = false)
    (hok : ∃ r, fixOneTc tc = .ok r) : fixOneTc tc = .ok (tc, false) := by
  obtain ⟨r, hr⟩ := hok
  have := fixOneTc_elim hr
  rw [hr, this, tcFixed, hobjless]
  simp

theorem fixOneTc_rerun (tc : Json) (hw : wf tc = true) (hok : ∃ r, fixOneTc tc = .ok r) :
    fixOneTc (tcFixed tc) = .ok (tcFixed tc, false) := by
  by_cases hf : tcFlag tc = true
  · obtain ⟨hobj, hkey⟩ := tcFlag_obj tc hf
    have hch : wfObjChain tc = true := Json.wfObjChain_of_wf tc hobj hw
    have hfix : tcFixed tc = tc.objSet (strCp "index") (Json.jnum [48]) := by
      simp [tcFixed, hf]
    rw [hfix]
    unfold fixOneTc
    rw [pyContains_obj _ _ (by rw [Json.isObj_objSet]; exact hobj), bind_ok,
      Json.objHasKey_objSet_self tc _ _ hch, if_pos rfl]
    rfl
  · rw [Bool.not_eq_true] at hf
    have : tcFixed tc = tc := by simp [tcFixed, hf]
    rw [this]
    exact fixOneTc_of_done tc hf hok

theorem fixTcList_each {ts : List Json} {r : List Json × Bool}
    (h : fixTcList ts = .ok r) : ∀ t ∈ ts, ∃ rr, fixOneTc t = .ok rr := by
  induction ts generalizing r with
  | nil => intro t ht; simp at ht
  | cons t0 ts ih =>
    unfold fixTcList at h
    obtain ⟨r1, h1, h2⟩ := bind_eq_ok h
    obtain ⟨r2, h3, h4⟩ := bind_eq_ok h2
    intro t ht
    rcases List.mem_cons.mp ht with hh | hh
    · subst hh; exact ⟨r1, h1⟩
    · exact ih h3 t hh

theorem fixTcList_of_each (ts : List Json) (h : ∀ t ∈ ts, fixOneTc t = .ok (t, false)) :
    fixTcList ts = .ok (ts, false) := by
  induction ts with
  | nil => rfl
  | cons t0 ts ih =>
    have hts := ih (fun t ht => h t (List.mem_cons_of_mem _ ht))
    unfold fixTcList
    simp only [h t0 (List.mem_cons_self t0 ts), hts, bind_ok]
    rfl

/-- Facts about the intermediate values of a successful `fixChoice` run that
`fixChoice_elim` does not expose: the delta is a dict and every element of an
actual `tool_calls` list made it through the per-element fix. -/
theorem fixChoice_parts {c : Json} {r : Json × Bool} (h : fixChoice c = .ok r) :
    ((c.objLookup (strCp "delta")).getD Json.onil).isObj = true ∧
    ∀ e ∈ (((((c.objLookup (strCp "delta")).getD Json.onil).objLookup
        (strCp "tool_calls")).getD Json.anil)).arrElems,
      ∃ rr, fixOneTc e = .ok rr := by
  unfold fixChoice at h
  obtain ⟨delta, h1, h2⟩ := bind_eq_ok h
  obtain ⟨tcv, h3, h4⟩ := bind_eq_ok h2
  obtain ⟨es, h5, h6⟩ := bind_eq_ok h4
  obtain ⟨lc, h7, h8⟩ := bind_eq_ok h6
  obtain ⟨hcobj, hdelta⟩ := pyGetDefault_inv h1
  obtain ⟨hdobj, htcv⟩ := pyGetDefault_inv h3
  refine ⟨by rw [← hdelta]; exact hdobj, ?_⟩
  intro e he
  rw [← hdelta, ← htcv] at he
  rcases pyIterElems_inv h5 with ⟨ha, hes⟩ | ⟨ha, hes⟩
  · exact fixTcList_each h7 e (by rw [hes]; exact he)
  · exfalso
    have harrE : tcv.arrElems = [] := by
      cases tcv <;> first | rfl | simp [Json.isArr] at ha
    rw [harrE] at he
    simp at he

theorem fixChoice_rerun (c : Json) (r : Json × Bool) (hw : wf c = true)
    (h : fixChoice c = .ok r) : fixChoice (choiceFixed c) = .ok (choiceFixed c, false) := by
  obtain ⟨hcobj, helim⟩ := fixChoice_elim h
  obtain ⟨hdobj, heach⟩ := fixChoice_parts h
  have hch : wfObjChain c = true := Json.wfObjChain_of_wf c hcobj hw
  by_cases hdk : c.objHasKey (strCp "delta") = true
  · obtain ⟨delta, hdl⟩ : ∃ d, c.objLookup (strCp "delta") = some d := by
      rw [Json.objHasKey, Option.isSome_iff_exists] at hdk
      exact hdk
    have hdget : (c.objLookup (strCp "delta")).getD Json.onil = delta := by
      rw [hdl]; rfl
    rw [hdget] at hdobj heach
    have hwdelta : wf delta = true := Json.wf_objLookup c _ delta hw hdl
    have hdch : wfObjChain delta = true := Json.wfObjChain_of_wf delta hdobj hwdelta
    by_cases harr : ((delta.objLookup (strCp "tool_calls")).getD Json.anil).isArr = true
    · by_cases htk : delta.objHasKey (strCp "tool_calls") = true
      · obtain ⟨tcv, htl⟩ : ∃ tv, delta.objLookup (strCp "tool_calls") = some tv := by
          rw [Json.objHasKey, Option.isSome_iff_exists] at htk
          exact htk
        have htget : (delta.objLookup (strCp "tool_calls")).getD Json.anil = tcv := by
          rw [htl]; rfl
        rw [htget] at harr heach
        have hwtcv : wf tcv = true := Json.wf_objLookup delta _ tcv hwdelta htl
        -- the fixed choice in this configuration
        have hcf : choiceFixed c = c.objSet (strCp "delta")
            (delta.objSet (strCp "tool_calls")
              (Json.listToArr (tcv.arrElems.map tcFixed))) := by
          rw [choiceFixed]
          simp only [hdget, htget, harr, if_true, htk, hdk]
        rw [hcf]
        set tcv2 := Json.listToArr (tcv.arrElems.map tcFixed) with htcv2
        set delta2 := delta.objSet (strCp "tool_calls") tcv2 with hdelta2
        unfold fixChoice
        rw [pyGetDefault_obj _ _ _ (by rw [Json.isObj_objSet]; exact hcobj),
          Json.objLookup_objSet_self c _ _ hch]
        rw [show (some delta2).getD Json.onil = delta2 from rfl, bind_ok]
        rw [pyGetDefault_obj _ _ _ (by rw [hdelta2, Json.isObj_objSet]; exact hdobj),
          Json.objLookup_objSet_self delta _ _ hdch]
        rw [show (some tcv2).getD Json.anil = tcv2 from rfl, bind_ok]
        rw [pyIterElems_arr tcv2 (by rw [htcv2]; exact Json.isArr_listToArr _), bind_ok]
        rw [show tcv2.arrElems = tcv.arrElems.map tcFixed from by
          rw [htcv2, Json.arrElems_listToArr]]
        rw [fixTcList_of_each _ (by
          intro t ht
          rw [List.mem_map] at ht
          obtain ⟨e, he, he2⟩ := ht
          subst he2
          exact fixOneTc_rerun e (Json.wf_arrElem tcv e hwtcv he) (heach e he)), bind_ok]
        show Except.ok
            ((if (c.objSet (strCp "delta") delta2).objHasKey (strCp "delta") = true then
                (c.objSet (strCp "delta") delta2).objSet (strCp "delta")
                  (if delta2.objHasKey (strCp "tool_calls") = true then
                      delta2.objSet (strCp "tool_calls")
                        (if tcv2.isArr = true then
                            Json.listToArr (List.map tcFixed tcv.arrElems)
                          else tcv2)
                    else delta2)
              else c.objSet (strCp "delta") delta2),
              false) =
          Except.ok (c.objSet (strCp "delta") delta2, false)
        rw [show tcv2.isArr = true from by rw [htcv2]; exact Json.isArr_listToArr _, if_pos rfl]
        rw [show Json.listToArr (tcv.arrElems.map tcFixed) = tcv2 from rfl]
        rw [show delta2.objHasKey (strCp "tool_calls") = true from by
          rw [hdelta2]; exact Json.objHasKey_objSet_self delta _ _ hdch, if_pos rfl]
        rw [show delta2.objSet (strCp "tool_calls") tcv2 = delta2 from by
          rw [hdelta2, Json.objSet_objSet_self]]
        rw [show (c.objSet (strCp "delta") delta2).objHasKey (strCp "delta") = true from
          Json.objHasKey_objSet_self c _ _ hch, if_pos rfl]
        rw [Json.objSet_objSet_self]
      · -- `tool_calls` absent: the default `anil` iterates nothing and the
        -- rebuild leaves everything in place
        rw [Bool.not_eq_true] at htk
        have htget : (delta.objLookup (strCp "tool_calls")).getD Json.anil = Json.anil := by
          rw [Json.objHasKey] at htk
          cases hx : delta.objLookup (strCp "tool_calls") with
          | none => rfl
          | some v => rw [hx] at htk; simp at htk
        have hcf : choiceFixed c = c := by
          rw [choiceFixed]
          simp only [hdget, htget, htk, Bool.false_eq_true, if_false, hdk, if_true]
          exact Json.objSet_same c _ delta hdl
        have hflag : choiceFlag c = false := by
          rw [choiceFlag]
          simp only [hdget, htget]
          rfl
        rw [hcf, h, helim, hcf, hflag]
    · -- `tool_calls` holds a non-list: nothing was or can be rebuilt
      rw [Bool.not_eq_true] at harr
      have hdelta2 : (if delta.objHasKey (strCp "tool_calls") = true then
          delta.objSet (strCp "tool_calls")
            ((delta.objLookup (strCp "tool_calls")).getD Json.anil)
          else delta) = delta := by
        by_cases htk : delta.objHasKey (strCp "tool_calls") = true
        · rw [if_pos htk]
          obtain ⟨tv, htl⟩ : ∃ tv, delta.objLookup (strCp "tool_calls") = some tv := by
            rw [Json.objHasKey, Option.isSome_iff_exists] at htk
            exact htk
          rw [htl, show (some tv).getD Json.anil = tv from rfl]
          exact Json.objSet_same delta _ tv htl
        · rw [if_neg htk]
      have hcf : choiceFixed c = c := by
        rw [choiceFixed]
        simp only [hdget, harr, Bool.false_eq_true, if_false]
        rw [show (if delta.objHasKey (strCp "tool_calls") = true then
            delta.objSet (strCp "tool_calls")
              ((delta.objLookup (strCp "tool_calls")).getD Json.anil)
            else delta) = delta from hdelta2]
        simp only [hdk, if_true]
        exact Json.objSet_same c _ delta hdl
      have hflag : choiceFlag c = false := by
        rw [choiceFlag]
        simp only [hdget, harr]
        simp
      rw [hcf, h, helim, hcf, hflag]
  · -- no `delta` key: the defaults are fresh and the choice is untouched
    rw [Bool.not_eq_true] at hdk
    have hdget : (c.objLookup (strCp "delta")).getD Json.onil = Json.onil := by
      rw [Json.objHasKey] at hdk
      cases hx : c.objLookup (strCp "delta") with
      | none => rfl
      | some v => rw [hx] at hdk; simp at hdk
    have hcf : choiceFixed c = c := by
      rw [choiceFixed]
      simp only [hdget, hdk]
      rw [show (Json.onil.objLookup (strCp "tool_calls")).getD Json.anil = Json.anil from rfl]
      simp
    have hflag : choiceFlag c = false := by
      rw [choiceFlag]
      simp only [hdget]
      rfl
    rw [hcf, h, helim, hcf, hflag]

theorem fixChoiceList_each {cs : List Json} {r : List Json × Bool}
    (h : fixChoiceList cs = .ok r) : ∀ c ∈ cs, ∃ rr, fixChoice c = .ok rr := by
  induction cs generalizing r with
  | nil => intro c hc; simp at hc
  | cons c0 cs ih =>
    unfold fixChoiceList at h
    obtain ⟨r1, h1, h2⟩ := bind_eq_ok h
    obtain ⟨r2, h3, h4⟩ := bind_eq_ok h2
    intro c hc
    rcases List.mem_cons.mp hc with hh | hh
    · subst hh; exact ⟨r1, h1⟩
    · exact ih h3 c hh

theorem fixChoiceList_of_each (cs : List Json)
    (h : ∀ c ∈ cs, fixChoice c = .ok (c, false)) :
    fixChoiceList cs = .ok (cs, false) := by
  induction cs with
  | nil => rfl
  | cons c0 cs ih =>
    have hcs := ih (fun c hc => h c (List.mem_cons_of_mem _ hc))
    unfold fixChoiceList
    simp only [h c0 (List.mem_cons_self c0 cs), hcs, bind_ok]
    rfl

/-- Every element of an actual `choices` list made it through the per-choice
fix when `fixChoices` succeeds. -/
theorem fixChoices_parts {p : Json} {r : Json × Bool} (h : fixChoices p = .ok r) :
    ∀ c ∈ ((p.objLookup (strCp "choices")).getD Json.anil).arrElems,
      ∃ rr, fixChoice c = .ok rr := by
  unfold fixChoices at h
  obtain ⟨cv, h1, h2⟩ := bind_eq_ok h
  obtain ⟨es, h3, h4⟩ := bind_eq_ok h2
  obtain ⟨lc, h5, h6⟩ := bind_eq_ok h4
  obtain ⟨hpobj, hcv⟩ := pyGetDefault_inv h1
  intro c hc
  rw [← hcv] at hc
  rcases pyIterElems_inv h3 with ⟨ha, hes⟩ | ⟨ha, hes⟩
  · exact fixChoiceList_each h5 c (by rw [hes]; exact hc)
  · exfalso
    have harrE : cv.arrElems = [] := by
      cases cv <;> first | rfl | simp [Json.isArr] at ha
    rw [harrE] at hc
    simp at hc

theorem wfArrChain_of_wf (a : Json) (ha : a.isArr = true) (hw : wf a = true) :
    wfArrChain a = true := by
  cases a <;> simp_all [Json.isArr, wf, wfArrChain]

theorem wf_delta_tok : wfStr (strCp "delta") = true := by decide

theorem wf_tool_calls_tok : wfStr (strCp "tool_calls") = true := by decide

theorem wf_choices_tok : wfStr (strCp "choices") = true := by decide

theorem wf_model_tok : wfStr (strCp "model") = true := by decide

theorem wf_choiceFixed (c : Json) (hw : wf c = true) : wf (choiceFixed c) = true := by
  simp only [choiceFixed]
  by_cases hdk : c.objHasKey (strCp "delta") = true
  · rw [if_pos hdk]
    have hdw : wf ((c.objLookup (strCp "delta")).getD Json.onil) = true := by
      cases hx : c.objLookup (strCp "delta") with
      | none => rfl
      | some d => exact Json.wf_objLookup c _ d hw hx
    set delta := (c.objLookup (strCp "delta")).getD Json.onil with hdelta
    have htw : wf ((delta.objLookup (strCp "tool_calls")).getD Json.anil) = true := by
      cases hx : delta.objLookup (strCp "tool_calls") with
      | none => rfl
      | some d => exact Json.wf_objLookup delta _ d hdw hx
    set tcv := (delta.objLookup (strCp "tool_calls")).getD Json.anil with htcv
    have htw2 : wf (if tcv.isArr = true then
        Json.listToArr (tcv.arrElems.map tcFixed) else tcv) = true := by
      by_cases ha : tcv.isArr = true
      · rw [if_pos ha]
        refine wf_listToArr _ ?_
        intro x hx
        rw [List.mem_map] at hx
        obtain ⟨e, he, hex⟩ := hx
        subst hex
        exact wf_tcFixed e (Json.wf_arrElem tcv e htw he)
      · rw [if_neg ha]; exact htw
    have hd2 : wf (if delta.objHasKey (strCp "tool_calls") = true then
        delta.objSet (strCp "tool_calls")
          (if tcv.isArr = true then Json.listToArr (tcv.arrElems.map tcFixed) else tcv)
        else delta) = true := by
      by_cases htk : delta.objHasKey (strCp "tool_calls") = true
      · rw [if_pos htk]
        exact wf_objSet delta _ _ hdw wf_tool_calls_tok htw2
      · rw [if_neg htk]; exact hdw
    exact wf_objSet c _ _ hw wf_delta_tok hd2
  · rw [if_neg hdk]; exact hw

theorem wf_payloadFixed (p : Json) (hw : wf p = true) : wf (payloadFixed p) = true := by
  simp only [payloadFixed]
  by_cases hck : p.objHasKey (strCp "choices") = true
  · rw [if_pos hck]
    have hcw : wf ((p.objLookup (strCp "choices")).getD Json.anil) = true := by
      cases hx : p.objLookup (strCp "choices") with
      | none => rfl
      | some d => exact Json.wf_objLookup p _ d hw hx
    set cv := (p.objLookup (strCp "choices")).getD Json.anil with hcv
    have hcw2 : wf (if cv.isArr = true then
        Json.listToArr (cv.arrElems.map choiceFixed) else cv) = true := by
      by_cases ha : cv.isArr = true
      · rw [if_pos ha]
        refine wf_listToArr _ ?_
        intro x hx
        rw [List.mem_map] at hx
        obtain ⟨e, he, hex⟩ := hx
        subst hex
        exact wf_choiceFixed e (Json.wf_arrElem cv e hcw he)
      · rw [if_neg ha]; exact hcw
    exact wf_objSet p _ _ hw wf_choices_tok hcw2
  · rw [if_neg hck]; exact hw

theorem wf_modelFixed (cfg : Config) (p : Json) (hw : wf p = true)
    (hmn : wfStr cfg.modelName = true) : wf (modelFixed cfg p) = true := by
  rw [modelFixed]
  by_cases hf : modelFlag cfg p = true
  · rw [if_pos hf]
    exact wf_objSet p _ _ hw wf_model_tok hmn
  · rw [if_neg hf]; exact hw

theorem fixChoices_rerun (p : Json) (r : Json × Bool) (hw : wf p = true)
    (h : fixChoices p = .ok r) :
    fixChoices (payloadFixed p) = .ok (payloadFixed p, false) := by
  obtain ⟨hpobj, helim⟩ := fixChoices_elim h
  have heach := fixChoices_parts h
  have hch : wfObjChain p = true := Json.wfObjChain_of_wf p hpobj hw
  by_cases hck : p.objHasKey (strCp "choices") = true
  · obtain ⟨cv, hcl⟩ : ∃ d, p.objLookup (strCp "choices") = some d := by
      rw [Json.objHasKey, Option.isSome_iff_exists] at hck
      exact hck
    have hcget : (p.objLookup (strCp "choices")).getD Json.anil = cv := by
      rw [hcl]; rfl
    rw [hcget] at heach
    have hwcv : wf cv = true := Json.wf_objLookup p _ cv hw hcl
    by_cases harr : cv.isArr = true
    · have hpf : payloadFixed p = p.objSet (strCp "choices")
          (Json.listToArr (cv.arrElems.map choiceFixed)) := by
        rw [payloadFixed]
        simp only [hcget, harr, if_true, hck]
      rw [hpf]
      set cv2 := Json.listToArr (cv.arrElems.map choiceFixed) with hcv2
      unfold fixChoices
      rw [pyGetDefault_obj _ _ _ (by rw [Json.isObj_objSet]; exact hpobj),
        Json.objLookup_objSet_self p _ _ hch]
      rw [show (some cv2).getD Json.anil = cv2 from rfl, bind_ok]
      rw [pyIterElems_arr cv2 (by rw [hcv2]; exact Json.isArr_listToArr _), bind_ok]
      rw [show cv2.arrElems = cv.arrElems.map choiceFixed from by
        rw [hcv2, Json.arrElems_listToArr]]
      rw [fixChoiceList_of_each _ (by
        intro c hc
        rw [List.mem_map] at hc
        obtain ⟨e, he, he2⟩ := hc
        subst he2
        obtain ⟨re, hre⟩ := heach e he
        exact fixChoice_rerun e re (Json.wf_arrElem cv e hwcv he) hre), bind_ok]
      show Except.ok
          ((if (p.objSet (strCp "choices") cv2).objHasKey (strCp "choices") = true then
              (p.objSet (strCp "choices") cv2).objSet (strCp "choices")
                (if cv2.isArr = true then
                    Json.listToArr (cv.arrElems.map choiceFixed)
                  else cv2)
            else p.objSet (strCp "choices") cv2),
            false) =
        Except.ok (p.objSet (strCp "choices") cv2, false)
      rw [show cv2.isArr = true from by rw [hcv2]; exact Json.isArr_listToArr _, if_pos rfl]
      rw [show Json.listToArr (cv.arrElems.map choiceFixed) = cv2 from rfl]
      rw [show (p.objSet (strCp "choices") cv2).objHasKey (strCp "choices") = true from
        Json.objHasKey_objSet_self p _ _ hch, if_pos rfl]
      rw [Json.objSet_objSet_self]
    · rw [Bool.not_eq_true] at harr
      have hpf : payloadFixed p = p := by
        rw [payloadFixed]
        simp only [hcget, harr, Bool.false_eq_true, if_false, hck, if_true]
        exact Json.objSet_same p _ cv hcl
      have hflag : payloadFlag p = false := by
        rw [payloadFlag]
        simp only [hcget, harr]
        simp
      rw [hpf, h, helim, hpf, hflag]
  · rw [Bool.not_eq_true] at hck
    have hcget : (p.objLookup (strCp "choices")).getD Json.anil = Json.anil := by
      rw [Json.objHasKey] at hck
      cases hx : p.objLookup (strCp "choices") with
      | none => rfl
      | some v => rw [hx] at hck; simp at hck
    have hpf : payloadFixed p = p := by
      rw [payloadFixed]
      simp only [hcget, hck, Bool.false_eq_true, if_false]
    have hflag : payloadFlag p = false := by
      rw [payloadFlag]
      simp only [hcget]
      rfl
    rw [hpf, h, helim, hpf, hflag]

/-- `fixChoices` is insensitive to a write at the `model` key: the Python
loop reads and rebuilds only `choices`. -/
theorem fixChoices_objSet_model (q : Json) (v : Json) (hch : wfObjChain q = true)
    (h : fixChoices q = .ok (q, false)) :
    fixChoices (q.objSet (strCp "model") v) = .ok (q.objSet (strCp "model") v, false) := by
  have hobj : q.isObj = true := (fixChoices_elim h).1
  have hne : strCp "model" ≠ strCp "choices" := by decide
  unfold fixChoices at h ⊢
  obtain ⟨cv, h1, h2⟩ := bind_eq_ok h
  obtain ⟨es, h3, h4⟩ := bind_eq_ok h2
  obtain ⟨lc, h5, h6⟩ := bind_eq_ok h4
  obtain ⟨-, hcv⟩ := pyGetDefault_inv h1
  rw [pyGetDefault_obj _ _ _ (by rw [Json.isObj_objSet]; exact hobj),
    Json.objLookup_objSet_ne q _ _ v hne, ← hcv, bind_ok, h3, bind_ok, h5, bind_ok]
  obtain ⟨elems2, ch⟩ := lc
  have h6a : ((if q.objHasKey (strCp "choices") = true then
      q.objSet (strCp "choices") (if cv.isArr = true then Json.listToArr elems2 else cv)
      else q), ch) = (q, false) := Except.ok.inj h6
  rw [Prod.mk.injEq] at h6a
  obtain ⟨hp2, hch0⟩ := h6a
  subst hch0
  show Except.ok
      ((if (q.objSet (strCp "model") v).objHasKey (strCp "choices") = true then
          (q.objSet (strCp "model") v).objSet (strCp "choices")
            (if cv.isArr = true then Json.listToArr elems2 else cv)
        else q.objSet (strCp "model") v),
        false) =
    Except.ok (q.objSet (strCp "model") v, false)
  by_cases hck : q.objHasKey (strCp "choices") = true
  · have hck2 : (q.objSet (strCp "model") v).objHasKey (strCp "choices") = true := by
      rw [Json.objHasKey_objSet q _ _ v hch, hck]
      simp
    rw [if_pos hck2]
    rw [if_pos hck] at hp2
    have hlc : q.objLookup (strCp "choices") =
        some (if cv.isArr = true then Json.listToArr elems2 else cv) := by
      have hx := Json.objLookup_objSet_self q (strCp "choices")
        (if cv.isArr = true then Json.listToArr elems2 else cv) hch
      rw [hp2] at hx
      exact hx
    have hlc2 : (q.objSet (strCp "model") v).objLookup (strCp "choices") =
        some (if cv.isArr = true then Json.listToArr elems2 else cv) := by
      rw [Json.objLookup_objSet_ne q _ _ v hne, hlc]
    rw [Json.objSet_same _ _ _ hlc2]
  · rw [Bool.not_eq_true] at hck
    have hck2 : (q.objSet (strCp "model") v).objHasKey (strCp "choices") = false := by
      rw [Json.objHasKey_objSet q _ _ v hch, hck]
      simp [show (strCp "model" == strCp "choices") = false from by decide]
    rw [if_neg (by simp [hck2])]

theorem modelFixed_idem (cfg : Config) (q : Json) :
    modelFixed cfg (modelFixed cfg q) = modelFixed cfg q := by
  by_cases hf : modelFlag cfg q = true
  · have h1 : modelFixed cfg q = q.objSet (strCp "model") (Json.jstr cfg.modelName) := by
      rw [modelFixed, if_pos hf]
    rw [h1]
    by_cases hf2 : modelFlag cfg (q.objSet (strCp "model") (Json.jstr cfg.modelName)) = true
    · rw [modelFixed, if_pos hf2, Json.objSet_objSet_self]
    · rw [modelFixed, if_neg hf2]
  · have h1 : modelFixed cfg q = q := by rw [modelFixed, if_neg hf]
    rw [h1]
    exact h1

theorem fixModel_rerun (cfg : Config) (q : Json) (r : Json × Bool)
    (hch : wfObjChain q = true) (h : fixModel cfg q = .ok r) :
    fixModel cfg (modelFixed cfg q) =
      .ok (modelFixed cfg q, modelFlag cfg (modelFixed cfg q)) := by
  by_cases hf : modelFlag cfg q = true
  · have h1 : modelFixed cfg q = q.objSet (strCp "model") (Json.jstr cfg.modelName) := by
      rw [modelFixed, if_pos hf]
    have hmn : ¬ cfg.modelName = [] := by
      rw [modelFlag, Bool.and_eq_true] at hf
      intro hc
      rw [hc] at hf
      simp [List.isEmpty] at hf
    have hobjq : q.isObj = true := by
      rw [modelFlag, Bool.and_eq_true] at hf
      obtain ⟨-, hf2⟩ := hf
      cases hml : q.objLookup (strCp "model") with
      | none => rw [hml] at hf2; simp at hf2
      | some m => cases q <;> simp_all [Json.objLookup, Json.isObj]
    rw [h1]
    set q2 := q.objSet (strCp "model") (Json.jstr cfg.modelName) with hq2
    have hlook : q2.objLookup (strCp "model") = some (Json.jstr cfg.modelName) :=
      Json.objLookup_objSet_self q _ _ hch
    have hobj2 : q2.isObj = true := by rw [hq2, Json.isObj_objSet]; exact hobjq
    unfold fixModel
    rw [if_neg hmn]
    rw [pyGetDefault_obj _ _ _ hobj2, hlook,
      show (some (Json.jstr cfg.modelName)).getD (Json.jstr []) = Json.jstr cfg.modelName
        from rfl, bind_ok]
    rw [show pyStartswith (Json.jstr cfg.modelName) (strCp "gpt-4o-mini") =
      .ok ((strCp "gpt-4o-mini").isPrefixOf cfg.modelName) from rfl, bind_ok]
    by_cases hpre : (strCp "gpt-4o-mini").isPrefixOf cfg.modelName = true
    · rw [if_pos hpre]
      have hflag2 : modelFlag cfg q2 = true := by
        rw [modelFlag, hlook]
        simp [List.isEmpty_iff, hmn, hpre]
      rw [hflag2]
      rw [show q2.objSet (strCp "model") (Json.jstr cfg.modelName) = q2 from by
        rw [hq2, Json.objSet_objSet_self]]
      rfl
    · rw [Bool.not_eq_true] at hpre
      rw [if_neg (by simp [hpre])]
      have hflag2 : modelFlag cfg q2 = false := by
        rw [modelFlag, hlook]
        simp [hpre]
      rw [hflag2]
      rfl
  · have h1 : modelFixed cfg q = q := by rw [modelFixed, if_neg hf]
    rw [h1, h, fixModel_elim h, h1]

/-! ## Lemmas: the scanner on serialized strings -/

theorem skipWs_cons (c : Nat) (l : Str) (h : isWsCp c = false) :
    skipWs (c :: l) = c :: l := by
  simp [skipWs, List.dropWhile_cons, h]

theorem hexVal_hexDigit (d : Nat) (h : d < 16) : hexVal (hexDigit d) = some d := by
  unfold hexDigit hexVal
  by_cases h10 : d < 10
  · rw [if_pos h10, if_pos (by simp; omega)]
    congr 1
    omega
  · rw [if_neg h10, if_neg (by simp; omega), if_pos (by simp; omega)]
    congr 1
    omega

theorem hex4_val (m : Nat) (h : m < 0x10000) :
    m / 4096 % 16 * 4096 + m / 256 % 16 * 256 + m / 16 % 16 * 16 + m % 16 = m := by
  omega

theorem parseStrB_quote (f : Nat) (x : Str) : parseStrB (f + 1) (0x22 :: x) = some ([], x) :=
  rfl

theorem parseStrB_plain (f : Nat) (c : Nat) (x : Str) (h22 : ¬ c = 0x22) (h5c : ¬ c = 0x5C)
    (hctl : ¬ c < 0x20) :
    parseStrB (f + 1) (c :: x) = (fun p => (c :: p.1, p.2)) <$> parseStrB f x := by
  simp only [parseStrB, if_neg h22, if_neg h5c, if_neg hctl]

theorem parseStrB_esc (f : Nat) (e d : Nat) (x : Str)
    (h : (e = 0x22 ∧ d = 0x22) ∨ (e = 0x5C ∧ d = 0x5C) ∨ (e = 0x2F ∧ d = 0x2F)
       ∨ (e = 0x62 ∧ d = 8) ∨ (e = 0x66 ∧ d = 12) ∨ (e = 0x6E ∧ d = 10)
       ∨ (e = 0x72 ∧ d = 13) ∨ (e = 0x74 ∧ d = 9)) :
    parseStrB (f + 1) (0x5C :: e :: x) = (fun p => (d :: p.1, p.2)) <$> parseStrB f x := by
  rcases h with ⟨h1, h2⟩|⟨h1, h2⟩|⟨h1, h2⟩|⟨h1, h2⟩|⟨h1, h2⟩|⟨h1, h2⟩|⟨h1, h2⟩|⟨h1, h2⟩ <;>
    subst h1 <;> subst h2 <;> rfl

theorem parseStrB_u_low (f : Nat) (m : Nat) (hlt : m < 0x10000)
    (hns : isHiSurr m = false) (z : Str) :
    parseStrB (f + 1) ([0x5C, 0x75] ++ hex4 m ++ z)
      = (fun p => (m :: p.1, p.2)) <$> parseStrB f z := by
  have e1 : hexVal (hexDigit (m / 4096 % 16)) = some (m / 4096 % 16) :=
    hexVal_hexDigit _ (Nat.mod_lt _ (by norm_num))
  have e2 : hexVal (hexDigit (m / 256 % 16)) = some (m / 256 % 16) :=
    hexVal_hexDigit _ (Nat.mod_lt _ (by norm_num))
  have e3 : hexVal (hexDigit (m / 16 % 16)) = some (m / 16 % 16) :=
    hexVal_hexDigit _ (Nat.mod_lt _ (by norm_num))
  have e4 : hexVal (hexDigit (m % 16)) = some (m % 16) :=
    hexVal_hexDigit _ (Nat.mod_lt _ (by norm_num))
  have hu : m / 4096 % 16 * 4096 + m / 256 % 16 * 256 + m / 16 % 16 * 16 + m % 16 = m :=
    hex4_val m hlt
  have hcond : (decide (0xD800 ≤ m) && decide (m ≤ 0xDBFF)) = false := by
    unfold isHiSurr at hns
    exact hns
  conv_lhs => rw [show [0x5C, 0x75] ++ hex4 m ++ z =
    0x5C :: 0x75 :: hexDigit (m / 4096 % 16) :: hexDigit (m / 256 % 16)
      :: hexDigit (m / 16 % 16) :: hexDigit (m % 16) :: z from rfl]
  simp only [parseStrB, e1, e2, e3, e4, hu, hcond]
  simp

/-- The serialization of one code point that is not a low surrogate never
looks like a `\uDC00`–`\uDFFF` escape, whatever follows it. -/
theorem escCp_not_lo_escape (c2 : Nat) (w : Str) (hcp : c2 < 0x110000)
    (hlo : isLoSurr c2 = false) (g1 g2 g3 g4 : Nat) (zr : Str)
    (heq : escCp c2 ++ w = 0x5C :: 0x75 :: g1 :: g2 :: g3 :: g4 :: zr)
    (y1 y2 y3 y4 : Nat) (h1 : hexVal g1 = some y1) (h2 : hexVal g2 = some y2)
    (h3 : hexVal g3 = some y3) (h4 : hexVal g4 = some y4) :
    isLoSurr (y1 * 4096 + y2 * 256 + y3 * 16 + y4) = false := by
  have recompose : ∀ m, m < 0x10000 → hexDigit (m / 4096 % 16) = g1 →
      hexDigit (m / 256 % 16) = g2 → hexDigit (m / 16 % 16) = g3 →
      hexDigit (m % 16) = g4 → y1 * 4096 + y2 * 256 + y3 * 16 + y4 = m := by
    intro m hm hg1 hg2 hg3 hg4
    have e1 : y1 = m / 4096 % 16 := by
      rw [← hg1, hexVal_hexDigit _ (Nat.mod_lt _ (by norm_num))] at h1
      exact (Option.some.inj h1).symm
    have e2 : y2 = m / 256 % 16 := by
      rw [← hg2, hexVal_hexDigit _ (Nat.mod_lt _ (by norm_num))] at h2
      exact (Option.some.inj h2).symm
    have e3 : y3 = m / 16 % 16 := by
      rw [← hg3, hexVal_hexDigit _ (Nat.mod_lt _ (by norm_num))] at h3
      exact (Option.some.inj h3).symm
    have e4 : y4 = m % 16 := by
      rw [← hg4, hexVal_hexDigit _ (Nat.mod_lt _ (by norm_num))] at h4
      exact (Option.some.inj h4).symm
    rw [e1, e2, e3, e4]
    exact hex4_val m hm
  by_cases b1 : c2 = 0x22
  · simp only [escCp, if_pos b1] at heq
    simp at heq
  by_cases b2 : c2 = 0x5C
  · simp only [escCp, if_neg b1, if_pos b2] at heq
    simp at heq
  by_cases b3 : c2 = 8
  · simp only [escCp, if_neg b1, if_neg b2, if_pos b3] at heq
    simp at heq
  by_cases b4 : c2 = 12
  · simp only [escCp, if_neg b1, if_neg b2, if_neg b3, if_pos b4] at heq
    simp at heq
  by_cases b5 : c2 = 10
  · simp only [escCp, if_neg b1, if_neg b2, if_neg b3, if_neg b4, if_pos b5] at heq
    simp at heq
  by_cases b6 : c2 = 13
  · simp only [escCp, if_neg b1, if_neg b2, if_neg b3, if_neg b4, if_neg b5, if_pos b6] at heq
    simp at heq
  by_cases b7 : c2 = 9
  · simp only [escCp, if_neg b1, if_neg b2, if_neg b3, if_neg b4, if_neg b5, if_neg b6,
      if_pos b7] at heq
    simp at heq
  by_cases b8 : c2 < 0x20
  · -- a control character: `\u` + the four hex digits of `c2` itself
    simp only [escCp, if_neg b1, if_neg b2, if_neg b3, if_neg b4, if_neg b5, if_neg b6,
      if_neg b7, if_pos b8, hex4, List.cons_append, List.nil_append, List.cons.injEq] at heq
    obtain ⟨-, -, hg1, hg2, hg3, hg4, -⟩ := heq
    rw [recompose c2 (by omega) hg1 hg2 hg3 hg4]
    unfold isLoSurr
    simp
    omega
  by_cases b9 : c2 ≤ 0x7E
  · -- a printable ASCII character stands alone, and it is not a backslash
    simp only [escCp, if_neg b1, if_neg b2, if_neg b3, if_neg b4, if_neg b5, if_neg b6,
      if_neg b7, if_neg b8, if_pos b9, List.cons_append, List.nil_append,
      List.cons.injEq] at heq
    exact absurd heq.1 b2
  by_cases b10 : c2 < 0x10000
  · -- a BMP code point: `\u` + the four hex digits of `c2` itself
    simp only [escCp, if_neg b1, if_neg b2, if_neg b3, if_neg b4, if_neg b5, if_neg b6,
      if_neg b7, if_neg b8, if_neg b9, if_pos b10, hex4, List.cons_append, List.nil_append,
      List.cons.injEq] at heq
    obtain ⟨-, -, hg1, hg2, hg3, hg4, -⟩ := heq
    rw [recompose c2 b10 hg1 hg2 hg3 hg4]
    exact hlo
  · -- an astral code point: the first escape unit is its high surrogate
    simp only [escCp, if_neg b1, if_neg b2, if_neg b3, if_neg b4, if_neg b5, if_neg b6,
      if_neg b7, if_neg b8, if_neg b9, if_neg b10, hex4, List.cons_append, List.nil_append,
      List.cons.injEq] at heq
    obtain ⟨-, -, hg1, hg2, hg3, hg4, -⟩ := heq
    rw [recompose (0xD800 + (c2 - 0x10000) / 1024) (by omega) hg1 hg2 hg3 hg4]
    unfold isLoSurr
    simp
    omega

/-- Scanning `\uXXXX` for a high surrogate whose continuation is not a
low-surrogate escape keeps the lone surrogate. -/
theorem parseStrB_u_hi (f m : Nat) (hm : isHiSurr m = true) (hlt : m < 0x10000) (z : Str)
    (hsafe : ∀ g1 g2 g3 g4 zr, z = 0x5C :: 0x75 :: g1 :: g2 :: g3 :: g4 :: zr →
      ∀ y1 y2 y3 y4, hexVal g1 = some y1 → hexVal g2 = some y2 → hexVal g3 = some y3 →
        hexVal g4 = some y4 → isLoSurr (y1 * 4096 + y2 * 256 + y3 * 16 + y4) = false) :
    parseStrB (f + 1) ([0x5C, 0x75] ++ hex4 m ++ z)
      = (fun p => (m :: p.1, p.2)) <$> parseStrB f z := by
  have e1 : hexVal (hexDigit (m / 4096 % 16)) = some (m / 4096 % 16) :=
    hexVal_hexDigit _ (Nat.mod_lt _ (by norm_num))
  have e2 : hexVal (hexDigit (m / 256 % 16)) = some (m / 256 % 16) :=
    hexVal_hexDigit _ (Nat.mod_lt _ (by norm_num))
  have e3 : hexVal (hexDigit (m / 16 % 16)) = some (m / 16 % 16) :=
    hexVal_hexDigit _ (Nat.mod_lt _ (by norm_num))
  have e4 : hexVal (hexDigit (m % 16)) = some (m % 16) :=
    hexVal_hexDigit _ (Nat.mod_lt _ (by norm_num))
  have hu : m / 4096 % 16 * 4096 + m / 256 % 16 * 256 + m / 16 % 16 * 16 + m % 16 = m :=
    hex4_val m hlt
  have hcond : (decide (0xD800 ≤ m) && decide (m ≤ 0xDBFF)) = true := hm
  conv_lhs => rw [show [0x5C, 0x75] ++ hex4 m ++ z =
    0x5C :: 0x75 :: hexDigit (m / 4096 % 16) :: hexDigit (m / 256 % 16)
      :: hexDigit (m / 16 % 16) :: hexDigit (m % 16) :: z from rfl]
  rcases z with _ | ⟨a, _ | ⟨b, _ | ⟨g1, _ | ⟨g2, _ | ⟨g3, _ | ⟨g4, zr⟩⟩⟩⟩⟩⟩
  · simp only [parseStrB, e1, e2, e3, e4, hu, hcond]
    simp
  · simp only [parseStrB, e1, e2, e3, e4, hu, hcond]
    simp
  · simp only [parseStrB, e1, e2, e3, e4, hu, hcond]
    simp
  · simp only [parseStrB, e1, e2, e3, e4, hu, hcond]
    simp
  · simp only [parseStrB, e1, e2, e3, e4, hu, hcond]
    simp
  · simp only [parseStrB, e1, e2, e3, e4, hu, hcond]
    simp
  · rcases hy1 : hexVal g1 with _ | y1
    · simp only [parseStrB, e1, e2, e3, e4, hu, hcond, hy1]
      simp
    rcases hy2 : hexVal g2 with _ | y2
    · simp only [parseStrB, e1, e2, e3, e4, hu, hcond, hy1, hy2]
      simp
    rcases hy3 : hexVal g3 with _ | y3
    · simp only [parseStrB, e1, e2, e3, e4, hu, hcond, hy1, hy2, hy3]
      simp
    rcases hy4 : hexVal g4 with _ | y4
    · simp only [parseStrB, e1, e2, e3, e4, hu, hcond, hy1, hy2, hy3, hy4]
      simp
    by_cases ha : a = 0x5C
    · by_cases hb : b = 0x75
      · have hlo2 : isLoSurr (y1 * 4096 + y2 * 256 + y3 * 16 + y4) = false := by
          subst ha
          subst hb
          exact hsafe g1 g2 g3 g4 zr rfl y1 y2 y3 y4 hy1 hy2 hy3 hy4
        have hcf : (decide (a = 0x5C) && decide (b = 0x75)
            && (decide (0xDC00 ≤ y1 * 4096 + y2 * 256 + y3 * 16 + y4)
              && decide (y1 * 4096 + y2 * 256 + y3 * 16 + y4 ≤ 0xDFFF))) = false := by
          rw [show (decide (0xDC00 ≤ y1 * 4096 + y2 * 256 + y3 * 16 + y4)
              && decide (y1 * 4096 + y2 * 256 + y3 * 16 + y4 ≤ 0xDFFF)) = false from hlo2]
          simp
        simp only [parseStrB, e1, e2, e3, e4, hu, hcond, hy1, hy2, hy3, hy4, hcf]
        simp
      · have hcf : (decide (a = 0x5C) && decide (b = 0x75)
            && (decide (0xDC00 ≤ y1 * 4096 + y2 * 256 + y3 * 16 + y4)
              && decide (y1 * 4096 + y2 * 256 + y3 * 16 + y4 ≤ 0xDFFF))) = false := by
          simp [hb]
        simp only [parseStrB, e1, e2, e3, e4, hu, hcond, hy1, hy2, hy3, hy4, hcf]
        simp
    · have hcf : (decide (a = 0x5C) && decide (b = 0x75)
          && (decide (0xDC00 ≤ y1 * 4096 + y2 * 256 + y3 * 16 + y4)
            && decide (y1 * 4096 + y2 * 256 + y3 * 16 + y4 ≤ 0xDFFF))) = false := by
        simp [ha]
      simp only [parseStrB, e1, e2, e3, e4, hu, hcond, hy1, hy2, hy3, hy4, hcf]
      simp

/-- Scanning the surrogate-pair escape of an astral code point combines the
pair (first the general form on abstract hex digits, then on `hex4`). -/
theorem parseStrB_u12 (f : Nat) (d1 d2 d3 d4 q1 q2 q3 q4 : Nat)
    (x1 x2 x3 x4 y1 y2 y3 y4 : Nat)
    (hd1 : hexVal d1 = some x1) (hd2 : hexVal d2 = some x2) (hd3 : hexVal d3 = some x3)
    (hd4 : hexVal d4 = some x4) (hq1 : hexVal q1 = some y1) (hq2 : hexVal q2 = some y2)
    (hq3 : hexVal q3 = some y3) (hq4 : hexVal q4 = some y4)
    (hhi : (decide (0xD800 ≤ x1 * 4096 + x2 * 256 + x3 * 16 + x4)
      && decide (x1 * 4096 + x2 * 256 + x3 * 16 + x4 ≤ 0xDBFF)) = true)
    (hlo : (decide (0xDC00 ≤ y1 * 4096 + y2 * 256 + y3 * 16 + y4)
      && decide (y1 * 4096 + y2 * 256 + y3 * 16 + y4 ≤ 0xDFFF)) = true) (z : List Nat) :
    parseStrB (f + 1)
        (0x5C :: 0x75 :: d1 :: d2 :: d3 :: d4 :: 0x5C :: 0x75 :: q1 :: q2 :: q3 :: q4 :: z)
      = (fun p => ((0x10000 + (x1 * 4096 + x2 * 256 + x3 * 16 + x4 - 0xD800) * 1024
          + (y1 * 4096 + y2 * 256 + y3 * 16 + y4 - 0xDC00)) :: p.1, p.2))
        <$> parseStrB f z := by
  simp only [parseStrB, hd1, hd2, hd3, hd4, hq1, hq2, hq3, hq4, hhi, hlo]
  simp

theorem parseStrB_u_pair (f m : Nat) (hm : 0x10000 ≤ m) (hlt : m < 0x110000) (z : Str) :
    parseStrB (f + 1) ([0x5C, 0x75] ++ hex4 (0xD800 + (m - 0x10000) / 1024)
        ++ ([0x5C, 0x75] ++ hex4 (0xDC00 + (m - 0x10000) % 1024) ++ z))
      = (fun p => (m :: p.1, p.2)) <$> parseStrB f z := by
  have h := parseStrB_u12 f _ _ _ _ _ _ _ _ _ _ _ _ _ _ _ _
    (hexVal_hexDigit ((0xD800 + (m - 0x10000) / 1024) / 4096 % 16) (Nat.mod_lt _ (by norm_num)))
    (hexVal_hexDigit ((0xD800 + (m - 0x10000) / 1024) / 256 % 16) (Nat.mod_lt _ (by norm_num)))
    (hexVal_hexDigit ((0xD800 + (m - 0x10000) / 1024) / 16 % 16) (Nat.mod_lt _ (by norm_num)))
    (hexVal_hexDigit ((0xD800 + (m - 0x10000) / 1024) % 16) (Nat.mod_lt _ (by norm_num)))
    (hexVal_hexDigit ((0xDC00 + (m - 0x10000) % 1024) / 4096 % 16) (Nat.mod_lt _ (by norm_num)))
    (hexVal_hexDigit ((0xDC00 + (m - 0x10000) % 1024) / 256 % 16) (Nat.mod_lt _ (by norm_num)))
    (hexVal_hexDigit ((0xDC00 + (m - 0x10000) % 1024) / 16 % 16) (Nat.mod_lt _ (by norm_num)))
    (hexVal_hexDigit ((0xDC00 + (m - 0x10000) % 1024) % 16) (Nat.mod_lt _ (by norm_num)))
    (by rw [hex4_val _ (show 0xD800 + (m - 0x10000) / 1024 < 0x10000 by omega)]
        simp
        omega)
    (by rw [hex4_val _ (show 0xDC00 + (m - 0x10000) % 1024 < 0x10000 by omega)]
        simp
        omega) z
  rw [show [0x5C, 0x75] ++ hex4 (0xD800 + (m - 0x10000) / 1024)
        ++ ([0x5C, 0x75] ++ hex4 (0xDC00 + (m - 0x10000) % 1024) ++ z) =
      0x5C :: 0x75 :: hexDigit ((0xD800 + (m - 0x10000) / 1024) / 4096 % 16)
        :: hexDigit ((0xD800 + (m - 0x10000) / 1024) / 256 % 16)
        :: hexDigit ((0xD800 + (m - 0x10000) / 1024) / 16 % 16)
        :: hexDigit ((0xD800 + (m - 0x10000) / 1024) % 16)
        :: 0x5C :: 0x75 :: hexDigit ((0xDC00 + (m - 0x10000) % 1024) / 4096 % 16)
        :: hexDigit ((0xDC00 + (m - 0x10000) % 1024) / 256 % 16)
        :: hexDigit ((0xDC00 + (m - 0x10000) % 1024) / 16 % 16)
        :: hexDigit ((0xDC00 + (m - 0x10000) % 1024) % 16) :: z from rfl]
  rw [h]
  rw [hex4_val _ (show 0xD800 + (m - 0x10000) / 1024 < 0x10000 by omega),
    hex4_val _ (show 0xDC00 + (m - 0x10000) % 1024 < 0x10000 by omega)]
  rw [show 0x10000 + (0xD800 + (m - 0x10000) / 1024 - 0xD800) * 1024
      + (0xDC00 + (m - 0x10000) % 1024 - 0xDC00) = m from by omega]

theorem wfStr_cons (c : Nat) (cs : Str) (h : wfStr (c :: cs) = true) :
    cpOK c = true ∧ wfStr cs = true := by
  unfold wfStr at h ⊢
  rw [Bool.and_eq_true] at h
  obtain ⟨hall, hnh⟩ := h
  rw [List.all_cons, Bool.and_eq_true] at hall
  refine ⟨hall.1, ?_⟩
  rw [Bool.and_eq_true]
  refine ⟨hall.2, ?_⟩
  cases cs with
  | nil => rfl
  | cons b r =>
    unfold noHiLo at hnh
    rw [Bool.and_eq_true] at hnh
    exact hnh.2

theorem wfStr_hi_next (c b : Nat) (r : Str) (h : wfStr (c :: b :: r) = true)
    (hhi : isHiSurr c = true) : isLoSurr b = false := by
  unfold wfStr noHiLo at h
  rw [Bool.and_eq_true] at h
  obtain ⟨-, h2⟩ := h
  rw [Bool.and_eq_true] at h2
  have h3 := h2.1
  rw [Bool.not_eq_true'] at h3
  rw [hhi] at h3
  simpa using h3

theorem cpOK_lt (c : Nat) (h : cpOK c = true) : c < 0x110000 := by
  unfold cpOK at h
  exact of_decide_eq_true h

/-- `json.dumps`'s `ensure_ascii` escaping followed by the scanner's string
body parse is the identity on well-formed strings, whatever follows the
closing quote. -/
theorem parseStrB_escStr (s : Str) (hw : wfStr s = true) :
    ∀ f x, parseStrB (f + s.length + 1) (escStr s ++ 0x22 :: x) = some (s, x) := by
  induction s with
  | nil =>
    intro f x
    simpa using parseStrB_quote f x
  | cons c cs ih =>
    intro f x
    obtain ⟨hcp, hcs⟩ := wfStr_cons c cs hw
    have ihx := ih hcs
    have hlen : f + (c :: cs).length + 1 = f + cs.length + 1 + 1 := by
      rw [List.length_cons]
      omega
    rw [hlen]
    have hestep : escStr (c :: cs) ++ 0x22 :: x = escCp c ++ (escStr cs ++ 0x22 :: x) := by
      rw [show escStr (c :: cs) = escCp c ++ escStr cs from rfl, List.append_assoc]
    rw [hestep]
    by_cases b1 : c = 0x22
    · subst b1
      rw [show escCp 0x22 ++ (escStr cs ++ 0x22 :: x)
          = 0x5C :: 0x22 :: (escStr cs ++ 0x22 :: x) from rfl]
      rw [parseStrB_esc _ _ 0x22 _ (Or.inl ⟨rfl, rfl⟩), ihx f x]
      rfl
    by_cases b2 : c = 0x5C
    · subst b2
      rw [show escCp 0x5C ++ (escStr cs ++ 0x22 :: x)
          = 0x5C :: 0x5C :: (escStr cs ++ 0x22 :: x) from rfl]
      rw [parseStrB_esc _ _ 0x5C _ (Or.inr (Or.inl ⟨rfl, rfl⟩)), ihx f x]
      rfl
    by_cases b3 : c = 8
    · subst b3
      rw [show escCp 8 ++ (escStr cs ++ 0x22 :: x)
          = 0x5C :: 0x62 :: (escStr cs ++ 0x22 :: x) from rfl]
      rw [parseStrB_esc _ _ 8 _ (by simp), ihx f x]
      rfl
    by_cases b4 : c = 12
    · subst b4
      rw [show escCp 12 ++ (escStr cs ++ 0x22 :: x)
          = 0x5C :: 0x66 :: (escStr cs ++ 0x22 :: x) from rfl]
      rw [parseStrB_esc _ _ 12 _ (by simp), ihx f x]
      rfl
    by_cases b5 : c = 10
    · subst b5
      rw [show escCp 10 ++ (escStr cs ++ 0x22 :: x)
          = 0x5C :: 0x6E :: (escStr cs ++ 0x22 :: x) from rfl]
      rw [parseStrB_esc _ _ 10 _ (by simp), ihx f x]
      rfl
    by_cases b6 : c = 13
    · subst b6
      rw [show escCp 13 ++ (escStr cs ++ 0x22 :: x)
          = 0x5C :: 0x72 :: (escStr cs ++ 0x22 :: x) from rfl]
      rw [parseStrB_esc _ _ 13 _ (by simp), ihx f x]
      rfl
    by_cases b7 : c = 9
    · subst b7
      rw [show escCp 9 ++ (escStr cs ++ 0x22 :: x)
          = 0x5C :: 0x74 :: (escStr cs ++ 0x22 :: x) from rfl]
      rw [parseStrB_esc _ _ 9 _ (by simp), ihx f x]
      rfl
    by_cases b8 : c < 0x20
    · have hesc : escCp c = [0x5C, 0x75] ++ hex4 c := by
        simp only [escCp, if_neg b1, if_neg b2, if_neg b3, if_neg b4, if_neg b5, if_neg b6,
          if_neg b7, if_pos b8]
      rw [hesc]
      rw [parseStrB_u_low _ c (by omega) (by unfold isHiSurr; simp; omega) _, ihx f x]
      rfl
    by_cases b9 : c ≤ 0x7E
    · have hesc : escCp c = [c] := by
        simp only [escCp, if_neg b1, if_neg b2, if_neg b3, if_neg b4, if_neg b5, if_neg b6,
          if_neg b7, if_neg b8, if_pos b9]
      rw [hesc, show [c] ++ (escStr cs ++ 0x22 :: x) = c :: (escStr cs ++ 0x22 :: x) from rfl]
      rw [parseStrB_plain _ c _ b1 b2 b8, ihx f x]
      rfl
    by_cases b10 : c < 0x10000
    · have hesc : escCp c = [0x5C, 0x75] ++ hex4 c := by
        simp only [escCp, if_neg b1, if_neg b2, if_neg b3, if_neg b4, if_neg b5, if_neg b6,
          if_neg b7, if_neg b8, if_neg b9, if_pos b10]
      rw [hesc]
      by_cases bhi : isHiSurr c = true
      · rw [parseStrB_u_hi _ c bhi b10 _ ?safe, ihx f x]
        case safe =>
          intro g1 g2 g3 g4 zr heq y1 y2 y3 y4 h1 h2 h3 h4
          cases cs with
          | nil => simp [escStr] at heq
          | cons c2 cs2 =>
            obtain ⟨hcp2, -⟩ := wfStr_cons c2 cs2 hcs
            have hlo2 : isLoSurr c2 = false := wfStr_hi_next c c2 cs2 hw bhi
            rw [show escStr (c2 :: cs2) ++ 0x22 :: x
                = escCp c2 ++ (escStr cs2 ++ 0x22 :: x) from by
              rw [show escStr (c2 :: cs2) = escCp c2 ++ escStr cs2 from rfl,
                List.append_assoc]] at heq
            exact escCp_not_lo_escape c2 _ (cpOK_lt c2 hcp2) hlo2 g1 g2 g3 g4 zr heq
              y1 y2 y3 y4 h1 h2 h3 h4
        rfl
      · rw [Bool.not_eq_true] at bhi
        rw [parseStrB_u_low _ c b10 bhi _, ihx f x]
        rfl
    · have hesc : escCp c = [0x5C, 0x75] ++ hex4 (0xD800 + (c - 0x10000) / 1024)
          ++ ([0x5C, 0x75] ++ hex4 (0xDC00 + (c - 0x10000) % 1024)) := by
        simp only [escCp, if_neg b1, if_neg b2, if_neg b3, if_neg b4, if_neg b5, if_neg b6,
          if_neg b7, if_neg b8, if_neg b9, if_neg b10]
        simp [List.append_assoc]
      rw [hesc]
      rw [show ([0x5C, 0x75] ++ hex4 (0xD800 + (c - 0x10000) / 1024)
            ++ ([0x5C, 0x75] ++ hex4 (0xDC00 + (c - 0x10000) % 1024)))
            ++ (escStr cs ++ 0x22 :: x)
          = [0x5C, 0x75] ++ hex4 (0xD800 + (c - 0x10000) / 1024)
            ++ ([0x5C, 0x75] ++ hex4 (0xDC00 + (c - 0x10000) % 1024)
              ++ (escStr cs ++ 0x22 :: x)) from by simp [List.append_assoc]]
      rw [parseStrB_u_pair _ c (by omega) (cpOK_lt c hcp) _, ihx f x]
      rfl

/-! ## Lemmas: the number scanner on serialized tokens -/

theorem delim_nonDigitHead (X : Str) (h : delimHead X) : nonDigitHead X = true := by
  rcases h with rfl | ⟨Y, rfl⟩ | ⟨Y, rfl⟩ | ⟨Y, rfl⟩ <;> rfl

theorem delim_not46 (X : Str) (h : delimHead X) : ∀ d r, X = 46 :: d :: r → False := by
  rcases h with rfl | ⟨Y, rfl⟩ | ⟨Y, rfl⟩ | ⟨Y, rfl⟩ <;> intro d r he <;> simp at he

theorem delim_not_e (X : Str) (h : delimHead X) :
    ∀ a rest, X = a :: rest → (a = 0x65 ∨ a = 0x45) → False := by
  rcases h with rfl | ⟨Y, rfl⟩ | ⟨Y, rfl⟩ | ⟨Y, rfl⟩ <;> intro a rest he ha <;>
    simp at he <;> omega

theorem span_loop_spec (p : Nat → Bool) (s : Str) : ∀ acc, ∃ t r,
    List.span.loop p s acc = ((acc.reverse ++ t : Str), r) ∧ t.all p = true ∧ t ++ r = s ∧
    (match r with | [] => True | d :: _ => p d = false) := by
  induction s with
  | nil =>
    intro acc
    exact ⟨[], [], by simp [List.span.loop], rfl, rfl, trivial⟩
  | cons a s ih =>
    intro acc
    by_cases hp : p a = true
    · obtain ⟨t, r, h1, h2, h3, h4⟩ := ih (a :: acc)
      refine ⟨a :: t, r, ?_, ?_, ?_, h4⟩
      · rw [show List.span.loop p (a :: s) acc = List.span.loop p s (a :: acc) from by
          simp [List.span.loop, hp]]
        rw [h1]
        simp
      · simp [hp, h2]
      · simp [h3]
    · rw [Bool.not_eq_true] at hp
      refine ⟨[], a :: s, ?_, rfl, rfl, ?_⟩
      · simp [List.span.loop, hp]
      · simp [hp]

theorem span_spec (s : Str) : ∃ t r, List.span isDigitCp s = (t, r)
    ∧ t.all isDigitCp = true ∧ t ++ r = s ∧ nonDigitHead r = true := by
  obtain ⟨t, r, h1, h2, h3, h4⟩ := span_loop_spec isDigitCp s []
  refine ⟨t, r, ?_, h2, h3, ?_⟩
  · rw [show List.span isDigitCp s = List.span.loop isDigitCp s [] from rfl, h1]
    simp
  · cases r with
    | nil => rfl
    | cons d r2 =>
      rw [show nonDigitHead (d :: r2) = !isDigitCp d from rfl, Bool.not_eq_true']
      exact h4

theorem span_append_digits (ds Y : Str) (h1 : ds.all isDigitCp = true)
    (h2 : nonDigitHead Y = true) : List.span isDigitCp (ds ++ Y) = (ds, Y) := by
  suffices h : ∀ ds2 : Str, ds2.all isDigitCp = true → ∀ acc : Str,
      List.span.loop isDigitCp (ds2 ++ Y) acc = ((acc.reverse ++ ds2 : Str), Y) by
    rw [show List.span isDigitCp (ds ++ Y) = List.span.loop isDigitCp (ds ++ Y) [] from rfl,
      h ds h1 []]
    simp
  intro ds2 hds2
  induction ds2 with
  | nil =>
    intro acc
    cases Y with
    | nil => simp [List.span.loop]
    | cons d Y2 =>
      have hd : isDigitCp d = false := by
        rw [show nonDigitHead (d :: Y2) = !isDigitCp d from rfl, Bool.not_eq_true'] at h2
        exact h2
      simp [List.span.loop, hd]
  | cons d ds3 ih =>
    intro acc
    rw [List.all_cons, Bool.and_eq_true] at hds2
    rw [show (d :: ds3) ++ Y = d :: (ds3 ++ Y) from rfl]
    rw [show List.span.loop isDigitCp (d :: (ds3 ++ Y)) acc
        = List.span.loop isDigitCp (ds3 ++ Y) (d :: acc) from by
      simp [List.span.loop, hds2.1]]
    rw [ih hds2.2 (d :: acc)]
    simp

theorem scanFrac_head_ne (Y : Str) (h : ∀ d r, Y = 46 :: d :: r → False) :
    scanFrac Y = ([], Y) := by
  unfold scanFrac
  split
  · rename_i d r
    exact absurd rfl (fun hc => h d r hc)
  · rfl

theorem scanFrac_build (d : Nat) (ds Y : Str) (hd : isDigitCp d = true)
    (hds : ds.all isDigitCp = true) (hY : nonDigitHead Y = true) :
    scanFrac (46 :: d :: (ds ++ Y)) = (46 :: d :: ds, Y) := by
  unfold scanFrac
  simp only []
  rw [if_pos hd, span_append_digits ds Y hds hY]

theorem scanFrac_inv (s fr r : Str) (h : scanFrac s = (fr, r)) :
    (fr = [] ∧ r = s) ∨ (∃ d ds, fr = 46 :: d :: ds ∧ isDigitCp d = true
      ∧ ds.all isDigitCp = true ∧ nonDigitHead r = true ∧ s = fr ++ r) := by
  unfold scanFrac at h
  split at h
  · rename_i d r2
    by_cases hd : isDigitCp d = true
    · rw [if_pos hd] at h
      obtain ⟨t, rr, h1, h2, h3, h4⟩ := span_spec r2
      rw [h1] at h
      rw [Prod.mk.injEq] at h
      obtain ⟨hfr, hr⟩ := h
      right
      refine ⟨d, t, hfr.symm, hd, h2, by rw [← hr]; exact h4, ?_⟩
      rw [← hfr, ← hr]
      simp [← h3]
    · rw [if_neg hd] at h
      rw [Prod.mk.injEq] at h
      exact Or.inl ⟨h.1.symm, h.2.symm⟩
  · rw [Prod.mk.injEq] at h
    exact Or.inl ⟨h.1.symm, h.2.symm⟩

theorem scanExp_head_ne (Y : Str)
    (h : ∀ a rest, Y = a :: rest → (a = 0x65 ∨ a = 0x45) → False) :
    scanExp Y = ([], Y) := by
  unfold scanExp
  split
  · rename_i e sg d r
    rw [if_neg (fun hc => h e _ rfl hc)]
  · rename_i e d
    rw [if_neg (fun hc => h e _ rfl hc.1)]
  · rfl

theorem scanExp_build_a (e sg d : Nat) (ds Y : Str) (he : e = 0x65 ∨ e = 0x45)
    (hsg : sg = 43 ∨ sg = 45) (hd : isDigitCp d = true) (hds : ds.all isDigitCp = true)
    (hY : nonDigitHead Y = true) :
    scanExp (e :: sg :: d :: (ds ++ Y)) = (e :: sg :: d :: ds, Y) := by
  unfold scanExp
  simp only []
  rw [if_pos he, if_pos ⟨hsg, hd⟩, span_append_digits ds Y hds hY]

theorem scanExp_build_b (e sg : Nat) (ds Y : Str) (he : e = 0x65 ∨ e = 0x45)
    (hsg : isDigitCp sg = true) (hds : ds.all isDigitCp = true)
    (hY : nonDigitHead Y = true) :
    scanExp (e :: sg :: (ds ++ Y)) = (e :: sg :: ds, Y) := by
  have hsg43 : ¬ (sg = 43 ∨ sg = 45) := by
    unfold isDigitCp at hsg
    rw [Bool.and_eq_true, decide_eq_true_eq, decide_eq_true_eq] at hsg
    omega
  cases ds with
  | nil =>
    cases Y with
    | nil =>
      unfold scanExp
      simp only [List.nil_append]
      rw [if_pos ⟨he, hsg⟩]
    | cons y Y2 =>
      have hy : isDigitCp y = false := by
        rw [show nonDigitHead (y :: Y2) = !isDigitCp y from rfl, Bool.not_eq_true'] at hY
        exact hY
      unfold scanExp
      simp only [List.nil_append]
      rw [if_pos he, if_neg (fun hc => hsg43 hc.1), if_pos hsg,
        show List.span isDigitCp (y :: Y2) = ([], y :: Y2) from
          span_append_digits [] (y :: Y2) rfl hY]
  | cons d2 ds2 =>
    rw [List.all_cons, Bool.and_eq_true] at hds
    unfold scanExp
    simp only [List.cons_append]
    rw [if_pos he, if_neg (fun hc => hsg43 hc.1), if_pos hsg]
    rw [show List.span isDigitCp (d2 :: (ds2 ++ Y)) = (d2 :: ds2, Y) from
      span_append_digits (d2 :: ds2) Y (by simp [hds.1, hds.2]) hY]

theorem scanExp_inv (s ex r : Str) (h : scanExp s = (ex, r)) :
    (ex = [] ∧ r = s)
    ∨ (∃ e sg ds, ex = e :: sg :: ds ∧ (e = 0x65 ∨ e = 0x45)
        ∧ (((sg = 43 ∨ sg = 45) ∧ ∃ d ds2, ds = d :: ds2 ∧ isDigitCp d = true
              ∧ ds2.all isDigitCp = true)
          ∨ (isDigitCp sg = true ∧ ds.all isDigitCp = true))
        ∧ nonDigitHead r = true ∧ s = ex ++ r) := by
  unfold scanExp at h
  split at h
  · rename_i e sg d r2
    by_cases he : e = 0x65 ∨ e = 0x45
    · rw [if_pos he] at h
      by_cases hsd : (sg = 43 ∨ sg = 45) ∧ isDigitCp d = true
      · rw [if_pos hsd] at h
        obtain ⟨t, rr, h1, h2, h3, h4⟩ := span_spec r2
        rw [h1, Prod.mk.injEq] at h
        obtain ⟨hex, hr⟩ := h
        right
        refine ⟨e, sg, d :: t, hex.symm, he, Or.inl ⟨hsd.1, d, t, rfl, hsd.2, h2⟩,
          by rw [← hr]; exact h4, ?_⟩
        rw [← hex, ← hr]
        simp [← h3]
      · rw [if_neg hsd] at h
        by_cases hsg : isDigitCp sg = true
        · rw [if_pos hsg] at h
          obtain ⟨t, rr, h1, h2, h3, h4⟩ := span_spec (d :: r2)
          rw [h1, Prod.mk.injEq] at h
          obtain ⟨hex, hr⟩ := h
          right
          refine ⟨e, sg, t, hex.symm, he, Or.inr ⟨hsg, h2⟩, by rw [← hr]; exact h4, ?_⟩
          rw [← hex, ← hr]
          simp [← h3]
        · rw [if_neg hsg, Prod.mk.injEq] at h
          exact Or.inl ⟨h.1.symm, h.2.symm⟩
    · rw [if_neg he, Prod.mk.injEq] at h
      exact Or.inl ⟨h.1.symm, h.2.symm⟩
  · rename_i e d
    by_cases hed : (e = 0x65 ∨ e = 0x45) ∧ isDigitCp d = true
    · rw [if_pos hed, Prod.mk.injEq] at h
      right
      refine ⟨e, d, [], h.1.symm, hed.1, Or.inr ⟨hed.2, rfl⟩, by rw [← h.2]; rfl, ?_⟩
      rw [← h.1, ← h.2]
      simp
    · rw [if_neg hed, Prod.mk.injEq] at h
      exact Or.inl ⟨h.1.symm, h.2.symm⟩
  · rw [Prod.mk.injEq] at h
    exact Or.inl ⟨h.1.symm, h.2.symm⟩

theorem nonDigitHead_append_fr (fr ex X : Str)
    (hfr : fr = [] ∨ ∃ d ds2, fr = 46 :: d :: ds2 ∧ isDigitCp d = true
        ∧ ds2.all isDigitCp = true)
    (hex : ex = [] ∨ ∃ e sg ds2, ex = e :: sg :: ds2 ∧ (e = 0x65 ∨ e = 0x45)
        ∧ (((sg = 43 ∨ sg = 45) ∧ ∃ d ds3, ds2 = d :: ds3 ∧ isDigitCp d = true
              ∧ ds3.all isDigitCp = true)
          ∨ (isDigitCp sg = true ∧ ds2.all isDigitCp = true)))
    (hX : delimHead X) :
    nonDigitHead (fr ++ (ex ++ X)) = true ∧ nonDigitHead (ex ++ X) = true := by
  have h2 : nonDigitHead (ex ++ X) = true := by
    rcases hex with rfl | ⟨e, sg, ds2, rfl, he, -⟩
    · simpa using delim_nonDigitHead X hX
    · rcases he with rfl | rfl <;> rfl
  refine ⟨?_, h2⟩
  rcases hfr with rfl | ⟨d, ds2, rfl, -, -⟩
  · simpa using h2
  · rfl

theorem scanFrac_at (fr ex X : Str)
    (hfr : fr = [] ∨ ∃ d ds2, fr = 46 :: d :: ds2 ∧ isDigitCp d = true
        ∧ ds2.all isDigitCp = true)
    (hex : ex = [] ∨ ∃ e sg ds2, ex = e :: sg :: ds2 ∧ (e = 0x65 ∨ e = 0x45)
        ∧ (((sg = 43 ∨ sg = 45) ∧ ∃ d ds3, ds2 = d :: ds3 ∧ isDigitCp d = true
              ∧ ds3.all isDigitCp = true)
          ∨ (isDigitCp sg = true ∧ ds2.all isDigitCp = true)))
    (hX : delimHead X) :
    scanFrac (fr ++ (ex ++ X)) = (fr, ex ++ X) := by
  rcases hfr with rfl | ⟨d, ds2, rfl, hd, hds2⟩
  · rw [List.nil_append]
    refine scanFrac_head_ne _ ?_
    intro d r he
    rcases hex with rfl | ⟨e, sg, ds3, rfl, hee, -⟩
    · exact delim_not46 X hX d r (by simpa using he)
    · rw [List.cons_append] at he
      injection he with he1 _
      omega
  · rw [show (46 :: d :: ds2) ++ (ex ++ X) = 46 :: d :: (ds2 ++ (ex ++ X)) from rfl]
    exact scanFrac_build d ds2 (ex ++ X) hd hds2
      (nonDigitHead_append_fr [] ex X (Or.inl rfl) hex hX).2

theorem scanExp_at (ex X : Str)
    (hex : ex = [] ∨ ∃ e sg ds2, ex = e :: sg :: ds2 ∧ (e = 0x65 ∨ e = 0x45)
        ∧ (((sg = 43 ∨ sg = 45) ∧ ∃ d ds3, ds2 = d :: ds3 ∧ isDigitCp d = true
              ∧ ds3.all isDigitCp = true)
          ∨ (isDigitCp sg = true ∧ ds2.all isDigitCp = true)))
    (hX : delimHead X) :
    scanExp (ex ++ X) = (ex, X) := by
  have hXnd : nonDigitHead X = true := delim_nonDigitHead X hX
  rcases hex with rfl | ⟨e, sg, ds2, rfl, he, hshape⟩
  · rw [List.nil_append]
    exact scanExp_head_ne X (fun a rest hrest ha => delim_not_e X hX a rest hrest ha)
  · rcases hshape with ⟨hsg, d, ds3, rfl, hd, hds3⟩ | ⟨hsg, hds2⟩
    · rw [show (e :: sg :: d :: ds3) ++ X = e :: sg :: d :: (ds3 ++ X) from rfl]
      exact scanExp_build_a e sg d ds3 X he hsg hd hds3 hXnd
    · rw [show (e :: sg :: ds2) ++ X = e :: sg :: (ds2 ++ X) from rfl]
      exact scanExp_build_b e sg ds2 X he hsg hds2 hXnd

theorem scanNum_build (tok X : Str) (h : numShape tok) (hX : delimHead X) :
    scanNum (tok ++ X) = some (tok, X) := by
  obtain ⟨neg, c, ds, fr, ex, htok, hneg, hint, hfr, hex⟩ := h
  have hnd : nonDigitHead (fr ++ (ex ++ X)) = true :=
    (nonDigitHead_append_fr fr ex X hfr hex hX).1
  have hsf : scanFrac (fr ++ (ex ++ X)) = (fr, ex ++ X) := scanFrac_at fr ex X hfr hex hX
  have hse : scanExp (ex ++ X) = (ex, X) := scanExp_at ex X hex hX
  have hc45 : ¬ c = 45 := by rcases hint with ⟨h1, -⟩ | ⟨h1, h2, -⟩ <;> omega
  rcases hneg with rfl | rfl
  · rw [htok]
    rw [show ([] ++ (c :: ds) ++ fr ++ ex) ++ X = c :: (ds ++ (fr ++ (ex ++ X))) from by
      simp]
    unfold scanNum
    split
    rename_i p neg1 s1 heq
    have hred : (neg1, s1) = (([] : Str), c :: (ds ++ (fr ++ (ex ++ X)))) := by
      rw [← heq]
      split
      · rename_i r heq2
        injection heq2 with e1 e2
        exact absurd e1 hc45
      · rfl
    rw [Prod.mk.injEq] at hred
    obtain ⟨hn1, hs1⟩ := hred
    subst hn1
    subst hs1
    simp only [List.nil_append]
    rcases hint with ⟨h48, hds⟩ | ⟨h49, h57, hds⟩
    · subst h48
      subst hds
      rw [if_pos rfl]
      simp only [List.nil_append, hsf, hse]
      try simp
    · rw [if_neg (by omega), if_pos ⟨h49, h57⟩]
      rw [span_append_digits ds (fr ++ (ex ++ X)) hds hnd]
      simp only [hsf, hse]
      try simp
  · rw [htok]
    rw [show ([45] ++ (c :: ds) ++ fr ++ ex) ++ X = 45 :: (c :: (ds ++ (fr ++ (ex ++ X))))
        from by simp]
    unfold scanNum
    split
    rename_i p neg1 s1 heq
    have hred : (neg1, s1) = (([45] : Str), c :: (ds ++ (fr ++ (ex ++ X)))) := by
      rw [← heq]
    rw [Prod.mk.injEq] at hred
    obtain ⟨hn1, hs1⟩ := hred
    subst hn1
    subst hs1
    simp only [List.nil_append]
    rcases hint with ⟨h48, hds⟩ | ⟨h49, h57, hds⟩
    · subst h48
      subst hds
      rw [if_pos rfl]
      simp only [List.nil_append, hsf, hse]
      try simp
    · rw [if_neg (by omega), if_pos ⟨h49, h57⟩]
      rw [span_append_digits ds (fr ++ (ex ++ X)) hds hnd]
      simp only [hsf, hse]
      try simp

theorem scanNum_inv (s tok r : Str) (h : scanNum s = some (tok, r)) : numShape tok := by
  unfold scanNum at h
  split at h
  rename_i p neg1 s1 heq
  have hneg1 : neg1 = [] ∨ neg1 = [45] := by
    have heq2 := heq.symm
    revert heq2
    split
    · intro heq2
      rw [Prod.mk.injEq] at heq2
      exact Or.inr heq2.1
    · intro heq2
      rw [Prod.mk.injEq] at heq2
      exact Or.inl heq2.1
  have hcore : ∀ (c : Nat) (L : Str),
      ((if c = 48 then
          match scanFrac L with
          | (frac, s2) =>
            match scanExp s2 with
            | (ex2, s3) => some ((neg1 ++ [48] ++ frac ++ ex2 : Str), s3)
        else if 49 ≤ c ∧ c ≤ 57 then
          match List.span isDigitCp L with
          | (ds, rest0) =>
            match scanFrac rest0 with
            | (frac, s2) =>
              match scanExp s2 with
              | (ex2, s3) => some ((neg1 ++ c :: ds ++ frac ++ ex2 : Str), s3)
        else none) = some ((tok : Str), (r : Str))) → numShape tok := by
    intro c L h2
    by_cases h48 : c = 48
    · subst h48
      rw [if_pos rfl] at h2
      rcases hsf : scanFrac L with ⟨fr, s2⟩
      simp only [hsf] at h2
      rcases hse : scanExp s2 with ⟨ex2, s3⟩
      simp only [hse, Option.some.injEq, Prod.mk.injEq] at h2
      refine ⟨neg1, 48, [], fr, ex2, by rw [← h2.1]; try simp, hneg1, Or.inl ⟨rfl, rfl⟩,
        ?_, ?_⟩
      · rcases scanFrac_inv L fr s2 hsf with ⟨h1, -⟩ | ⟨d, ds2, h1, h2b, h3, -, -⟩
        · exact Or.inl h1
        · exact Or.inr ⟨d, ds2, h1, h2b, h3⟩
      · rcases scanExp_inv s2 ex2 s3 hse with ⟨h1, -⟩ | ⟨e, sg, ds2, h1, h2b, h3, -, -⟩
        · exact Or.inl h1
        · exact Or.inr ⟨e, sg, ds2, h1, h2b, h3⟩
    · by_cases h19 : 49 ≤ c ∧ c ≤ 57
      · rw [if_neg h48, if_pos h19] at h2
        obtain ⟨ds, rest0, hsp, hall, hsplit, hnd2⟩ := span_spec L
        simp only [hsp] at h2
        rcases hsf : scanFrac rest0 with ⟨fr, s2⟩
        simp only [hsf] at h2
        rcases hse : scanExp s2 with ⟨ex2, s3⟩
        simp only [hse, Option.some.injEq, Prod.mk.injEq] at h2
        refine ⟨neg1, c, ds, fr, ex2, by rw [← h2.1]; try simp, hneg1,
          Or.inr ⟨h19.1, h19.2, hall⟩, ?_, ?_⟩
        · rcases scanFrac_inv rest0 fr s2 hsf with ⟨h1, -⟩ | ⟨d, ds2, h1, h2b, h3, -, -⟩
          · exact Or.inl h1
          · exact Or.inr ⟨d, ds2, h1, h2b, h3⟩
        · rcases scanExp_inv s2 ex2 s3 hse with ⟨h1, -⟩ | ⟨e, sg, ds2, h1, h2b, h3, -, -⟩
          · exact Or.inl h1
          · exact Or.inr ⟨e, sg, ds2, h1, h2b, h3⟩
      · rw [if_neg h48, if_neg h19] at h2
        simp at h2
  cases hs1 : s1 with
  | nil =>
    rw [hs1] at h
    simp at h
  | cons c L =>
    rw [hs1] at h
    exact hcore c L h

/-- A scanned token rescans to itself: `numTokOK` holds for every token the
scanner produces. -/
theorem scanNum_rescan (s tok r : Str) (h : scanNum s = some (tok, r)) :
    scanNum tok = some (tok, []) := by
  have hb := scanNum_build tok [] (scanNum_inv s tok r h) (Or.inl rfl)
  simpa using hb

/-! ## Lemmas: heads of serialized values, folds over object chains -/

theorem numTok_head (tok : Str) (h : numShape tok) :
    ∃ c cs, tok = c :: cs ∧ (c = 45 ∨ (48 ≤ c ∧ c ≤ 57)) := by
  obtain ⟨neg, c, ds, fr, ex, htok, hneg, hint, -, -⟩ := h
  rcases hneg with rfl | rfl
  · refine ⟨c, ds ++ fr ++ ex, by rw [htok]; simp, ?_⟩
    rcases hint with ⟨h1, -⟩ | ⟨h1, h2, -⟩ <;> omega
  · exact ⟨45, (c :: ds) ++ fr ++ ex, by rw [htok]; simp, Or.inl rfl⟩

theorem wf_num_head (t : Str) (h : numTokOK t = true) :
    ∃ c cs, t = c :: cs ∧ (c = 45 ∨ (48 ≤ c ∧ c ≤ 57) ∨ c = 78 ∨ c = 73) := by
  unfold numTokOK at h
  rw [Bool.or_eq_true, Bool.or_eq_true, Bool.or_eq_true] at h
  rcases h with ((h | h) | h) | h
  · rw [beq_iff_eq] at h
    obtain ⟨c, cs, h1, h2⟩ := numTok_head t (scanNum_inv t t [] h)
    refine ⟨c, cs, h1, ?_⟩
    rcases h2 with h2 | h2
    · exact Or.inl h2
    · exact Or.inr (Or.inl h2)
  · rw [beq_iff_eq] at h
    exact ⟨78, [97, 78], by rw [h]; rfl, by omega⟩
  · rw [beq_iff_eq] at h
    exact ⟨73, [110, 102, 105, 110, 105, 116, 121], by rw [h]; rfl, by omega⟩
  · rw [beq_iff_eq] at h
    exact ⟨45, [73, 110, 102, 105, 110, 105, 116, 121], by rw [h]; rfl, by omega⟩

/-- The first code point of a dumped value: never whitespace, never a
closing bracket or brace. -/
theorem dumps_head (isep ksep : Str) (v : Json) (hw : wf v = true) :
    ∃ c cs, dmp isep ksep false v = c :: cs ∧ isWsCp c = false
      ∧ ¬ c = 0x5D ∧ ¬ c = 0x7D := by
  cases v with
  | jnull =>
    exact ⟨110, [117, 108, 108], by simp only [dmp]; decide, by decide, by decide, by decide⟩
  | jbool b =>
    cases b
    · exact ⟨102, [97, 108, 115, 101], by simp only [dmp]; decide,
        by decide, by decide, by decide⟩
    · exact ⟨116, [114, 117, 101], by simp only [dmp]; decide,
        by decide, by decide, by decide⟩
  | jnum t =>
    obtain ⟨c, cs, h1, h2⟩ := wf_num_head t hw
    refine ⟨c, cs, by rw [show dmp isep ksep false (Json.jnum t) = t from rfl, h1], ?_, ?_, ?_⟩
    · unfold isWsCp
      simp only [Bool.or_eq_false_iff, decide_eq_false_iff_not]
      omega
    · omega
    · omega
  | jstr s =>
    exact ⟨0x22, escStr s ++ [0x22], by simp [dmp], by decide, by decide, by decide⟩
  | anil => exact ⟨0x5B, [0x5D], by simp [dmp], by decide, by decide, by decide⟩
  | acons h t =>
    exact ⟨0x5B, dmp isep ksep false h ++ dmp isep ksep true t, by simp [dmp],
      by decide, by decide, by decide⟩
  | onil => exact ⟨0x7B, [0x7D], by simp [dmp], by decide, by decide, by decide⟩
  | ocons k v t =>
    exact ⟨0x7B, [0x22] ++ escStr k ++ [0x22] ++ ksep ++ dmp isep ksep false v
      ++ dmp isep ksep true t, by simp [dmp], by decide, by decide, by decide⟩

theorem skipWs_dumps (isep ksep : Str) (v : Json) (hw : wf v = true) (X : Str) :
    skipWs (dmp isep ksep false v ++ X) = dmp isep ksep false v ++ X := by
  obtain ⟨c, cs, hcons, hws, -, -⟩ := dumps_head isep ksep v hw
  rw [hcons, List.cons_append, skipWs_cons c _ hws]

theorem objCat_onil (a : Json) (h : wfObjChain a = true) : objCat a Json.onil = a := by
  induction a <;> simp_all [objCat, wfObjChain]

theorem objCat_cat (a b c : Json) : objCat (objCat a b) c = objCat a (objCat b c) := by
  induction a <;> simp_all [objCat]

theorem objCat_hasKey (a b : Json) (ha : wfObjChain a = true) (k : Str) :
    (objCat a b).objHasKey k = (a.objHasKey k || b.objHasKey k) := by
  induction a with
  | onil => simp [objCat, Json.objHasKey, Json.objLookup]
  | ocons k0 v0 t ihv ih =>
    unfold wfObjChain at ha
    by_cases hk : k0 = k
    · simp [objCat, Json.objHasKey, Json.objLookup, hk]
    · simp only [objCat, Json.objHasKey, Json.objLookup, if_neg hk]
      exact ih ha
  | _ => simp_all [wfObjChain]

theorem wfObjChain_objCat (a b : Json) (ha : wfObjChain a = true)
    (hb : wfObjChain b = true) : wfObjChain (objCat a b) = true := by
  induction a <;> simp_all [objCat, wfObjChain]

theorem objSet_append (a : Json) (k : Str) (v : Json) (ha : wfObjChain a = true)
    (hk : a.objHasKey k = false) : a.objSet k v = objCat a (Json.ocons k v Json.onil) := by
  induction a with
  | onil => rfl
  | ocons k0 v0 t ihv ih =>
    unfold wfObjChain at ha
    have hk0 : ¬ k0 = k := by
      intro hc
      subst hc
      simp [Json.objHasKey, Json.objLookup] at hk
    have ht : t.objHasKey k = false := by
      simp only [Json.objHasKey, Json.objLookup, if_neg hk0] at hk
      exact hk
    simp only [Json.objSet, if_neg hk0, objCat]
    rw [ih ha ht]
  | _ => simp_all [wfObjChain]

theorem objFold_cat (t : Json) : ∀ acc, wf t = true → t.isObj = true →
    wfObjChain acc = true → (∀ k, t.objHasKey k = true → acc.objHasKey k = false) →
    objFold acc t = objCat acc t := by
  induction t with
  | onil =>
    intro acc _ _ hacc _
    rw [show objFold acc Json.onil = acc from rfl, objCat_onil acc hacc]
  | ocons k v t ihv ih =>
    intro acc hwt _ hacc hdisj
    simp only [wf, Bool.and_eq_true] at hwt
    obtain ⟨⟨⟨⟨hk0, hv0⟩, hch⟩, ht⟩, hnk⟩ := hwt
    have hkacc : acc.objHasKey k = false := by
      refine hdisj k ?_
      simp [Json.objHasKey, Json.objLookup]
    rw [show objFold acc (Json.ocons k v t) = objFold (acc.objSet k v) t from rfl]
    rw [objSet_append acc k v hacc hkacc]
    have htobj : t.isObj = true := by
      cases t with
      | onil => rfl
      | ocons a b c => rfl
      | jnull => exact absurd hch (by simp [wfObjChain])
      | jbool b => exact absurd hch (by simp [wfObjChain])
      | jnum a => exact absurd hch (by simp [wfObjChain])
      | jstr a => exact absurd hch (by simp [wfObjChain])
      | anil => exact absurd hch (by simp [wfObjChain])
      | acons a b => exact absurd hch (by simp [wfObjChain])
    rw [ih (objCat acc (Json.ocons k v Json.onil)) ht htobj
      (wfObjChain_objCat acc _ hacc (by simp [wfObjChain]))
      ?_]
    · rw [objCat_cat]
      rfl
    · intro k3 hk3
      rw [objCat_hasKey acc _ hacc k3]
      have hk3o : (Json.ocons k v t).objHasKey k3 = true := by
        simp only [Json.objHasKey, Json.objLookup]
        by_cases hkk : k = k3
        · simp [hkk]
        · rw [if_neg hkk]
          exact hk3
      rw [hdisj k3 hk3o]
      have hne : ¬ k = k3 := by
        intro hc
        subst hc
        rw [Bool.not_eq_true'] at hnk
        rw [hk3] at hnk
        simp at hnk
      simp [Json.objHasKey, Json.objLookup, hne]
  | _ =>
    intro acc _ hobj _ _
    simp [Json.isObj] at hobj

theorem dumps_cost_le (isep ksep : Str) (hisep : 1 ≤ isep.length) (j : Json) :
    cost j ≤ (dmp isep ksep false j).length ∧ cost j ≤ (dmp isep ksep true j).length := by
  induction j with
  | acons h t ihh iht =>
    obtain ⟨ih1, ih2⟩ := ihh
    obtain ⟨ih3, ih4⟩ := iht
    constructor <;> simp only [dmp, cost, List.length_append, List.length_cons] <;> omega
  | ocons k v t ihv iht =>
    obtain ⟨ih1, ih2⟩ := ihv
    obtain ⟨ih3, ih4⟩ := iht
    constructor <;> simp only [dmp, cost, List.length_append, List.length_cons] <;> omega
  | jnull => exact ⟨Nat.zero_le _, Nat.zero_le _⟩
  | jbool b => exact ⟨Nat.zero_le _, Nat.zero_le _⟩
  | jnum t => exact ⟨Nat.zero_le _, Nat.zero_le _⟩
  | jstr s => exact ⟨Nat.zero_le _, Nat.zero_le _⟩
  | anil => exact ⟨Nat.zero_le _, Nat.zero_le _⟩
  | onil => exact ⟨Nat.zero_le _, Nat.zero_le _⟩

theorem escCp_length_pos (c : Nat) : 1 ≤ (escCp c).length := by
  unfold escCp
  repeat' split
  all_goals simp [hex4]

theorem escStr_length_ge (s : Str) : s.length ≤ (escStr s).length := by
  induction s with
  | nil => simp [escStr]
  | cons c cs ih =>
    have := escCp_length_pos c
    simp only [escStr, List.length_append, List.length_cons]
    omega

/-- The string roundtrip at the wrapper's own fuel. -/
theorem parseStrBody_escStr (s : Str) (hs : wfStr s = true) (x : Str) :
    parseStrBody (escStr s ++ 0x22 :: x) = some (s, x) := by
  unfold parseStrBody
  have h1 := escStr_length_ge s
  rw [show (escStr s ++ 0x22 :: x).length + 1
      = ((escStr s ++ 0x22 :: x).length - s.length) + s.length + 1 from by
    rw [List.length_append]
    simp only [List.length_cons]
    omega]
  exact parseStrB_escStr s hs _ x

theorem delim_dmp_true (t : Json) (h : wfArrChain t = true ∨ wfObjChain t = true)
    (rest : Str) : delimHead (dmp [0x2C] [0x3A] true t ++ rest) := by
  cases t with
  | anil => exact Or.inr (Or.inr (Or.inl ⟨rest, by simp [dmp]⟩))
  | acons a b =>
    exact Or.inr (Or.inl ⟨dmp [0x2C] [0x3A] false a ++ (dmp [0x2C] [0x3A] true b ++ rest),
      by simp [dmp]⟩)
  | onil => exact Or.inr (Or.inr (Or.inr ⟨rest, by simp [dmp]⟩))
  | ocons k v t2 =>
    exact Or.inr (Or.inl ⟨[0x22] ++ escStr k ++ [0x22] ++ [0x3A]
      ++ dmp [0x2C] [0x3A] false v ++ dmp [0x2C] [0x3A] true t2 ++ rest, by simp [dmp]⟩)
  | jnull => rcases h with h | h <;> simp [wfArrChain, wfObjChain] at h
  | jbool b => rcases h with h | h <;> simp [wfArrChain, wfObjChain] at h
  | jnum a => rcases h with h | h <;> simp [wfArrChain, wfObjChain] at h
  | jstr a => rcases h with h | h <;> simp [wfArrChain, wfObjChain] at h

theorem objChain_shape (t : Json) (h : wfObjChain t = true) :
    t = Json.onil ∨ ∃ k v t2, t = Json.ocons k v t2 := by
  cases t with
  | onil => exact Or.inl rfl
  | ocons a b c => exact Or.inr ⟨a, b, c, rfl⟩
  | jnull => exact absurd h (by simp [wfObjChain])
  | jbool b => exact absurd h (by simp [wfObjChain])
  | jnum a => exact absurd h (by simp [wfObjChain])
  | jstr a => exact absurd h (by simp [wfObjChain])
  | anil => exact absurd h (by simp [wfObjChain])
  | acons a b => exact absurd h (by simp [wfObjChain])

theorem objFold_onil (j : Json) (hw : wf j = true) (ho : j.isObj = true) :
    objFold Json.onil j = j := by
  cases j with
  | onil => rfl
  | ocons k v t =>
    simp only [wf, Bool.and_eq_true, Bool.not_eq_true'] at hw
    obtain ⟨⟨⟨⟨hk, hv⟩, hch⟩, ht⟩, hnk⟩ := hw
    rcases objChain_shape t hch with rfl | ⟨k2, v2, t2, heq⟩
    · rfl
    · have htobj : t.isObj = true := by rw [heq]; rfl
      rw [show objFold Json.onil (Json.ocons k v t)
          = objFold (Json.ocons k v Json.onil) t from rfl]
      rw [objFold_cat t (Json.ocons k v Json.onil) ht htobj (by simp [wfObjChain]) ?_]
      · rw [show objCat (Json.ocons k v Json.onil) t = Json.ocons k v (objCat Json.onil t)
          from rfl]
        rfl
      · intro k3 hk3
        by_cases hkk : k = k3
        · subst hkk
          rw [hk3] at hnk
          exact absurd hnk (by simp)
        · simp [Json.objHasKey, Json.objLookup, hkk]
  | jnull => exact absurd ho (by simp [Json.isObj])
  | jbool b => exact absurd ho (by simp [Json.isObj])
  | jnum a => exact absurd ho (by simp [Json.isObj])
  | jstr a => exact absurd ho (by simp [Json.isObj])
  | anil => exact absurd ho (by simp [Json.isObj])
  | acons a b => exact absurd ho (by simp [Json.isObj])

theorem skipWs_poStr (k2 : Str) (v2 t2 : Json) (rest : Str) :
    skipWs (poStr [0x2C] [0x3A] (Json.ocons k2 v2 t2) ++ rest)
      = poStr [0x2C] [0x3A] (Json.ocons k2 v2 t2) ++ rest := by
  obtain ⟨y, hy⟩ : ∃ y, poStr [0x2C] [0x3A] (Json.ocons k2 v2 t2) ++ rest = 0x22 :: y :=
    ⟨escStr k2 ++ [0x22] ++ [0x3A] ++ dmp [0x2C] [0x3A] false v2
      ++ dmp [0x2C] [0x3A] true t2 ++ rest, by simp [poStr]⟩
  rw [hy, skipWs_cons 0x22 y (by decide)]

/-! ## The roundtrip: `parseF` recovers what `dmp` wrote -/

theorem parse_dumps (j : Json) :
    (wf j = true → ∀ f rest, delimHead rest →
      parseF (f + cost j + 1) .pv (dmp [0x2C] [0x3A] false j ++ rest) = some (j, rest))
    ∧ (wf j = true ∧ wfArrChain j = true → ∀ f acc rest,
      parseF (f + cost j + 1) (.pa acc) (dmp [0x2C] [0x3A] true j ++ rest)
        = some (Json.listToArr (acc ++ j.arrElems), rest))
    ∧ (wf j = true ∧ j.isObj = true ∧ ¬ j = Json.onil → ∀ f acc rest,
      parseF (f + cost j) (.po acc) (poStr [0x2C] [0x3A] j ++ rest)
        = some (objFold acc j, rest)) := by
  induction j with
  | jnull =>
    refine ⟨?_, fun h => absurd h.2 (by simp [wfArrChain]),
      fun h => absurd h.2.1 (by simp [Json.isObj])⟩
    intro hw f rest hrest
    have hnull : strCp "null" = [110, 117, 108, 108] := by decide
    simp [parseF, dmp, hnull, List.isPrefixOf]
  | jbool b =>
    refine ⟨?_, fun h => absurd h.2 (by simp [wfArrChain]),
      fun h => absurd h.2.1 (by simp [Json.isObj])⟩
    intro hw f rest hrest
    have htru : strCp "true" = [116, 114, 117, 101] := by decide
    have hfls : strCp "false" = [102, 97, 108, 115, 101] := by decide
    have hnull : strCp "null" = [110, 117, 108, 108] := by decide
    cases b <;> simp [parseF, dmp, htru, hfls, hnull, List.isPrefixOf]
  | jstr s =>
    refine ⟨?_, fun h => absurd h.2 (by simp [wfArrChain]),
      fun h => absurd h.2.1 (by simp [Json.isObj])⟩
    intro hw f rest hrest
    rw [show dmp [0x2C] [0x3A] false (Json.jstr s) ++ rest
        = 0x22 :: (escStr s ++ 0x22 :: rest) from by simp [dmp]]
    simp only [parseF]
    rw [parseStrBody_escStr s hw rest]
    simp
  | jnum t =>
    refine ⟨?_, fun h => absurd h.2 (by simp [wfArrChain]),
      fun h => absurd h.2.1 (by simp [Json.isObj])⟩
    intro hw f rest hrest
    have hnum : numTokOK t = true := hw
    have hnull : strCp "null" = [110, 117, 108, 108] := by decide
    have htru : strCp "true" = [116, 114, 117, 101] := by decide
    have hfls : strCp "false" = [102, 97, 108, 115, 101] := by decide
    have hnan : strCp "NaN" = [78, 97, 78] := by decide
    have hinf : strCp "Infinity" = [73, 110, 102, 105, 110, 105, 116, 121] := by decide
    have hninf : strCp "-Infinity" = [45, 73, 110, 102, 105, 110, 105, 116, 121] := by decide
    unfold numTokOK at hnum
    rw [Bool.or_eq_true, Bool.or_eq_true, Bool.or_eq_true] at hnum
    rcases hnum with ((hn | hn) | hn) | hn
    · -- a scanner token: the scanner consumes exactly it again
      rw [beq_iff_eq] at hn
      obtain ⟨c, cs, htc, hcs⟩ := numTok_head t (scanNum_inv t t [] hn)
      have hb := scanNum_build t rest (scanNum_inv t t [] hn) hrest
      rw [show dmp [0x2C] [0x3A] false (Json.jnum t) ++ rest = c :: (cs ++ rest) from by
        rw [show dmp [0x2C] [0x3A] false (Json.jnum t) = t from rfl, htc]
        rfl]
      simp only [parseF]
      rw [if_neg (by omega), if_neg (by omega), if_neg (by omega)]
      rw [if_neg (by rw [hnull]; simp [List.isPrefixOf, beq_iff_eq]; omega)]
      rw [if_neg (by rw [htru]; simp [List.isPrefixOf, beq_iff_eq]; omega)]
      rw [if_neg (by rw [hfls]; simp [List.isPrefixOf, beq_iff_eq]; omega)]
      rw [show c :: (cs ++ rest) = t ++ rest from by rw [htc]; rfl, hb]
    · -- NaN
      rw [beq_iff_eq] at hn
      subst hn
      rw [show dmp [0x2C] [0x3A] false (Json.jnum (strCp "NaN")) ++ rest
          = 78 :: 97 :: 78 :: rest from by
        rw [show dmp [0x2C] [0x3A] false (Json.jnum (strCp "NaN")) = strCp "NaN" from rfl,
          hnan]
        rfl]
      simp [parseF, scanNum, hnull, htru, hfls, hnan, hinf, hninf, List.isPrefixOf]
    · -- Infinity
      rw [beq_iff_eq] at hn
      subst hn
      rw [show dmp [0x2C] [0x3A] false (Json.jnum (strCp "Infinity")) ++ rest
          = 73 :: 110 :: 102 :: 105 :: 110 :: 105 :: 116 :: 121 :: rest from by
        rw [show dmp [0x2C] [0x3A] false (Json.jnum (strCp "Infinity"))
            = strCp "Infinity" from rfl, hinf]
        rfl]
      simp [parseF, scanNum, hnull, htru, hfls, hnan, hinf, hninf, List.isPrefixOf]
    · -- -Infinity
      rw [beq_iff_eq] at hn
      subst hn
      rw [show dmp [0x2C] [0x3A] false (Json.jnum (strCp "-Infinity")) ++ rest
          = 45 :: 73 :: 110 :: 102 :: 105 :: 110 :: 105 :: 116 :: 121 :: rest from by
        rw [show dmp [0x2C] [0x3A] false (Json.jnum (strCp "-Infinity"))
            = strCp "-Infinity" from rfl, hninf]
        rfl]
      simp [parseF, scanNum, hnull, htru, hfls, hnan, hinf, hninf, List.isPrefixOf]
  | anil =>
    refine ⟨?_, ?_, fun h => absurd h.2.1 (by simp [Json.isObj])⟩
    · intro hw f rest hrest
      rw [show dmp [0x2C] [0x3A] false Json.anil ++ rest = 0x5B :: 0x5D :: rest from by
        simp [dmp]]
      simp [parseF, skipWs_cons 0x5D rest (by decide)]
    · intro hw f acc rest
      rw [show dmp [0x2C] [0x3A] true Json.anil ++ rest = 0x5D :: rest from by simp [dmp]]
      simp [parseF, skipWs_cons 0x5D rest (by decide), Json.arrElems]
  | onil =>
    refine ⟨?_, fun h => absurd h.2 (by simp [wfArrChain]), fun h => absurd rfl h.2.2⟩
    intro hw f rest hrest
    rw [show dmp [0x2C] [0x3A] false Json.onil ++ rest = 0x7B :: 0x7D :: rest from by
      simp [dmp]]
    simp [parseF, skipWs_cons 0x7D rest (by decide)]
  | acons h t ihh iht =>
    have hwparts : ∀ hw : wf (Json.acons h t) = true,
        wf h = true ∧ wfArrChain t = true ∧ wf t = true := by
      intro hw
      simp only [wf, Bool.and_eq_true] at hw
      exact ⟨hw.1.1, hw.1.2, hw.2⟩
    refine ⟨?_, ?_, fun hx => absurd hx.2.1 (by simp [Json.isObj])⟩
    · intro hw f rest hrest
      obtain ⟨hwh, hcht, hwt⟩ := hwparts hw
      rw [show dmp [0x2C] [0x3A] false (Json.acons h t) ++ rest
          = 0x5B :: (dmp [0x2C] [0x3A] false h ++ (dmp [0x2C] [0x3A] true t ++ rest)) from by
        simp [dmp]]
      generalize hF : f + cost (Json.acons h t) = F
      simp only [parseF, if_true]
      rw [skipWs_dumps [0x2C] [0x3A] h hwh (dmp [0x2C] [0x3A] true t ++ rest)]
      obtain ⟨c, cs, hcons, hws, hne5D, hne7D⟩ :=
        dumps_head [0x2C] [0x3A] h hwh
      have hV := (ihh.1) hwh (f + cost t) (dmp [0x2C] [0x3A] true t ++ rest)
        (delim_dmp_true t (Or.inl hcht) rest)
      rw [show f + cost t + cost h + 1 = f + cost (Json.acons h t) from by
        simp only [cost]; omega, hF] at hV
      have hA := (iht.2.1) ⟨hwt, hcht⟩ (f + cost h) [h] rest
      rw [show f + cost h + cost t + 1 = f + cost (Json.acons h t) from by
        simp only [cost]; omega, hF] at hA
      rw [show Json.listToArr ([h] ++ Json.arrElems t) = Json.acons h t from by
        rw [List.singleton_append]
        rw [show Json.listToArr (h :: Json.arrElems t)
            = Json.acons h (Json.listToArr t.arrElems) from rfl]
        rw [Json.listToArr_arrElems t hcht]] at hA
      rw [if_neg (show ¬((0x5B : Nat) = 0x22) from by decide)]
      rw [hcons]
      split
      · rename_i r2 heq
        rw [List.cons_append] at heq
        injection heq with e1 e2
        exact absurd e1 hne5D
      · rw [← hcons, hV]
        exact hA
    · intro hx f acc rest
      obtain ⟨hwh, hcht, hwt⟩ := hwparts hx.1
      rw [show dmp [0x2C] [0x3A] true (Json.acons h t) ++ rest
          = 0x2C :: (dmp [0x2C] [0x3A] false h ++ (dmp [0x2C] [0x3A] true t ++ rest)) from by
        simp [dmp]]
      generalize hF : f + cost (Json.acons h t) = F
      have hsw : skipWs (0x2C :: (dmp [0x2C] [0x3A] false h
          ++ (dmp [0x2C] [0x3A] true t ++ rest)))
          = 0x2C :: (dmp [0x2C] [0x3A] false h ++ (dmp [0x2C] [0x3A] true t ++ rest)) :=
        skipWs_cons _ _ (by decide)
      simp only [parseF, hsw]
      rw [skipWs_dumps [0x2C] [0x3A] h hwh (dmp [0x2C] [0x3A] true t ++ rest)]
      have hV := (ihh.1) hwh (f + cost t) (dmp [0x2C] [0x3A] true t ++ rest)
        (delim_dmp_true t (Or.inl hcht) rest)
      rw [show f + cost t + cost h + 1 = f + cost (Json.acons h t) from by
        simp only [cost]; omega, hF] at hV
      have hA := (iht.2.1) ⟨hwt, hcht⟩ (f + cost h) (acc ++ [h]) rest
      rw [show f + cost h + cost t + 1 = f + cost (Json.acons h t) from by
        simp only [cost]; omega, hF] at hA
      rw [List.append_assoc, List.singleton_append] at hA
      simp only [hV]
      exact hA
  | ocons k v t ihv iht =>
    have hwparts : ∀ hw : wf (Json.ocons k v t) = true,
        wfStr k = true ∧ wf v = true ∧ wfObjChain t = true ∧ wf t = true
          ∧ t.objHasKey k = false := by
      intro hw
      simp only [wf, Bool.and_eq_true, Bool.not_eq_true'] at hw
      exact ⟨hw.1.1.1.1, hw.1.1.1.2, hw.1.1.2, hw.1.2, hw.2⟩
    have hO : wf (Json.ocons k v t) = true → ∀ f acc rest,
        parseF (f + cost (Json.ocons k v t)) (.po acc)
          (poStr [0x2C] [0x3A] (Json.ocons k v t) ++ rest)
          = some (objFold acc (Json.ocons k v t), rest) := by
      intro hw f acc rest
      obtain ⟨hk, hv, hcht, hwt, hnk⟩ := hwparts hw
      rw [show f + cost (Json.ocons k v t) = (f + cost v + cost t + 1) + 1 from by
        simp only [cost]; omega]
      generalize hF : f + cost v + cost t + 1 = F
      rw [show poStr [0x2C] [0x3A] (Json.ocons k v t) ++ rest
          = 0x22 :: (escStr k ++ 0x22 :: (0x3A :: (dmp [0x2C] [0x3A] false v
            ++ (dmp [0x2C] [0x3A] true t ++ rest)))) from by simp [poStr]]
      simp only [parseF]
      simp only [parseStrBody_escStr k hk]
      simp only [skipWs_cons 0x3A (dmp [0x2C] [0x3A] false v
        ++ (dmp [0x2C] [0x3A] true t ++ rest)) (by decide)]
      rw [skipWs_dumps [0x2C] [0x3A] v hv (dmp [0x2C] [0x3A] true t ++ rest)]
      have hV := ihv.1 hv (f + cost t) (dmp [0x2C] [0x3A] true t ++ rest)
        (delim_dmp_true t (Or.inr hcht) rest)
      rw [show f + cost t + cost v + 1 = f + cost v + cost t + 1 from by omega, hF] at hV
      simp only [hV]
      rcases objChain_shape t hcht with rfl | ⟨k2, v2, t2, rfl⟩
      · rw [show dmp [0x2C] [0x3A] true Json.onil ++ rest = 0x7D :: rest from by simp [dmp]]
        simp only [skipWs_cons 0x7D rest (by decide)]
        rfl
      · rw [show dmp [0x2C] [0x3A] true (Json.ocons k2 v2 t2) ++ rest
            = 0x2C :: (poStr [0x2C] [0x3A] (Json.ocons k2 v2 t2) ++ rest) from by
          simp [dmp, poStr]]
        simp only [skipWs_cons 0x2C (poStr [0x2C] [0x3A] (Json.ocons k2 v2 t2) ++ rest)
          (by decide)]
        rw [skipWs_poStr k2 v2 t2 rest]
        have hOt := iht.2.2 ⟨hwt, rfl, by simp⟩ (f + cost v + 1) (Json.objSet acc k v) rest
        rw [show f + cost v + 1 + cost (Json.ocons k2 v2 t2)
            = f + cost v + cost (Json.ocons k2 v2 t2) + 1 from by omega, hF] at hOt
        exact hOt
    refine ⟨?_, fun hx => absurd hx.2 (by simp [wfArrChain]),
      fun hx f acc rest => hO hx.1 f acc rest⟩
    intro hw f rest hrest
    rw [show dmp [0x2C] [0x3A] false (Json.ocons k v t) ++ rest
        = 0x7B :: (poStr [0x2C] [0x3A] (Json.ocons k v t) ++ rest) from by
      simp [dmp, poStr]]
    generalize hF : f + cost (Json.ocons k v t) = F
    simp only [parseF, if_true]
    rw [if_neg (show ¬((0x7B : Nat) = 0x22) from by decide),
      if_neg (show ¬((0x7B : Nat) = 0x5B) from by decide)]
    rw [skipWs_poStr k v t rest]
    split
    · rename_i r2 heq
      rw [show poStr [0x2C] [0x3A] (Json.ocons k v t)
          = 0x22 :: (escStr k ++ [0x22] ++ [0x3A] ++ dmp [0x2C] [0x3A] false v
            ++ dmp [0x2C] [0x3A] true t) from by simp [poStr]] at heq
      rw [List.cons_append] at heq
      injection heq with e1 e2
      exact absurd e1 (by decide)
    · have h1 := hO hw f Json.onil rest
      rw [hF, objFold_onil (Json.ocons k v t) hw rfl] at h1
      exact h1

/-- `json.loads` inverts the compact `json.dumps` on well-formed values. -/
theorem loads_dumps (j : Json) (hw : wf j = true) : loads (dumpsC j) = some j := by
  obtain ⟨c, cs, hcons, hws, -, -⟩ := dumps_head [0x2C] [0x3A] j hw
  have hsw : skipWs (dmp [0x2C] [0x3A] false j) = dmp [0x2C] [0x3A] false j := by
    rw [hcons, skipWs_cons c cs hws]
  have hple := (dumps_cost_le [0x2C] [0x3A] (by decide) j).1
  have hV := (parse_dumps j).1 hw ((dmp [0x2C] [0x3A] false j).length - cost j) []
    (Or.inl rfl)
  rw [List.append_nil] at hV
  rw [show (dmp [0x2C] [0x3A] false j).length - cost j + cost j + 1
      = (dmp [0x2C] [0x3A] false j).length + 1 from by omega] at hV
  simp only [loads, dumpsC, hsw, hV]
  simp [skipWs]

/-! ## Lemmas: well-formedness of values parsed from scalar input -/

theorem isScalar_facts (c : Nat) (h : isScalar c = true) :
    cpOK c = true ∧ isHiSurr c = false ∧ isLoSurr c = false := by
  simp only [isScalar, Bool.or_eq_true, Bool.and_eq_true, decide_eq_true_eq] at h
  refine ⟨?_, ?_, ?_⟩
  · simp only [cpOK, decide_eq_true_eq]
    omega
  · rw [Bool.eq_false_iff]
    simp only [ne_eq, isHiSurr, Bool.and_eq_true, decide_eq_true_eq, not_and]
    omega
  · rw [Bool.eq_false_iff]
    simp only [ne_eq, isLoSurr, Bool.and_eq_true, decide_eq_true_eq, not_and]
    omega

theorem noHiLo_cons (c : Nat) (s : Str) (hs : noHiLo s = true)
    (h : isHiSurr c = false ∨ ∀ d ds, s = d :: ds → isLoSurr d = false) :
    noHiLo (c :: s) = true := by
  cases s with
  | nil => rfl
  | cons d ds =>
    rw [show noHiLo (c :: d :: ds)
        = (!(isHiSurr c && isLoSurr d) && noHiLo (d :: ds)) from rfl]
    rw [hs, Bool.and_true]
    rcases h with h | h
    · rw [h, Bool.false_and]
      rfl
    · rw [h d ds rfl, Bool.and_false]
      rfl

theorem all_scalar_drop (s : Str) (n : Nat) (h : s.all isScalar = true) :
    (s.drop n).all isScalar = true := by
  rw [List.all_eq_true] at h ⊢
  intro x hx
  exact h x (List.mem_of_mem_drop hx)

theorem skipWs_scalar (s : Str) (h : s.all isScalar = true) :
    (skipWs s).all isScalar = true := by
  induction s with
  | nil => exact h
  | cons c cs ih =>
    rw [List.all_cons, Bool.and_eq_true] at h
    rw [show skipWs (c :: cs) = if isWsCp c then skipWs cs else c :: cs from by
      simp [skipWs, List.dropWhile_cons]]
    split
    · exact ih h.2
    · rw [List.all_cons, Bool.and_eq_true]
      exact h

theorem hexVal_lt (c x : Nat) (h : hexVal c = some x) : x < 16 := by
  unfold hexVal at h
  split at h
  · rename_i hc
    rw [Bool.and_eq_true, decide_eq_true_eq, decide_eq_true_eq] at hc
    injection h with h2
    omega
  · split at h
    · rename_i hc
      rw [Bool.and_eq_true, decide_eq_true_eq, decide_eq_true_eq] at hc
      injection h with h2
      omega
    · split at h
      · rename_i hc
        rw [Bool.and_eq_true, decide_eq_true_eq, decide_eq_true_eq] at hc
        injection h with h2
        omega
      · exact absurd h (by simp)

theorem isLoEsc_short (s : Str) (h : s.length < 6) : isLoEsc s = false := by
  unfold isLoEsc
  split
  · rename_i k1 k2 k3 k4 t
    exfalso
    simp only [List.length_cons] at h
    omega
  · rfl

theorem isLoEsc_spec (s : Str) (h : isLoEsc s = true) :
    ∃ k1 k2 k3 k4 t x1 x2 x3 x4, s = 0x5C :: 0x75 :: k1 :: k2 :: k3 :: k4 :: t
      ∧ hexVal k1 = some x1 ∧ hexVal k2 = some x2 ∧ hexVal k3 = some x3
      ∧ hexVal k4 = some x4
      ∧ isLoSurr (x1 * 4096 + x2 * 256 + x3 * 16 + x4) = true := by
  unfold isLoEsc at h
  split at h
  · rename_i k1 k2 k3 k4 t
    split at h
    · rename_i x1 x2 x3 x4 hx1 hx2 hx3 hx4
      exact ⟨k1, k2, k3, k4, t, x1, x2, x3, x4, rfl, hx1, hx2, hx3, hx4, h⟩
    · exact absurd h (by simp)
  · exact absurd h (by simp)

theorem scanNum_split (s tok r : Str) (h : scanNum s = some (tok, r)) : s = tok ++ r := by
  unfold scanNum at h
  split at h
  rename_i p neg1 s1 heq
  have hns : neg1 ++ s1 = s := by
    have heq2 := heq.symm
    revert heq2
    split
    · intro heq2
      rw [Prod.mk.injEq] at heq2
      rw [heq2.1, heq2.2]
      rfl
    · intro heq2
      rw [Prod.mk.injEq] at heq2
      rw [heq2.1, heq2.2]
      rfl
  have hcore : ∀ (c : Nat) (L : Str), neg1 ++ (c :: L) = s →
      ((if c = 48 then
          match scanFrac L with
          | (frac, s2) =>
            match scanExp s2 with
            | (ex2, s3) => some ((neg1 ++ [48] ++ frac ++ ex2 : Str), s3)
        else if 49 ≤ c ∧ c ≤ 57 then
          match List.span isDigitCp L with
          | (ds, rest0) =>
            match scanFrac rest0 with
            | (frac, s2) =>
              match scanExp s2 with
              | (ex2, s3) => some ((neg1 ++ c :: ds ++ frac ++ ex2 : Str), s3)
        else none) = some ((tok : Str), (r : Str))) → s = tok ++ r := by
    intro c L hsL h2
    by_cases h48 : c = 48
    · subst h48
      rw [if_pos rfl] at h2
      rcases hsf : scanFrac L with ⟨fr, s2⟩
      simp only [hsf] at h2
      rcases hse : scanExp s2 with ⟨ex2, s3⟩
      simp only [hse, Option.some.injEq, Prod.mk.injEq] at h2
      have hL : L = fr ++ s2 := by
        rcases scanFrac_inv L fr s2 hsf with ⟨h1, h2b⟩ | ⟨d, ds2, h1, -, -, -, h5⟩
        · rw [h1, h2b]
          rfl
        · exact h5
      have hs2 : s2 = ex2 ++ s3 := by
        rcases scanExp_inv s2 ex2 s3 hse with ⟨h1, h2b⟩ | ⟨e, sg, ds2, h1, -, -, -, h5⟩
        · rw [h1, h2b]
          rfl
        · exact h5
      rw [← h2.1, ← h2.2, ← hsL, hL, hs2]
      simp
    · by_cases h19 : 49 ≤ c ∧ c ≤ 57
      · rw [if_neg h48, if_pos h19] at h2
        obtain ⟨ds, rest0, hsp, hall, hsplit, hnd2⟩ := span_spec L
        simp only [hsp] at h2
        rcases hsf : scanFrac rest0 with ⟨fr, s2⟩
        simp only [hsf] at h2
        rcases hse : scanExp s2 with ⟨ex2, s3⟩
        simp only [hse, Option.some.injEq, Prod.mk.injEq] at h2
        have hr0 : rest0 = fr ++ s2 := by
          rcases scanFrac_inv rest0 fr s2 hsf with ⟨h1, h2b⟩ | ⟨d, ds2, h1, -, -, -, h5⟩
          · rw [h1, h2b]
            rfl
          · exact h5
        have hs2 : s2 = ex2 ++ s3 := by
          rcases scanExp_inv s2 ex2 s3 hse with ⟨h1, h2b⟩ | ⟨e, sg, ds2, h1, -, -, -, h5⟩
          · rw [h1, h2b]
            rfl
          · exact h5
        rw [← h2.1, ← h2.2, ← hsL, ← hsplit, hr0, hs2]
        simp
      · rw [if_neg h48, if_neg h19] at h2
        simp at h2
  cases hs1 : s1 with
  | nil =>
    rw [hs1] at h
    simp at h
  | cons c L =>
    rw [hs1] at h
    exact hcore c L (by rw [← hs1]; exact hns) h

theorem strB_map_inv (k : Nat) (o : Option (Str × Str)) (out r : Str)
    (hp : (fun p => ((k :: p.1 : Str), p.2)) <$> o = some (out, r)) :
    ∃ p1 p2, o = some (p1, p2) ∧ out = k :: p1 ∧ r = p2 := by
  cases o with
  | none => simp at hp
  | some p =>
    rcases p with ⟨p1, p2⟩
    rw [show (fun p => ((k :: p.1 : Str), p.2)) <$> (some (p1, p2) : Option (Str × Str))
        = some ((k :: p1 : Str), p2) from rfl] at hp
    rw [Option.some.injEq, Prod.mk.injEq] at hp
    exact ⟨p1, p2, rfl, hp.1.symm, hp.2.symm⟩

theorem strBOK_cons (s x : Str) (k : Nat) (p1 p2 : Str)
    (hk : cpOK k = true) (hkHi : isHiSurr k = false) (hkLo : isLoSurr k = false)
    (hok : strBOK x p1 p2) : strBOK s (k :: p1) p2 := by
  obtain ⟨ha, hn, hr, -⟩ := hok
  refine ⟨?_, noHiLo_cons k p1 hn (Or.inl hkHi), hr, ?_⟩
  · rw [List.all_cons, hk, ha]
    rfl
  · intro d ds hde hlo
    injection hde with h1 h2
    rw [← h1, hkLo] at hlo
    exact absurd hlo (by simp)

theorem strBOK_hi (s X : Str) (fuel : Nat) (u : Nat) (out r : Str)
    (huOK : cpOK u = true) (huHi : isHiSurr u = true)
    (hXs : X.all isScalar = true)
    (hXlo : isLoEsc X = false)
    (ih : ∀ s2 out2 r2, s2.all isScalar = true → parseStrB fuel s2 = some (out2, r2) →
      strBOK s2 out2 r2)
    (hp : (fun p => ((u :: p.1 : Str), p.2)) <$> parseStrB fuel X = some (out, r)) :
    strBOK s out r := by
  obtain ⟨p1, p2, hres, ho, hr⟩ := strB_map_inv _ _ _ _ hp
  subst ho
  subst hr
  obtain ⟨ha, hn, hrs, hd4⟩ := ih X p1 r hXs hres
  refine ⟨?_, noHiLo_cons u p1 hn (Or.inr ?_), hrs, ?_⟩
  · rw [List.all_cons, huOK, ha]
    rfl
  · intro d ds hde
    rw [Bool.eq_false_iff]
    intro hlo
    have hcontr := hd4 d ds hde hlo
    rw [hXlo] at hcontr
    exact absurd hcontr (by simp)
  · intro d ds hde hlo
    injection hde with h1 h2
    rw [← h1] at hlo
    exfalso
    unfold isHiSurr at huHi
    unfold isLoSurr at hlo
    rw [Bool.and_eq_true, decide_eq_true_eq, decide_eq_true_eq] at huHi hlo
    omega

/-- One-step reduction of `parseStrB` on a backslash escape. -/
theorem parseStrB_escRed (fuel : Nat) (e : Nat) (rest1 : Str) :
    parseStrB (fuel + 1) (0x5C :: e :: rest1)
      = (if e = 0x22 then (fun p => ((0x22 :: p.1 : Str), p.2)) <$> parseStrB fuel rest1
        else if e = 0x5C then (fun p => ((0x5C :: p.1 : Str), p.2)) <$> parseStrB fuel rest1
        else if e = 0x2F then (fun p => ((0x2F :: p.1 : Str), p.2)) <$> parseStrB fuel rest1
        else if e = 0x62 then (fun p => ((8 :: p.1 : Str), p.2)) <$> parseStrB fuel rest1
        else if e = 0x66 then (fun p => ((12 :: p.1 : Str), p.2)) <$> parseStrB fuel rest1
        else if e = 0x6E then (fun p => ((10 :: p.1 : Str), p.2)) <$> parseStrB fuel rest1
        else if e = 0x72 then (fun p => ((13 :: p.1 : Str), p.2)) <$> parseStrB fuel rest1
        else if e = 0x74 then (fun p => ((9 :: p.1 : Str), p.2)) <$> parseStrB fuel rest1
        else if e = 0x75 then
          match rest1 with
          | h1 :: h2 :: h3 :: h4 :: rest2 =>
            match hexVal h1, hexVal h2, hexVal h3, hexVal h4 with
            | some x1, some x2, some x3, some x4 =>
              let u := x1 * 4096 + x2 * 256 + x3 * 16 + x4
              if 0xD800 ≤ u && u ≤ 0xDBFF then
                match rest2 with
                | a :: b :: g1 :: g2 :: g3 :: g4 :: rest3 =>
                  match hexVal g1, hexVal g2, hexVal g3, hexVal g4 with
                  | some y1, some y2, some y3, some y4 =>
                    let u2 := y1 * 4096 + y2 * 256 + y3 * 16 + y4
                    if a = 0x5C && b = 0x75 && (0xDC00 ≤ u2 && u2 ≤ 0xDFFF) then
                      (fun p =>
                          (((0x10000 + (u - 0xD800) * 1024 + (u2 - 0xDC00)) :: p.1 : Str),
                            p.2))
                        <$> parseStrB fuel rest3
                    else
                      (fun p => ((u :: p.1 : Str), p.2)) <$>
                        parseStrB fuel (a :: b :: g1 :: g2 :: g3 :: g4 :: rest3)
                  | _, _, _, _ =>
                    (fun p => ((u :: p.1 : Str), p.2)) <$>
                      parseStrB fuel (a :: b :: g1 :: g2 :: g3 :: g4 :: rest3)
                | short => (fun p => ((u :: p.1 : Str), p.2)) <$> parseStrB fuel short
              else (fun p => ((u :: p.1 : Str), p.2)) <$> parseStrB fuel rest2
            | _, _, _, _ => none
          | _ => none
        else none) := rfl

theorem parseStrB_wf : ∀ fuel s out r, s.all isScalar = true →
    parseStrB fuel s = some (out, r) → strBOK s out r := by
  intro fuel
  induction fuel with
  | zero =>
    intro s out r hs hp
    simp [parseStrB] at hp
  | succ fuel ih =>
    intro s out r hs hp
    cases s with
    | nil => simp [parseStrB] at hp
    | cons c rest =>
      rw [List.all_cons, Bool.and_eq_true] at hs
      obtain ⟨hsc, hsrest⟩ := hs
      obtain ⟨hcOK, hcHi, hcLo⟩ := isScalar_facts c hsc
      by_cases h22 : c = 0x22
      · subst h22
        rw [show parseStrB (fuel + 1) (0x22 :: rest) = some ([], rest) from rfl] at hp
        rw [Option.some.injEq, Prod.mk.injEq] at hp
        obtain ⟨h1, h2⟩ := hp
        subst h1
        subst h2
        exact ⟨rfl, rfl, hsrest, fun d ds hde => nomatch hde⟩
      · by_cases h5C : c = 0x5C
        · subst h5C
          cases rest with
          | nil =>
            rw [show parseStrB (fuel + 1) (0x5C :: ([] : Str)) = none from rfl] at hp
            exact absurd hp (by simp)
          | cons e rest1 =>
            rw [parseStrB_escRed fuel e rest1] at hp
            rw [List.all_cons, Bool.and_eq_true] at hsrest
            obtain ⟨hse, hsrest1⟩ := hsrest
            by_cases he1 : e = 0x22
            · rw [if_pos he1] at hp
              obtain ⟨p1, p2, hres, ho, hr⟩ := strB_map_inv _ _ _ _ hp
              subst ho
              subst hr
              exact strBOK_cons _ rest1 0x22 p1 r (by decide) (by decide) (by decide)
                (ih rest1 p1 r hsrest1 hres)
            · rw [if_neg he1] at hp
              by_cases he2 : e = 0x5C
              · rw [if_pos he2] at hp
                obtain ⟨p1, p2, hres, ho, hr⟩ := strB_map_inv _ _ _ _ hp
                subst ho
                subst hr
                exact strBOK_cons _ rest1 0x5C p1 r (by decide) (by decide) (by decide)
                  (ih rest1 p1 r hsrest1 hres)
              · rw [if_neg he2] at hp
                by_cases he3 : e = 0x2F
                · rw [if_pos he3] at hp
                  obtain ⟨p1, p2, hres, ho, hr⟩ := strB_map_inv _ _ _ _ hp
                  subst ho
                  subst hr
                  exact strBOK_cons _ rest1 0x2F p1 r (by decide) (by decide) (by decide)
                    (ih rest1 p1 r hsrest1 hres)
                · rw [if_neg he3] at hp
                  by_cases he4 : e = 0x62
                  · rw [if_pos he4] at hp
                    obtain ⟨p1, p2, hres, ho, hr⟩ := strB_map_inv _ _ _ _ hp
                    subst ho
                    subst hr
                    exact strBOK_cons _ rest1 8 p1 r (by decide) (by decide) (by decide)
                      (ih rest1 p1 r hsrest1 hres)
                  · rw [if_neg he4] at hp
                    by_cases he5 : e = 0x66
                    · rw [if_pos he5] at hp
                      obtain ⟨p1, p2, hres, ho, hr⟩ := strB_map_inv _ _ _ _ hp
                      subst ho
                      subst hr
                      exact strBOK_cons _ rest1 12 p1 r (by decide) (by decide) (by decide)
                        (ih rest1 p1 r hsrest1 hres)
                    · rw [if_neg he5] at hp
                      by_cases he6 : e = 0x6E
                      · rw [if_pos he6] at hp
                        obtain ⟨p1, p2, hres, ho, hr⟩ := strB_map_inv _ _ _ _ hp
                        subst ho
                        subst hr
                        exact strBOK_cons _ rest1 10 p1 r (by decide) (by decide)
                          (by decide) (ih rest1 p1 r hsrest1 hres)
                      · rw [if_neg he6] at hp
                        by_cases he7 : e = 0x72
                        · rw [if_pos he7] at hp
                          obtain ⟨p1, p2, hres, ho, hr⟩ := strB_map_inv _ _ _ _ hp
                          subst ho
                          subst hr
                          exact strBOK_cons _ rest1 13 p1 r (by decide) (by decide)
                            (by decide) (ih rest1 p1 r hsrest1 hres)
                        · rw [if_neg he7] at hp
                          by_cases he8 : e = 0x74
                          · rw [if_pos he8] at hp
                            obtain ⟨p1, p2, hres, ho, hr⟩ := strB_map_inv _ _ _ _ hp
                            subst ho
                            subst hr
                            exact strBOK_cons _ rest1 9 p1 r (by decide) (by decide)
                              (by decide) (ih rest1 p1 r hsrest1 hres)
                          · rw [if_neg he8] at hp
                            by_cases he9 : e = 0x75
                            · subst he9
                              rw [if_pos rfl] at hp
                              rcases rest1 with _ | ⟨k1, _ | ⟨k2, _ | ⟨k3, _ | ⟨k4, rest2⟩⟩⟩⟩
                              · simp at hp
                              · simp at hp
                              · simp at hp
                              · simp at hp
                              · simp only [List.all_cons, Bool.and_eq_true] at hsrest1
                                obtain ⟨hk1s, hk2s, hk3s, hk4s, hsrest2⟩ := hsrest1
                                rcases hx1 : hexVal k1 with _ | x1
                                · simp only [hx1] at hp
                                  exact absurd hp (by simp)
                                · rcases hx2 : hexVal k2 with _ | x2
                                  · simp only [hx1, hx2] at hp
                                    exact absurd hp (by simp)
                                  · rcases hx3 : hexVal k3 with _ | x3
                                    · simp only [hx1, hx2, hx3] at hp
                                      exact absurd hp (by simp)
                                    · rcases hx4 : hexVal k4 with _ | x4
                                      · simp only [hx1, hx2, hx3, hx4] at hp
                                        exact absurd hp (by simp)
                                      · simp only [hx1, hx2, hx3, hx4] at hp
                                        have hv1 := hexVal_lt k1 x1 hx1
                                        have hv2 := hexVal_lt k2 x2 hx2
                                        have hv3 := hexVal_lt k3 x3 hx3
                                        have hv4 := hexVal_lt k4 x4 hx4
                                        have huOK :
                                            cpOK (x1 * 4096 + x2 * 256 + x3 * 16 + x4)
                                              = true := by
                                          simp only [cpOK, decide_eq_true_eq]
                                          omega
                                        by_cases hhi :
                                            (0xD800 ≤ x1 * 4096 + x2 * 256 + x3 * 16 + x4
                                              && x1 * 4096 + x2 * 256 + x3 * 16 + x4
                                                ≤ 0xDBFF) = true
                                        · rw [if_pos hhi] at hp
                                          have huHi : isHiSurr
                                              (x1 * 4096 + x2 * 256 + x3 * 16 + x4)
                                                = true := hhi
                                          rcases rest2 with _ | ⟨a, _ | ⟨b, _ |
                                            ⟨g1, _ | ⟨g2, _ | ⟨g3, _ | ⟨g4, rest3⟩⟩⟩⟩⟩⟩
                                          · exact strBOK_hi _ _ fuel _ out r huOK huHi
                                              (by decide) (isLoEsc_short _ (by simp)) ih hp
                                          · exact strBOK_hi _ _ fuel _ out r huOK huHi
                                              (by simpa using hsrest2)
                                              (isLoEsc_short _ (by simp)) ih hp
                                          · exact strBOK_hi _ _ fuel _ out r huOK huHi
                                              (by simpa using hsrest2)
                                              (isLoEsc_short _ (by simp)) ih hp
                                          · exact strBOK_hi _ _ fuel _ out r huOK huHi
                                              (by simpa using hsrest2)
                                              (isLoEsc_short _ (by simp)) ih hp
                                          · exact strBOK_hi _ _ fuel _ out r huOK huHi
                                              (by simpa using hsrest2)
                                              (isLoEsc_short _ (by simp)) ih hp
                                          · exact strBOK_hi _ _ fuel _ out r huOK huHi
                                              (by simpa using hsrest2)
                                              (isLoEsc_short _ (by simp)) ih hp
                                          · rcases hy1 : hexVal g1 with _ | y1
                                            · simp only [hy1] at hp
                                              refine strBOK_hi _ _ fuel _ out r huOK huHi
                                                hsrest2 ?_ ih hp
                                              rw [Bool.eq_false_iff]
                                              intro hcontr
                                              obtain ⟨q1, q2, q3, q4, t, z1, z2, z3, z4,
                                                hseq, hz1, -, -, -, -⟩ := isLoEsc_spec _ hcontr
                                              injection hseq with e1 hseq
                                              injection hseq with e2 hseq
                                              injection hseq with e3 hseq
                                              rw [← e3] at hz1
                                              rw [hy1] at hz1
                                              exact absurd hz1 (by simp)
                                            · rcases hy2 : hexVal g2 with _ | y2
                                              · simp only [hy1, hy2] at hp
                                                refine strBOK_hi _ _ fuel _ out r huOK huHi
                                                  hsrest2 ?_ ih hp
                                                rw [Bool.eq_false_iff]
                                                intro hcontr
                                                obtain ⟨q1, q2, q3, q4, t, z1, z2, z3, z4,
                                                  hseq, -, hz2, -, -, -⟩ :=
                                                  isLoEsc_spec _ hcontr
                                                injection hseq with e1 hseq
                                                injection hseq with e2 hseq
                                                injection hseq with e3 hseq
                                                injection hseq with e4 hseq
                                                rw [← e4] at hz2
                                                rw [hy2] at hz2
                                                exact absurd hz2 (by simp)
                                              · rcases hy3 : hexVal g3 with _ | y3
                                                · simp only [hy1, hy2, hy3] at hp
                                                  refine strBOK_hi _ _ fuel _ out r huOK
                                                    huHi hsrest2 ?_ ih hp
                                                  rw [Bool.eq_false_iff]
                                                  intro hcontr
                                                  obtain ⟨q1, q2, q3, q4, t, z1, z2, z3, z4,
                                                    hseq, -, -, hz3, -, -⟩ :=
                                                    isLoEsc_spec _ hcontr
                                                  injection hseq with e1 hseq
                                                  injection hseq with e2 hseq
                                                  injection hseq with e3 hseq
                                                  injection hseq with e4 hseq
                                                  injection hseq with e5 hseq
                                                  rw [← e5] at hz3
                                                  rw [hy3] at hz3
                                                  exact absurd hz3 (by simp)
                                                · rcases hy4 : hexVal g4 with _ | y4
                                                  · simp only [hy1, hy2, hy3, hy4] at hp
                                                    refine strBOK_hi _ _ fuel _ out r huOK
                                                      huHi hsrest2 ?_ ih hp
                                                    rw [Bool.eq_false_iff]
                                                    intro hcontr
                                                    obtain ⟨q1, q2, q3, q4, t, z1, z2, z3,
                                                      z4, hseq, -, -, -, hz4, -⟩ :=
                                                      isLoEsc_spec _ hcontr
                                                    injection hseq with e1 hseq
                                                    injection hseq with e2 hseq
                                                    injection hseq with e3 hseq
                                                    injection hseq with e4 hseq
                                                    injection hseq with e5 hseq
                                                    injection hseq with e6 hseq
                                                    rw [← e6] at hz4
                                                    rw [hy4] at hz4
                                                    exact absurd hz4 (by simp)
                                                  · simp only [hx1, hx2, hx3, hx4, hy1,
                                                      hy2, hy3, hy4] at hp
                                                    by_cases hcond : (a = 0x5C && b = 0x75
                                                        && (0xDC00 ≤ y1 * 4096 + y2 * 256
                                                          + y3 * 16 + y4
                                                        && y1 * 4096 + y2 * 256 + y3 * 16
                                                          + y4 ≤ 0xDFFF)) = true
                                                    · rw [if_pos hcond] at hp
                                                      rw [Bool.and_eq_true, Bool.and_eq_true,
                                                        Bool.and_eq_true, decide_eq_true_eq,
                                                        decide_eq_true_eq, decide_eq_true_eq,
                                                        decide_eq_true_eq] at hcond
                                                      obtain ⟨⟨ha92, hb117⟩, hlo1, hlo2⟩ :=
                                                        hcond
                                                      rw [Bool.and_eq_true,
                                                        decide_eq_true_eq,
                                                        decide_eq_true_eq] at hhi
                                                      obtain ⟨p1, p2, hres, ho, hr⟩ :=
                                                        strB_map_inv _ _ _ _ hp
                                                      subst ho
                                                      subst hr
                                                      simp only [List.all_cons,
                                                        Bool.and_eq_true] at hsrest2
                                                      refine strBOK_cons _ rest3 _ p1 r
                                                        ?_ ?_ ?_
                                                        (ih rest3 p1 r hsrest2.2.2.2.2.2.2
                                                          hres)
                                                      · simp only [cpOK, decide_eq_true_eq]
                                                        omega
                                                      · rw [Bool.eq_false_iff]
                                                        simp only [ne_eq, isHiSurr,
                                                          Bool.and_eq_true,
                                                          decide_eq_true_eq, not_and]
                                                        omega
                                                      · rw [Bool.eq_false_iff]
                                                        simp only [ne_eq, isLoSurr,
                                                          Bool.and_eq_true,
                                                          decide_eq_true_eq, not_and]
                                                        omega
                                                    · rw [if_neg hcond] at hp
                                                      refine strBOK_hi _ _ fuel _ out r
                                                        huOK huHi hsrest2 ?_ ih hp
                                                      rw [Bool.eq_false_iff]
                                                      intro hcontr
                                                      obtain ⟨q1, q2, q3, q4, t, z1, z2,
                                                        z3, z4, hseq, hz1, hz2, hz3, hz4,
                                                        hzlo⟩ := isLoEsc_spec _ hcontr
                                                      injection hseq with e1 hseq
                                                      injection hseq with e2 hseq
                                                      injection hseq with e3 hseq
                                                      injection hseq with e4 hseq
                                                      injection hseq with e5 hseq
                                                      injection hseq with e6 hseq
                                                      rw [← e3] at hz1
                                                      rw [← e4] at hz2
                                                      rw [← e5] at hz3
                                                      rw [← e6] at hz4
                                                      rw [hy1, Option.some.injEq] at hz1
                                                      rw [hy2, Option.some.injEq] at hz2
                                                      rw [hy3, Option.some.injEq] at hz3
                                                      rw [hy4, Option.some.injEq] at hz4
                                                      subst hz1
                                                      subst hz2
                                                      subst hz3
                                                      subst hz4
                                                      apply hcond
                                                      rw [e1, e2]
                                                      unfold isLoSurr at hzlo
                                                      rw [Bool.and_eq_true] at hzlo
                                                      rw [Bool.and_eq_true, Bool.and_eq_true,
                                                        Bool.and_eq_true]
                                                      exact ⟨⟨rfl, rfl⟩, hzlo.1, hzlo.2⟩
                                        · rw [if_neg hhi] at hp
                                          obtain ⟨p1, p2, hres, ho, hr⟩ :=
                                            strB_map_inv _ _ _ _ hp
                                          subst ho
                                          subst hr
                                          obtain ⟨ha, hn, hrs, -⟩ :=
                                            ih rest2 p1 r hsrest2 hres
                                          have huHi : isHiSurr
                                              (x1 * 4096 + x2 * 256 + x3 * 16 + x4)
                                                = false := by
                                            rw [Bool.eq_false_iff]
                                            exact hhi
                                          refine ⟨?_,
                                            noHiLo_cons _ p1 hn (Or.inl huHi), hrs, ?_⟩
                                          · rw [List.all_cons, huOK, ha]
                                            rfl
                                          · intro d ds hde hlo
                                            injection hde with h1 h2
                                            rw [← h1] at hlo
                                            simp only [isLoEsc, hx1, hx2, hx3, hx4]
                                            exact hlo
                            · rw [if_neg he9] at hp
                              simp at hp
        · simp only [parseStrB] at hp
          rw [if_neg h22, if_neg h5C] at hp
          by_cases hctl : c < 0x20
          · rw [if_pos hctl] at hp
            simp at hp
          · rw [if_neg hctl] at hp
            obtain ⟨p1, p2, hres, ho, hr⟩ := strB_map_inv _ _ _ _ hp
            subst ho
            subst hr
            exact strBOK_cons _ rest c p1 r hcOK hcHi hcLo
              (ih rest p1 r hsrest hres)

theorem parseF_wf : ∀ fuel task s j r, s.all isScalar = true → taskPre task →
    parseF fuel task s = some (j, r) → wf j = true ∧ r.all isScalar = true := by
  intro fuel
  induction fuel with
  | zero =>
    intro task s j r hs hpre hp
    simp [parseF] at hp
  | succ fuel ih =>
    intro task s j r hs hpre hp
    cases task with
    | pv =>
      cases s with
      | nil => simp [parseF] at hp
      | cons c rest =>
        rw [List.all_cons, Bool.and_eq_true] at hs
        obtain ⟨hsc, hsrest⟩ := hs
        simp only [parseF] at hp
        by_cases h22 : c = 0x22
        · rw [if_pos h22] at hp
          rcases hres : parseStrBody rest with _ | p
          · rw [hres] at hp
            simp at hp
          · rcases p with ⟨p1, p2⟩
            rw [hres] at hp
            rw [show (fun p => (Json.jstr p.1, p.2)) <$>
                (some (p1, p2) : Option (Str × Str)) = some (Json.jstr p1, p2) from
              rfl] at hp
            rw [Option.some.injEq, Prod.mk.injEq] at hp
            obtain ⟨h1, h2⟩ := hp
            subst h1
            subst h2
            obtain ⟨ha, hn, hrs, -⟩ :=
              parseStrB_wf (rest.length + 1) rest p1 p2 hsrest hres
            exact ⟨by simp [wf, wfStr, ha, hn], hrs⟩
        · by_cases h5B : c = 0x5B
          · rw [if_neg h22, if_pos h5B] at hp
            split at hp
            · rename_i r2 heq
              rw [Option.some.injEq, Prod.mk.injEq] at hp
              obtain ⟨h1, h2⟩ := hp
              subst h1
              subst h2
              refine ⟨rfl, ?_⟩
              have h3 := skipWs_scalar rest hsrest
              rw [heq, List.all_cons, Bool.and_eq_true] at h3
              exact h3.2
            · rcases hres : parseF fuel .pv (skipWs rest) with _ | p
              · rw [hres] at hp
                simp at hp
              · rcases p with ⟨v, r1⟩
                simp only [hres] at hp
                obtain ⟨hwv, hr1⟩ :=
                  ih .pv (skipWs rest) v r1 (skipWs_scalar rest hsrest) trivial hres
                refine ih (.pa [v]) r1 j r hr1 ?_ hp
                intro x hx
                rw [List.mem_singleton] at hx
                subst hx
                exact hwv
          · by_cases h7B : c = 0x7B
            · rw [if_neg h22, if_neg h5B, if_pos h7B] at hp
              split at hp
              · rename_i r2 heq
                rw [Option.some.injEq, Prod.mk.injEq] at hp
                obtain ⟨h1, h2⟩ := hp
                subst h1
                subst h2
                refine ⟨rfl, ?_⟩
                have h3 := skipWs_scalar rest hsrest
                rw [heq, List.all_cons, Bool.and_eq_true] at h3
                exact h3.2
              · exact ih (.po Json.onil) (skipWs rest) j r (skipWs_scalar rest hsrest)
                  ⟨rfl, rfl⟩ hp
            · rw [if_neg h22, if_neg h5B, if_neg h7B] at hp
              have hall : (c :: rest).all isScalar = true := by
                rw [List.all_cons, Bool.and_eq_true]
                exact ⟨hsc, hsrest⟩
              by_cases hnul : ((strCp "null").isPrefixOf (c :: rest)) = true
              · rw [if_pos hnul] at hp
                rw [Option.some.injEq, Prod.mk.injEq] at hp
                obtain ⟨h1, h2⟩ := hp
                subst h1
                subst h2
                exact ⟨rfl, all_scalar_drop _ 4 hall⟩
              · rw [if_neg hnul] at hp
                by_cases htru : ((strCp "true").isPrefixOf (c :: rest)) = true
                · rw [if_pos htru] at hp
                  rw [Option.some.injEq, Prod.mk.injEq] at hp
                  obtain ⟨h1, h2⟩ := hp
                  subst h1
                  subst h2
                  exact ⟨rfl, all_scalar_drop _ 4 hall⟩
                · rw [if_neg htru] at hp
                  by_cases hfls : ((strCp "false").isPrefixOf (c :: rest)) = true
                  · rw [if_pos hfls] at hp
                    rw [Option.some.injEq, Prod.mk.injEq] at hp
                    obtain ⟨h1, h2⟩ := hp
                    subst h1
                    subst h2
                    exact ⟨rfl, all_scalar_drop _ 5 hall⟩
                  · rw [if_neg hfls] at hp
                    rcases hsn : scanNum (c :: rest) with _ | p
                    · simp only [hsn] at hp
                      by_cases hnan : ((strCp "NaN").isPrefixOf (c :: rest)) = true
                      · rw [if_pos hnan] at hp
                        rw [Option.some.injEq, Prod.mk.injEq] at hp
                        obtain ⟨h1, h2⟩ := hp
                        subst h1
                        subst h2
                        exact ⟨by decide, all_scalar_drop _ 3 hall⟩
                      · rw [if_neg hnan] at hp
                        by_cases hinf : ((strCp "Infinity").isPrefixOf (c :: rest)) = true
                        · rw [if_pos hinf] at hp
                          rw [Option.some.injEq, Prod.mk.injEq] at hp
                          obtain ⟨h1, h2⟩ := hp
                          subst h1
                          subst h2
                          exact ⟨by decide, all_scalar_drop _ 8 hall⟩
                        · rw [if_neg hinf] at hp
                          by_cases hninf :
                              ((strCp "-Infinity").isPrefixOf (c :: rest)) = true
                          · rw [if_pos hninf] at hp
                            rw [Option.some.injEq, Prod.mk.injEq] at hp
                            obtain ⟨h1, h2⟩ := hp
                            subst h1
                            subst h2
                            exact ⟨by decide, all_scalar_drop _ 9 hall⟩
                          · rw [if_neg hninf] at hp
                            simp at hp
                    · rcases p with ⟨tok, r2⟩
                      simp only [hsn] at hp
                      rw [Option.some.injEq, Prod.mk.injEq] at hp
                      obtain ⟨h1, h2⟩ := hp
                      subst h1
                      subst h2
                      refine ⟨?_, ?_⟩
                      · have hres := scanNum_rescan _ _ _ hsn
                        simp [wf, numTokOK, hres]
                      · have hsplit := scanNum_split _ _ _ hsn
                        rw [hsplit, List.all_append, Bool.and_eq_true] at hall
                        exact hall.2
    | pa acc =>
      simp only [parseF] at hp
      split at hp
      · rename_i r2 heq
        rw [Option.some.injEq, Prod.mk.injEq] at hp
        obtain ⟨h1, h2⟩ := hp
        subst h1
        subst h2
        refine ⟨wf_listToArr acc hpre, ?_⟩
        have h3 := skipWs_scalar s hs
        rw [heq, List.all_cons, Bool.and_eq_true] at h3
        exact h3.2
      · rename_i r2 heq
        rcases hres : parseF fuel .pv (skipWs r2) with _ | p
        · rw [hres] at hp
          simp at hp
        · rcases p with ⟨v, r1⟩
          simp only [hres] at hp
          have hr2s : r2.all isScalar = true := by
            have h3 := skipWs_scalar s hs
            rw [heq, List.all_cons, Bool.and_eq_true] at h3
            exact h3.2
          obtain ⟨hwv, hr1⟩ :=
            ih .pv (skipWs r2) v r1 (skipWs_scalar r2 hr2s) trivial hres
          refine ih (.pa (acc ++ [v])) r1 j r hr1 ?_ hp
          intro x hx
          rw [List.mem_append] at hx
          rcases hx with hx | hx
          · exact hpre x hx
          · rw [List.mem_singleton] at hx
            subst hx
            exact hwv
      · exact absurd hp (by simp)
    | po acc =>
      cases s with
      | nil => simp [parseF] at hp
      | cons c rest =>
        rw [List.all_cons, Bool.and_eq_true] at hs
        obtain ⟨hsc, hsrest⟩ := hs
        simp only [parseF] at hp
        split at hp
        · rename_i s2 r2 heq
          injection heq with hc hrest
          subst hrest
          rcases hsb : parseStrBody rest with _ | pk
          · rw [hsb] at hp
            simp at hp
          · rcases pk with ⟨k, r1⟩
            simp only [hsb] at hp
            obtain ⟨hak, hnk2, hr1, -⟩ :=
              parseStrB_wf (rest.length + 1) rest k r1 hsrest hsb
            have hkw : wfStr k = true := by
              simp [wfStr, hak, hnk2]
            split at hp
            · rename_i r2b heq2
              rcases hres : parseF fuel .pv (skipWs r2b) with _ | pv2
              · rw [hres] at hp
                simp at hp
              · rcases pv2 with ⟨v, r3⟩
                simp only [hres] at hp
                have hr2b : r2b.all isScalar = true := by
                  have h3 := skipWs_scalar r1 hr1
                  rw [heq2, List.all_cons, Bool.and_eq_true] at h3
                  exact h3.2
                obtain ⟨hwv, hr3⟩ :=
                  ih .pv (skipWs r2b) v r3 (skipWs_scalar r2b hr2b) trivial hres
                have hacc2 : wf (acc.objSet k v) = true :=
                  wf_objSet acc k v hpre.1 hkw hwv
                split at hp
                · rename_i r4 heq3
                  rw [Option.some.injEq, Prod.mk.injEq] at hp
                  obtain ⟨h1, h2⟩ := hp
                  subst h1
                  subst h2
                  refine ⟨hacc2, ?_⟩
                  have h3 := skipWs_scalar r3 hr3
                  rw [heq3, List.all_cons, Bool.and_eq_true] at h3
                  exact h3.2
                · rename_i r4 heq3
                  have hr4 : r4.all isScalar = true := by
                    have h3 := skipWs_scalar r3 hr3
                    rw [heq3, List.all_cons, Bool.and_eq_true] at h3
                    exact h3.2
                  refine ih (.po (acc.objSet k v)) (skipWs r4) j r
                    (skipWs_scalar r4 hr4) ⟨hacc2, ?_⟩ hp
                  rw [Json.isObj_objSet]
                  exact hpre.2
                · exact absurd hp (by simp)
            · exact absurd hp (by simp)
        · exact absurd hp (by simp)

/-- On an all-scalar input string (as UTF-8 decoding produces), `json.loads`
only returns well-formed values. -/
theorem loads_wf (s : Str) (j : Json) (hs : isScalarStr s = true)
    (h : loads s = some j) : wf j = true := by
  simp only [loads] at h
  rcases hres : parseF ((skipWs s).length + 1) .pv (skipWs s) with _ | p
  · rw [hres] at h
    simp at h
  · rcases p with ⟨j2, r⟩
    simp only [hres] at h
    split at h
    · rw [Option.some.injEq] at h
      subst h
      exact (parseF_wf ((skipWs s).length + 1) .pv (skipWs s) j2 r
        (skipWs_scalar s hs) trivial hres).1
    · exact absurd h (by simp)

/-! ## Lemmas: the compact serialization is printable ASCII -/

theorem hexDigit_lt (m : Nat) (h : m < 16) : hexDigit m < 0x80 := by
  unfold hexDigit
  split <;> omega

theorem hex4_ascii (n : Nat) : (hex4 n).all (fun b => b < 0x80) = true := by
  simp only [hex4, List.all_cons, List.all_nil, Bool.and_eq_true, decide_eq_true_eq,
    Bool.and_true]
  exact ⟨hexDigit_lt _ (by omega), hexDigit_lt _ (by omega), hexDigit_lt _ (by omega),
    hexDigit_lt _ (by omega)⟩

theorem escCp_ascii (c : Nat) : (escCp c).all (fun b => b < 0x80) = true := by
  unfold escCp
  repeat' split
  all_goals simp [List.all_append, hex4_ascii]
  all_goals omega

theorem escStr_ascii (s : Str) : (escStr s).all (fun b => b < 0x80) = true := by
  induction s with
  | nil => rfl
  | cons c cs ih =>
    rw [show escStr (c :: cs) = escCp c ++ escStr cs from rfl, List.all_append,
      escCp_ascii, ih]
    rfl

theorem digits_ascii (l : Str) (h : l.all isDigitCp = true) :
    l.all (fun b => b < 0x80) = true := by
  rw [List.all_eq_true] at h ⊢
  intro x hx
  have h2 := h x hx
  rw [isDigitCp, Bool.and_eq_true, decide_eq_true_eq, decide_eq_true_eq] at h2
  simp only [decide_eq_true_eq]
  omega

theorem numShape_ascii (tok : Str) (h : numShape tok) :
    tok.all (fun b => b < 0x80) = true := by
  obtain ⟨neg, c, ds, fr, ex, htok, hneg, hint, hfr, hex⟩ := h
  subst htok
  rw [List.all_append, List.all_append, List.all_append, Bool.and_eq_true,
    Bool.and_eq_true, Bool.and_eq_true]
  refine ⟨⟨⟨?_, ?_⟩, ?_⟩, ?_⟩
  · rcases hneg with rfl | rfl
    · rfl
    · decide
  · rw [List.all_cons, Bool.and_eq_true]
    constructor
    · simp only [decide_eq_true_eq]
      rcases hint with ⟨h1, -⟩ | ⟨h1, h2, -⟩ <;> omega
    · rcases hint with ⟨-, rfl⟩ | ⟨-, -, h3⟩
      · rfl
      · exact digits_ascii ds h3
  · rcases hfr with rfl | ⟨d, ds2, rfl, hd, hds⟩
    · rfl
    · rw [List.all_cons, List.all_cons, Bool.and_eq_true, Bool.and_eq_true]
      refine ⟨by decide, ?_, digits_ascii ds2 hds⟩
      rw [isDigitCp, Bool.and_eq_true, decide_eq_true_eq, decide_eq_true_eq] at hd
      simp only [decide_eq_true_eq]
      omega
  · rcases hex with rfl | ⟨e, sg, ds2, rfl, he, hshape⟩
    · rfl
    · rw [List.all_cons, List.all_cons, Bool.and_eq_true, Bool.and_eq_true]
      refine ⟨?_, ?_, ?_⟩
      · simp only [decide_eq_true_eq]
        rcases he with rfl | rfl <;> omega
      · simp only [decide_eq_true_eq]
        rcases hshape with ⟨hsg, -⟩ | ⟨hsg, -⟩
        · rcases hsg with rfl | rfl <;> omega
        · rw [isDigitCp, Bool.and_eq_true, decide_eq_true_eq, decide_eq_true_eq] at hsg
          omega
      · rcases hshape with ⟨-, d, ds3, rfl, hd, hds⟩ | ⟨-, hds⟩
        · rw [List.all_cons, Bool.and_eq_true]
          refine ⟨?_, digits_ascii ds3 hds⟩
          rw [isDigitCp, Bool.and_eq_true, decide_eq_true_eq, decide_eq_true_eq] at hd
          simp only [decide_eq_true_eq]
          omega
        · exact digits_ascii ds2 hds

theorem numTok_ascii (t : Str) (h : numTokOK t = true) :
    t.all (fun b => b < 0x80) = true := by
  unfold numTokOK at h
  rw [Bool.or_eq_true, Bool.or_eq_true, Bool.or_eq_true] at h
  rcases h with ((h | h) | h) | h
  · rw [beq_iff_eq] at h
    exact numShape_ascii t (scanNum_inv t t [] h)
  · rw [beq_iff_eq] at h
    subst h
    decide
  · rw [beq_iff_eq] at h
    subst h
    decide
  · rw [beq_iff_eq] at h
    subst h
    decide

theorem dumps_ascii (j : Json) (hw : wf j = true) :
    (dmp [0x2C] [0x3A] false j).all (fun b => b < 0x80) = true
      ∧ (dmp [0x2C] [0x3A] true j).all (fun b => b < 0x80) = true := by
  induction j with
  | jnull => exact ⟨by decide, rfl⟩
  | jbool b => cases b <;> exact ⟨by decide, rfl⟩
  | jnum t => exact ⟨numTok_ascii t hw, rfl⟩
  | jstr s =>
    refine ⟨?_, rfl⟩
    rw [show dmp [0x2C] [0x3A] false (Json.jstr s) = [0x22] ++ escStr s ++ [0x22] from rfl,
      List.all_append, List.all_append, escStr_ascii]
    decide
  | anil => exact ⟨by decide, by decide⟩
  | onil => exact ⟨by decide, by decide⟩
  | acons h t ihh iht =>
    simp only [wf, Bool.and_eq_true] at hw
    obtain ⟨⟨hwh, -⟩, hwt⟩ := hw
    constructor
    · rw [show dmp [0x2C] [0x3A] false (Json.acons h t)
          = [0x5B] ++ dmp [0x2C] [0x3A] false h ++ dmp [0x2C] [0x3A] true t from rfl,
        List.all_append, List.all_append, (ihh hwh).1, (iht hwt).2]
      decide
    · rw [show dmp [0x2C] [0x3A] true (Json.acons h t)
          = [0x2C] ++ dmp [0x2C] [0x3A] false h ++ dmp [0x2C] [0x3A] true t from rfl,
        List.all_append, List.all_append, (ihh hwh).1, (iht hwt).2]
      decide
  | ocons k v t ihv iht =>
    simp only [wf, Bool.and_eq_true] at hw
    obtain ⟨⟨⟨⟨-, hwv⟩, -⟩, hwt⟩, -⟩ := hw
    constructor
    · rw [show dmp [0x2C] [0x3A] false (Json.ocons k v t)
          = [0x7B, 0x22] ++ escStr k ++ [0x22] ++ [0x3A] ++ dmp [0x2C] [0x3A] false v
            ++ dmp [0x2C] [0x3A] true t from rfl]
      simp only [List.all_append, Bool.and_eq_true]
      exact ⟨⟨⟨⟨⟨by decide, escStr_ascii k⟩, by decide⟩, by decide⟩, (ihv hwv).1⟩,
        (iht hwt).2⟩
    · rw [show dmp [0x2C] [0x3A] true (Json.ocons k v t)
          = [0x2C] ++ [0x22] ++ escStr k ++ [0x22] ++ [0x3A] ++ dmp [0x2C] [0x3A] false v
            ++ dmp [0x2C] [0x3A] true t from rfl]
      simp only [List.all_append, Bool.and_eq_true]
      exact ⟨⟨⟨⟨⟨⟨by decide, by decide⟩, escStr_ascii k⟩, by decide⟩, by decide⟩,
        (ihv hwv).1⟩, (iht hwt).2⟩

theorem ascii_scalar (l : Str) (h : l.all (fun b => b < 0x80) = true) :
    l.all isScalar = true := by
  rw [List.all_eq_true] at h ⊢
  intro x hx
  have h2 := h x hx
  simp only [decide_eq_true_eq] at h2
  simp only [isScalar, Bool.or_eq_true, Bool.and_eq_true, decide_eq_true_eq]
  omega

theorem normalize_scalar (l : Str) (h : l.all isScalar = true) :
    (normalizeDataLine l).all isScalar = true := by
  unfold normalizeDataLine
  split
  · rw [List.all_append, Bool.and_eq_true]
    exact ⟨by decide, all_scalar_drop l 5 h⟩
  · exact h

theorem isObj_payloadFixed (p : Json) : (payloadFixed p).isObj = p.isObj := by
  by_cases h : p.objHasKey (strCp "choices") = true
  · simp [payloadFixed, h, Json.isObj_objSet]
  · simp [payloadFixed, h]

theorem isObj_modelFixed (cfg : Config) (p : Json) :
    (modelFixed cfg p).isObj = p.isObj := by
  by_cases h : modelFlag cfg p = true
  · simp [modelFixed, h, Json.isObj_objSet]
  · simp [modelFixed, h]

theorem dmp_obj_head (j : Json) (h : j.isObj = true) :
    ∃ cs, dmp [0x2C] [0x3A] false j = 0x7B :: cs := by
  cases j with
  | onil => exact ⟨[0x7D], rfl⟩
  | ocons k v t =>
    exact ⟨[0x22] ++ escStr k ++ [0x22] ++ [0x3A] ++ dmp [0x2C] [0x3A] false v
      ++ dmp [0x2C] [0x3A] true t, by simp [dmp]⟩
  | jnull => exact absurd h (by simp [Json.isObj])
  | jbool b => exact absurd h (by simp [Json.isObj])
  | jnum a => exact absurd h (by simp [Json.isObj])
  | jstr a => exact absurd h (by simp [Json.isObj])
  | anil => exact absurd h (by simp [Json.isObj])
  | acons a b => exact absurd h (by simp [Json.isObj])

theorem dataPrefix_drop6 (X : Str) : (strCp "data: " ++ X).drop 6 = X := by
  rw [show strCp "data: " = [0x64, 0x61, 0x74, 0x61, 0x3A, 0x20] from by decide]
  rfl

theorem dataSpace_pre (X : Str) :
    (strCp "data: ").isPrefixOf (strCp "data: " ++ X) = true := by
  rw [show strCp "data: " = [0x64, 0x61, 0x74, 0x61, 0x3A, 0x20] from by decide]
  simp [List.isPrefixOf]

theorem dataBrace_pre (cs : Str) :
    (strCp "data: \x7b").isPrefixOf (strCp "data: " ++ 0x7B :: cs) = true := by
  rw [show strCp "data: \x7b" = [0x64, 0x61, 0x74, 0x61, 0x3A, 0x20, 0x7B] from by decide,
    show strCp "data: " = [0x64, 0x61, 0x74, 0x61, 0x3A, 0x20] from by decide]
  simp [List.isPrefixOf]

/-- The heart of idempotence: a successful output of `fix_sse_line` is a
fixed point (provided the configured replacement model name, if any, is a
well-formed string, which every actual configuration satisfies). -/
theorem fix_fix (cfg : Config) (x y : Bytes) (hmn : wfStr cfg.modelName = true)
    (h : fix_sse_line cfg x = .ok y) : fix_sse_line cfg y = .ok y := by
  simp only [fix_sse_line] at h
  set L := normalizeDataLine (utf8Decode x) with hLdef
  have hLs : L.all isScalar = true := by
    rw [hLdef]
    exact normalize_scalar _ (decode_scalar x)
  have hLnorm : normalizeDataLine L = L := by
    rw [hLdef]
    exact normalize_idem _
  have hLdec : utf8Decode (utf8Encode L) = L := decode_encode L hLs
  by_cases hpre : ((strCp "data: \x7b").isPrefixOf L) = true
  · rw [if_neg (by simp [hpre])] at h
    rcases hld : loads (L.drop 6) with _ | payload
    · simp only [hld] at h
      rw [Except.ok.injEq] at h
      subst h
      simp only [fix_sse_line, hLdec, hLnorm]
      rw [if_neg (by simp [hpre])]
      simp only [hld]
    · simp only [hld] at h
      obtain ⟨rc, hfc, h2⟩ := bind_eq_ok h
      rcases rc with ⟨p1, c1⟩
      obtain ⟨rm, hfm, h3⟩ := bind_eq_ok h2
      rcases rm with ⟨p2, c2⟩
      have hwpayload : wf payload = true := loads_wf _ _ (all_scalar_drop L 6 hLs) hld
      obtain ⟨hpobj, hrc⟩ := fixChoices_elim hfc
      rw [Prod.mk.injEq] at hrc
      obtain ⟨hp1, hc1⟩ := hrc
      have hrm := fixModel_elim hfm
      rw [Prod.mk.injEq] at hrm
      obtain ⟨hp2, hc2⟩ := hrm
      subst hp1
      subst hc1
      subst hp2
      subst hc2
      have hwq : wf (payloadFixed payload) = true := wf_payloadFixed payload hwpayload
      have hqobj : (payloadFixed payload).isObj = true := by
        rw [isObj_payloadFixed]
        exact hpobj
      have hchq : wfObjChain (payloadFixed payload) = true :=
        Json.wfObjChain_of_wf _ hqobj hwq
      have hwp2 : wf (modelFixed cfg (payloadFixed payload)) = true :=
        wf_modelFixed cfg _ hwq hmn
      have hp2obj : (modelFixed cfg (payloadFixed payload)).isObj = true := by
        rw [isObj_modelFixed]
        exact hqobj
      have hfc2 : fixChoices (modelFixed cfg (payloadFixed payload))
          = .ok (modelFixed cfg (payloadFixed payload), false) := by
        by_cases hmf : modelFlag cfg (payloadFixed payload) = true
        · rw [modelFixed, if_pos hmf]
          exact fixChoices_objSet_model _ _ hchq
            (fixChoices_rerun payload _ hwpayload hfc)
        · rw [modelFixed, if_neg hmf]
          exact fixChoices_rerun payload _ hwpayload hfc
      have hfm2 : fixModel cfg (modelFixed cfg (payloadFixed payload))
          = .ok (modelFixed cfg (payloadFixed payload),
            modelFlag cfg (modelFixed cfg (payloadFixed payload))) :=
        fixModel_rerun cfg _ _ hchq hfm
      by_cases hflags :
          (payloadFlag payload || modelFlag cfg (payloadFixed payload)) = true
      · rw [if_pos hflags] at h3
        rw [Except.ok.injEq] at h3
        subst h3
        have hasc : (dmp [0x2C] [0x3A] false
            (modelFixed cfg (payloadFixed payload))).all (fun b => b < 0x80) = true :=
          (dumps_ascii _ hwp2).1
        have hs2 : (strCp "data: "
            ++ dumpsC (modelFixed cfg (payloadFixed payload))).all isScalar = true := by
          rw [List.all_append, Bool.and_eq_true]
          exact ⟨by decide, ascii_scalar _ hasc⟩
        simp only [fix_sse_line]
        rw [decode_encode _ hs2]
        rw [normalize_of_dataSpace _ (dataSpace_pre _)]
        obtain ⟨cs, hcs⟩ := dmp_obj_head _ hp2obj
        have hpre2 : (strCp "data: \x7b").isPrefixOf
            (strCp "data: " ++ dumpsC (modelFixed cfg (payloadFixed payload))) = true := by
          rw [show dumpsC (modelFixed cfg (payloadFixed payload))
              = dmp [0x2C] [0x3A] false (modelFixed cfg (payloadFixed payload)) from rfl,
            hcs]
          exact dataBrace_pre cs
        rw [if_neg (by simp [hpre2])]
        rw [dataPrefix_drop6]
        rw [loads_dumps _ hwp2]
        simp only [hfc2, bind_ok]
        simp only [hfm2, bind_ok]
        rw [Bool.false_or]
        split <;> rfl
      · rw [if_neg hflags] at h3
        rw [Except.ok.injEq] at h3
        subst h3
        simp only [fix_sse_line, hLdec, hLnorm]
        rw [if_neg (by simp [hpre])]
        simp only [hld]
        simp only [hfc, bind_ok]
        simp only [hfm, bind_ok]
        rw [if_neg hflags]
  · have hpf : ((strCp "data: \x7b").isPrefixOf L) = false := Bool.eq_false_iff.mpr hpre
    rw [if_pos (show (!((strCp "data: \x7b").isPrefixOf L)) = true from by
      rw [hpf]; rfl)] at h
    rw [Except.ok.injEq] at h
    subst h
    simp only [fix_sse_line, hLdec, hLnorm]
    rw [if_pos (show (!((strCp "data: \x7b").isPrefixOf L)) = true from by
      rw [hpf]; rfl)]

/-! ## Lemmas: the amended C8 invariant after fix 2 -/

theorem objLookup_none_of_hasKey_false (p : Json) (k : Str)
    (h : p.objHasKey k = false) : p.objLookup k = none := by
  cases hml : p.objLookup k with
  | none => rfl
  | some v =>
    rw [Json.objHasKey, hml] at h
    simp at h

theorem isObj_of_hasKey (p : Json) (k : Str) (h : p.objHasKey k = true) :
    p.isObj = true := by
  cases p <;> simp_all [Json.objHasKey, Json.objLookup, Json.isObj]

theorem tcElemIndexed_tcFixed (e : Json) (hch : e.isObj = true → wfObjChain e = true) :
    tcElemIndexed (tcFixed e) = true := by
  by_cases hobj : e.isObj = true
  · by_cases hk : e.objHasKey (strCp "index") = true
    · have hf : tcFlag e = false := by
        rw [tcFlag, hk]
        simp
      rw [tcFixed, if_neg (by rw [hf]; simp)]
      rw [tcElemIndexed, hk]
      simp
    · have hf : tcFlag e = true := by
        rw [tcFlag, hobj, Bool.eq_false_iff.mpr hk]
        rfl
      rw [tcFixed, if_pos hf]
      rw [tcElemIndexed,
        Json.objHasKey_objSet_self e _ _ (hch hobj)]
      simp
  · have hf : tcFlag e = false := by
      rw [tcFlag, Bool.eq_false_iff.mpr hobj]
      rfl
    rw [tcFixed, if_neg (by rw [hf]; simp)]
    rw [tcElemIndexed, Bool.eq_false_iff.mpr hobj]
    rfl

theorem allTc_choiceFixed (c : Json) (hcw : wf c = true) :
    (match (choiceFixed c).objLookup (strCp "delta") with
      | none => true
      | some d =>
        match d.objLookup (strCp "tool_calls") with
        | none => true
        | some tv => !tv.isArr || tv.arrElems.all tcElemIndexed) = true := by
  by_cases hcd : c.objHasKey (strCp "delta") = true
  · have hcobj : c.isObj = true := isObj_of_hasKey c _ hcd
    have hcch : wfObjChain c = true := Json.wfObjChain_of_wf c hcobj hcw
    obtain ⟨d, hd⟩ : ∃ d, c.objLookup (strCp "delta") = some d := by
      cases hml : c.objLookup (strCp "delta") with
      | none => rw [Json.objHasKey, hml] at hcd; simp at hcd
      | some v => exact ⟨v, rfl⟩
    have hdw : wf d = true := Json.wf_objLookup c _ d hcw hd
    by_cases hdt : d.objHasKey (strCp "tool_calls") = true
    · have hdobj : d.isObj = true := isObj_of_hasKey d _ hdt
      have hdch : wfObjChain d = true := Json.wfObjChain_of_wf d hdobj hdw
      obtain ⟨tcv, htc⟩ : ∃ tcv, d.objLookup (strCp "tool_calls") = some tcv := by
        cases hml : d.objLookup (strCp "tool_calls") with
        | none => rw [Json.objHasKey, hml] at hdt; simp at hdt
        | some v => exact ⟨v, rfl⟩
      have htcw : wf tcv = true := Json.wf_objLookup d _ tcv hdw htc
      have hcf : choiceFixed c = c.objSet (strCp "delta")
          (d.objSet (strCp "tool_calls")
            (if tcv.isArr then Json.listToArr (tcv.arrElems.map tcFixed) else tcv)) := by
        simp only [choiceFixed, hd, Option.getD_some, htc]
        rw [if_pos hdt, if_pos hcd]
      rw [hcf, Json.objLookup_objSet_self c _ _ hcch]
      simp only [Json.objLookup_objSet_self d _ _ hdch]
      by_cases harr : tcv.isArr = true
      · rw [if_pos harr]
        simp only [Json.isArr_listToArr, Bool.not_true, Bool.false_or]
        rw [Json.arrElems_listToArr, List.all_eq_true]
        intro e2 he2
        rw [List.mem_map] at he2
        obtain ⟨e, hemem, rfl⟩ := he2
        have hew : wf e = true := Json.wf_arrElem tcv e htcw hemem
        exact tcElemIndexed_tcFixed e (fun hobj => Json.wfObjChain_of_wf e hobj hew)
      · rw [if_neg harr]
        rw [Bool.eq_false_iff.mpr harr]
        rfl
    · have hcf : choiceFixed c = c.objSet (strCp "delta") d := by
        simp only [choiceFixed, hd, Option.getD_some]
        rw [if_neg hdt, if_pos hcd]
      rw [hcf, Json.objLookup_objSet_self c _ _ hcch]
      simp only [objLookup_none_of_hasKey_false d _ (Bool.eq_false_iff.mpr hdt)]
  · have hcf : choiceFixed c = c := by
      simp [choiceFixed, hcd]
    rw [hcf, objLookup_none_of_hasKey_false c _ (Bool.eq_false_iff.mpr hcd)]

theorem allIndexed_payloadFixed (p : Json) (hw : wf p = true) :
    allIndexed (payloadFixed p) = true := by
  unfold allIndexed allTcElems
  by_cases hck : p.objHasKey (strCp "choices") = true
  · have hobj : p.isObj = true := isObj_of_hasKey p _ hck
    have hch : wfObjChain p = true := Json.wfObjChain_of_wf p hobj hw
    obtain ⟨cv, hcv⟩ : ∃ cv, p.objLookup (strCp "choices") = some cv := by
      cases hml : p.objLookup (strCp "choices") with
      | none => rw [Json.objHasKey, hml] at hck; simp at hck
      | some v => exact ⟨v, rfl⟩
    have hcvw : wf cv = true := Json.wf_objLookup p _ cv hw hcv
    have hpf : payloadFixed p = p.objSet (strCp "choices")
        (if cv.isArr then Json.listToArr (cv.arrElems.map choiceFixed) else cv) := by
      simp only [payloadFixed, hcv, Option.getD_some]
      rw [if_pos hck]
    rw [hpf]
    simp only [Json.objLookup_objSet_self p _ _ hch]
    by_cases harr : cv.isArr = true
    · rw [if_pos harr]
      simp only [Json.isArr_listToArr, Bool.not_true, Bool.false_or]
      rw [Json.arrElems_listToArr, List.all_eq_true]
      intro c2 hc2
      rw [List.mem_map] at hc2
      obtain ⟨c, hcmem, rfl⟩ := hc2
      exact allTc_choiceFixed c (Json.wf_arrElem cv c hcvw hcmem)
    · rw [if_neg harr]
      rw [Bool.eq_false_iff.mpr harr]
      rfl
  · have hpf : payloadFixed p = p := by
      simp [payloadFixed, hck]
    rw [hpf, objLookup_none_of_hasKey_false p _ (Bool.eq_false_iff.mpr hck)]

/-! ## Claims: counterexamples and concrete scenarios -/

/-- Claim C1, counterexample: `fix_sse_line` is not total.  On the data line
`data: {"choices": 0}` — valid UTF-8, well-formed JSON, but a non-array
`choices` — the source iterates an `int` and raises `TypeError`
(uncaught: the `try` on line 40 guards only `json.loads`), instead of
returning a byte string. -/
theorem claim_C1_counterexample :
    fix_sse_line ⟨[]⟩ (strCp "data: \x7b\"choices\": 0\x7d") = .error .typeError := rfl

/-- Claim C3, counterexample: on the upstream body whose lines are
`data:{"choices":[{"delta":{"tool_calls":[{"type":"function"}]}}]}`, a blank
line, `data: [DONE]`, and a blank line (no replacement model configured),
the client-visible stream is not the claimed
`data: {...}\n\ndata: [DONE]\n\n`: the loop also echoes each upstream blank
line as a bare newline, producing three newlines after the data event and a
trailing one after the sentinel. -/
theorem claim_C3_counterexample :
    streamBytes ⟨[]⟩
      (strCp "data:\x7b\"choices\":[\x7b\"delta\":\x7b\"tool_calls\":[\x7b\"type\":\"function\"\x7d]\x7d\x7d]\x7d\n\ndata: [DONE]\n\n")
      ≠ strCp "data: \x7b\"choices\":[\x7b\"delta\":\x7b\"tool_calls\":[\x7b\"type\":\"function\",\"index\":0\x7d]\x7d\x7d]\x7d\n\ndata: [DONE]\n\n" := by
  decide

/-- Claim C3, amended: the same scenario produces exactly
`data: {"choices":[{"delta":{"tool_calls":[{"type":"function","index":0}]}}]}\n\n`
+ `\n` (the echoed upstream blank line) + `data: [DONE]\n\n` + `\n` (the echoed
final blank line), and no other bytes. -/
theorem claim_C3_amended :
    streamBytes ⟨[]⟩
      (strCp "data:\x7b\"choices\":[\x7b\"delta\":\x7b\"tool_calls\":[\x7b\"type\":\"function\"\x7d]\x7d\x7d]\x7d\n\ndata: [DONE]\n\n")
      = strCp "data: \x7b\"choices\":[\x7b\"delta\":\x7b\"tool_calls\":[\x7b\"type\":\"function\",\"index\":0\x7d]\x7d\x7d]\x7d\n\n\ndata: [DONE]\n\n\n" := by
  decide

/-- Claim C4, counterexample: the canonical sentinel is not produced exactly
once per stream — an upstream body containing two `data: [DONE]` lines makes
the loop write `data: [DONE]\n\n` twice (line 139 `continue`s after writing,
and a later sentinel line writes again). -/
theorem claim_C4_counterexample :
    (streamSse ⟨[]⟩ (strCp "data: [DONE]\ndata: [DONE]\n")).2 = none ∧
    ((streamSse ⟨[]⟩ (strCp "data: [DONE]\ndata: [DONE]\n")).1).count doneChunk = 2 := by
  decide

/-- Claim C5, counterexample: a byte string that does not start with `data:`
is not always returned unchanged — on invalid UTF-8 the decode-with-replace /
re-encode pair rewrites the bytes: `b"\xff"` comes back as U+FFFD's encoding
`b"\xef\xbf\xbd"`. -/
theorem claim_C5_counterexample :
    ¬ (strCp "data:").isPrefixOf ([0xFF] : Bytes) ∧
    fix_sse_line ⟨[]⟩ [0xFF] = .ok [0xEF, 0xBF, 0xBD] ∧
    ([0xEF, 0xBF, 0xBD] : Bytes) ≠ [0xFF] := by
  refine ⟨by decide, rfl, by decide⟩

/-- Claim C8, counterexample: two emitted data events violate the stated
invariant.  (1) The line `data:  {...}` (two spaces) fails the `data: {`
fast-path test, is forwarded verbatim, and its payload — which `json.loads`
accepts thanks to leading whitespace — contains the tool-call element `{}`
with no `index`.  (2) The payload element `"index"` (a string) satisfies
Python's substring test `"index" in tc`, is forwarded untouched, and has no
`index` key. -/
theorem claim_C8_counterexample :
    streamSse ⟨[]⟩
        (strCp "data:  \x7b\"choices\":[\x7b\"delta\":\x7b\"tool_calls\":[\x7b\x7d]\x7d\x7d]\x7d\ndata: \x7b\"choices\":[\x7b\"delta\":\x7b\"tool_calls\":[\"index\"]\x7d\x7d]\x7d\n")
      = ([strCp "data:  \x7b\"choices\":[\x7b\"delta\":\x7b\"tool_calls\":[\x7b\x7d]\x7d\x7d]\x7d\n", [10],
          strCp "data: \x7b\"choices\":[\x7b\"delta\":\x7b\"tool_calls\":[\"index\"]\x7d\x7d]\x7d\n", [10],
          doneChunk], none) ∧
    (strCp "data: ").isPrefixOf
      (strCp "data:  \x7b\"choices\":[\x7b\"delta\":\x7b\"tool_calls\":[\x7b\x7d]\x7d\x7d]\x7d") = true ∧
    loads ((utf8Decode (strCp "data:  \x7b\"choices\":[\x7b\"delta\":\x7b\"tool_calls\":[\x7b\x7d]\x7d\x7d]\x7d")).drop 6)
      = some (.ocons (strCp "choices")
          (.acons (.ocons (strCp "delta")
            (.ocons (strCp "tool_calls") (.acons .onil .anil) .onil) .onil) .anil) .onil) ∧
    allKeyed (.ocons (strCp "choices")
          (.acons (.ocons (strCp "delta")
            (.ocons (strCp "tool_calls") (.acons .onil .anil) .onil) .onil) .anil) .onil) = false ∧
    loads ((utf8Decode (strCp "data: \x7b\"choices\":[\x7b\"delta\":\x7b\"tool_calls\":[\"index\"]\x7d\x7d]\x7d")).drop 6)
      = some (.ocons (strCp "choices")
          (.acons (.ocons (strCp "delta")
            (.ocons (strCp "tool_calls") (.acons (.jstr (strCp "index")) .anil) .onil) .onil) .anil) .onil) ∧
    allKeyed (.ocons (strCp "choices")
          (.acons (.ocons (strCp "delta")
            (.ocons (strCp "tool_calls") (.acons (.jstr (strCp "index")) .anil) .onil) .onil) .anil) .onil) = false := by
  refine ⟨by decide, by decide, by decide, by decide, by decide, by decide⟩

/-- Claim C1, amended: `fix_sse_line` returns a byte string (never raises) on
every input whose parsed payload — when the `data: ` fast path is passed and
the parse succeeds — has the shape the rewriter expects: a dict whose
`choices`, if present, is a list of dicts with well-shaped
`delta`/`tool_calls`, and whose `model`, if a replacement is configured, is
absent or a string.  The counterexample shows totality fails without this
shape condition. -/
theorem claim_C1_amended (cfg : Config) (x : Bytes)
    (hshape : ∀ p, linePayload x = some p → shapeOK cfg p = true) :
    ∃ y, fix_sse_line cfg x = .ok y := by
  by_cases hpre :
      (strCp "data: \x7b").isPrefixOf (normalizeDataLine (utf8Decode x)) = true
  · rcases hld : loads ((normalizeDataLine (utf8Decode x)).drop 6) with _ | p
    · exact ⟨_, fix_parsefail cfg x hpre hld⟩
    · have hsp : shapeOK cfg p = true := by
        apply hshape
        simp only [linePayload]
        rw [if_neg (by simp [hpre])]
        exact hld
      obtain ⟨r1, hr1⟩ := fixChoices_ok_of_shape cfg p hsp
      rcases r1 with ⟨p1, c1⟩
      have he1 := (fixChoices_elim hr1).2
      rw [Prod.mk.injEq] at he1
      obtain ⟨hp1, hc1⟩ := he1
      subst hp1
      subst hc1
      rw [shapeOK, Bool.and_eq_true, Bool.and_eq_true] at hsp
      obtain ⟨⟨hobj, hcsh⟩, hmsh⟩ := hsp
      have hobj1 : (payloadFixed p).isObj = true := by
        rw [isObj_payloadFixed]
        exact hobj
      have hm1 : modelShapeOK cfg (payloadFixed p) = true := by
        have hlk : (payloadFixed p).objLookup (strCp "model")
            = p.objLookup (strCp "model") := by
          by_cases hck : p.objHasKey (strCp "choices") = true
          · obtain ⟨cv, hcv⟩ : ∃ cv, p.objLookup (strCp "choices") = some cv := by
              cases hml : p.objLookup (strCp "choices") with
              | none => rw [Json.objHasKey, hml] at hck; simp at hck
              | some v => exact ⟨v, rfl⟩
            rw [show payloadFixed p = p.objSet (strCp "choices")
                (if cv.isArr then Json.listToArr (cv.arrElems.map choiceFixed)
                 else cv) from by
              simp only [payloadFixed, hcv, Option.getD_some]
              rw [if_pos hck]]
            exact Json.objLookup_objSet_ne p _ _ _ (by decide)
          · rw [show payloadFixed p = p from by simp [payloadFixed, hck]]
        rw [modelShapeOK] at hmsh ⊢
        rw [hlk]
        exact hmsh
      obtain ⟨r2, hr2⟩ := fixModel_ok_of_shape cfg (payloadFixed p) hobj1 hm1
      rcases r2 with ⟨p2, c2⟩
      rw [fix_parsed cfg x p hpre hld, hr1]
      simp only [Except.bind]
      rw [hr2]
      simp only [Except.bind]
      by_cases hfl : (payloadFlag p || c2) = true
      · exact ⟨_, by rw [if_pos hfl]⟩
      · exact ⟨_, by rw [if_neg hfl]⟩
  · exact ⟨_, fix_fastpath cfg x hpre⟩

theorem claim_C1_amended_witness :
    (∀ p, linePayload (strCp "data: \x7b\"choices\":[\x7b\x7d]\x7d") = some p →
      shapeOK ⟨[]⟩ p = true) ∧
    ∃ y, fix_sse_line ⟨[]⟩ (strCp "data: \x7b\"choices\":[\x7b\x7d]\x7d") = .ok y :=
  ⟨fun p hp => by
      rw [show linePayload (strCp "data: \x7b\"choices\":[\x7b\x7d]\x7d")
          = some (Json.ocons (strCp "choices") (Json.acons Json.onil Json.anil)
              Json.onil) from by decide] at hp
      injection hp with h2
      rw [← h2]
      decide,
    claim_C1_amended ⟨[]⟩ (strCp "data: \x7b\"choices\":[\x7b\x7d]\x7d")
      (fun p hp => by
        rw [show linePayload (strCp "data: \x7b\"choices\":[\x7b\x7d]\x7d")
            = some (Json.ocons (strCp "choices") (Json.acons Json.onil Json.anil)
                Json.onil) from by decide] at hp
        injection hp with h2
        rw [← h2]
        decide)⟩

/-- Claim C2: `fix_sse_line` is idempotent.  Since the function can raise
(see C1), idempotence is stated in Kleisli form: feeding a successful result
back through the function reproduces it, and an exception propagates
unchanged, so `fix ∘ fix = fix` as partial functions.  The configured
replacement model name is assumed to be a well-formed string, which holds
for every name the proxy can read from its environment (any scalar
string). -/
theorem claim_C2 (cfg : Config) (x : Bytes) (hmn : wfStr cfg.modelName = true) :
    (fix_sse_line cfg x).bind (fix_sse_line cfg) = fix_sse_line cfg x := by
  rcases hres : fix_sse_line cfg x with e | y
  · rfl
  · rw [show (Except.ok y : Except PyErr Bytes).bind (fix_sse_line cfg)
        = fix_sse_line cfg y from rfl]
    exact fix_fix cfg x y hmn hres

theorem claim_C2_witness :
    wfStr (Config.mk (strCp "proxy-model")).modelName = true ∧
    (fix_sse_line (Config.mk (strCp "proxy-model"))
        (strCp "data: \x7b\"model\":\"gpt-4o-mini\",\"choices\":[\x7b\x7d]\x7d")).bind
      (fix_sse_line (Config.mk (strCp "proxy-model")))
      = fix_sse_line (Config.mk (strCp "proxy-model"))
          (strCp "data: \x7b\"model\":\"gpt-4o-mini\",\"choices\":[\x7b\x7d]\x7d") :=
  ⟨by decide, claim_C2 (Config.mk (strCp "proxy-model"))
    (strCp "data: \x7b\"model\":\"gpt-4o-mini\",\"choices\":[\x7b\x7d]\x7d") (by decide)⟩

/-- Claim C4, amended: each upstream sentinel line — in either spelling —
produces one canonical `data: [DONE]\n\n` write (so several upstream
sentinels produce several writes, refuting "exactly once"); when the body
ends and the loop completes without ever seeing a sentinel, one canonical
write is synthesized (and none is added when one was seen); an exception
escaping the rewriter aborts the loop without the synthesis. -/
theorem claim_C4_amended (cfg : Config) (raw : Bytes) (rest : List Bytes)
    (sawDone : Bool) :
    (isSentinelLine raw = true →
      streamRun cfg (raw :: rest) sawDone
        = (doneChunk :: (streamRun cfg rest true).1, (streamRun cfg rest true).2))
    ∧ streamRun cfg [] false = ([doneChunk], none)
    ∧ streamRun cfg [] true = ([], none)
    ∧ (∀ e, isSentinelLine raw = false →
        fix_sse_line cfg (rstripCrLf raw) = .error e →
        streamRun cfg (raw :: rest) sawDone = ([], some e)) := by
  refine ⟨?_, rfl, rfl, ?_⟩
  · intro hs
    rw [isSentinelLine, Bool.or_eq_true, beq_iff_eq, beq_iff_eq] at hs
    simp only [streamRun]
    rw [if_pos hs]
  · intro e hns hfe
    rw [isSentinelLine, Bool.or_eq_false_iff, beq_eq_false_iff_ne,
      beq_eq_false_iff_ne] at hns
    simp only [streamRun]
    rw [if_neg (by rintro (h | h) <;> [exact hns.1 h; exact hns.2 h])]
    rw [hfe]

theorem claim_C4_amended_witness :
    isSentinelLine (strCp "data:[DONE]\r\n") = true ∧
    streamRun ⟨[]⟩ [strCp "data:[DONE]\r\n"] false
      = (doneChunk :: (streamRun ⟨[]⟩ ([] : List Bytes) true).1,
          (streamRun ⟨[]⟩ ([] : List Bytes) true).2) :=
  ⟨by decide,
    (claim_C4_amended ⟨[]⟩ (strCp "data:[DONE]\r\n") [] false).1 (by decide)⟩

/-- Claim C5, amended: the identity on non-`data:` lines holds for every
valid-UTF-8 byte string (which every line of a well-behaved upstream is);
on invalid UTF-8 the decode-with-replace / re-encode pair rewrites the
bytes, as the counterexample shows. -/
theorem claim_C5_amended (cfg : Config) (x : Bytes) (hv : ValidUtf8 x)
    (h : (strCp "data:").isPrefixOf (utf8Decode x) = false) :
    fix_sse_line cfg x = .ok x := by
  obtain ⟨s, hs, henc⟩ := hv
  subst henc
  rw [decode_encode s hs] at h
  have hn : normalizeDataLine (utf8Decode (utf8Encode s)) = s := by
    rw [decode_encode s hs]
    exact normalize_of_not_data s (by rw [h]; simp)
  have h7 : (strCp "data: \x7b").isPrefixOf s = false := by
    rw [Bool.eq_false_iff] at h ⊢
    intro hc
    apply h
    rw [List.isPrefixOf_iff_prefix] at hc ⊢
    exact List.IsPrefix.trans ⟨[0x20, 0x7B], by decide⟩ hc
  rw [fix_fastpath cfg (utf8Encode s) (by rw [hn, h7]; simp)]
  rw [hn]

theorem claim_C5_amended_witness :
    ValidUtf8 (strCp "hello")
    ∧ (strCp "data:").isPrefixOf (utf8Decode (strCp "hello")) = false
    ∧ fix_sse_line ⟨[]⟩ (strCp "hello") = .ok (strCp "hello") :=
  ⟨⟨strCp "hello", by decide, by decide⟩, by decide,
    claim_C5_amended ⟨[]⟩ (strCp "hello") ⟨strCp "hello", by decide, by decide⟩
      (by decide)⟩

/-- Claim C6: on a successfully fixed payload, fix 2 maps every
`choices[].delta.tool_calls[]` element through `tcFixed`, which leaves
elements that already have an `index` key untouched and gives the others
`index = 0`; in particular the array `[{}, {"index":5}]` becomes
`[{"index":0}, {"index":5}]` with element 1 untouched. -/
theorem claim_C6 (p : Json) (r : Json × Bool) (h : fixChoices p = .ok r) :
    r.1 = payloadFixed p
    ∧ (∀ e, tcElemKeyed e = true → tcFixed e = e)
    ∧ (∀ e, e.isObj = true → wfObjChain e = true →
        e.objHasKey (strCp "index") = false →
        (tcFixed e).objLookup (strCp "index") = some (Json.jnum [48]))
    ∧ fixTcList [Json.onil, Json.ocons (strCp "index") (Json.jnum [53]) Json.onil]
        = .ok ([Json.ocons (strCp "index") (Json.jnum [48]) Json.onil,
            Json.ocons (strCp "index") (Json.jnum [53]) Json.onil], true) := by
  refine ⟨by rw [(fixChoices_elim h).2], ?_, ?_, rfl⟩
  · intro e hk
    rw [tcElemKeyed] at hk
    have hf : tcFlag e = false := by
      rw [tcFlag, hk]
      simp
    rw [tcFixed, if_neg (by rw [hf]; simp)]
  · intro e hobj hch hk
    rw [tcFixed, if_pos (show tcFlag e = true from by rw [tcFlag, hobj, hk]; rfl)]
    exact Json.objLookup_objSet_self e _ _ hch

theorem claim_C6_witness :
    fixChoices (Json.ocons (strCp "choices") Json.anil Json.onil)
      = .ok (Json.ocons (strCp "choices") Json.anil Json.onil, false)
    ∧ (tcFixed Json.onil).objLookup (strCp "index") = some (Json.jnum [48]) :=
  ⟨rfl,
    (claim_C6 (Json.ocons (strCp "choices") Json.anil Json.onil)
        (Json.ocons (strCp "choices") Json.anil Json.onil, false)
        rfl).2.2.1 Json.onil rfl rfl rfl⟩

/-- Claim C7: with a replacement model configured, a successful fix 3
rewrites `model` exactly when its value is a string with the literal prefix
`gpt-4o-mini`; with replacement `"custom-model"`, the payload
`{"model":"gpt-4o-mini-2024","choices":[]}` has its model rewritten to
`"custom-model"`, while one whose model is `"other-model"` is returned
unchanged. -/
theorem claim_C7 (cfg : Config) (p : Json) (r : Json × Bool)
    (hmn : cfg.modelName ≠ []) (h : fixModel cfg p = .ok r) :
    r = (modelFixed cfg p, modelFlag cfg p)
    ∧ (modelFlag cfg p = true ↔
        ∃ s, p.objLookup (strCp "model") = some (Json.jstr s)
          ∧ (strCp "gpt-4o-mini").isPrefixOf s = true)
    ∧ fixModel ⟨strCp "custom-model"⟩
        (Json.ocons (strCp "model") (Json.jstr (strCp "gpt-4o-mini-2024"))
          (Json.ocons (strCp "choices") Json.anil Json.onil))
      = .ok (Json.ocons (strCp "model") (Json.jstr (strCp "custom-model"))
          (Json.ocons (strCp "choices") Json.anil Json.onil), true)
    ∧ fixModel ⟨strCp "custom-model"⟩
        (Json.ocons (strCp "model") (Json.jstr (strCp "other-model")) Json.onil)
      = .ok (Json.ocons (strCp "model") (Json.jstr (strCp "other-model")) Json.onil,
          false) := by
  refine ⟨fixModel_elim h, ⟨?_, ?_⟩, rfl, rfl⟩
  · intro hf
    rw [modelFlag, Bool.and_eq_true] at hf
    obtain ⟨-, hf2⟩ := hf
    rcases hml : p.objLookup (strCp "model") with _ | m
    · rw [hml] at hf2
      simp at hf2
    · rw [hml] at hf2
      cases m with
      | jstr s => exact ⟨s, rfl, hf2⟩
      | jnull => simp at hf2
      | jbool b => simp at hf2
      | jnum a => simp at hf2
      | anil => simp at hf2
      | acons a b => simp at hf2
      | onil => simp at hf2
      | ocons a b c => simp at hf2
  · rintro ⟨s, hs, hpre⟩
    rw [modelFlag, Bool.and_eq_true]
    refine ⟨by simp [List.isEmpty_iff, hmn], ?_⟩
    rw [hs]
    exact hpre

theorem claim_C7_witness :
    (strCp "custom-model" : Str) ≠ [] ∧
    fixModel ⟨strCp "custom-model"⟩
        (Json.ocons (strCp "model") (Json.jstr (strCp "other-model")) Json.onil)
      = .ok (Json.ocons (strCp "model") (Json.jstr (strCp "other-model")) Json.onil,
          false) :=
  ⟨by decide,
    (claim_C7 ⟨strCp "custom-model"⟩
      (Json.ocons (strCp "model") (Json.jstr (strCp "other-model")) Json.onil)
      (Json.ocons (strCp "model") (Json.jstr (strCp "other-model")) Json.onil, false)
      (by decide) rfl).2.2.2⟩

/-- Claim C8, amended: the invariant holds for the payloads the rewriter
actually fixes (not for every emitted line — the counterexample shows two
pass-through lines violating it): after a successful run of fix 2 on a
well-formed payload, every `choices[].delta.tool_calls[]` element that is a
dict has an `index` key. -/
theorem claim_C8_amended (p : Json) (r : Json × Bool) (hw : wf p = true)
    (h : fixChoices p = .ok r) : allIndexed r.1 = true := by
  rw [(fixChoices_elim h).2]
  exact allIndexed_payloadFixed p hw

theorem claim_C8_amended_witness :
    wf (Json.ocons (strCp "choices")
        (Json.acons (Json.ocons (strCp "delta")
          (Json.ocons (strCp "tool_calls") (Json.acons Json.onil Json.anil) Json.onil)
          Json.onil) Json.anil) Json.onil) = true
    ∧ fixChoices (Json.ocons (strCp "choices")
        (Json.acons (Json.ocons (strCp "delta")
          (Json.ocons (strCp "tool_calls") (Json.acons Json.onil Json.anil) Json.onil)
          Json.onil) Json.anil) Json.onil)
      = .ok (payloadFixed (Json.ocons (strCp "choices")
          (Json.acons (Json.ocons (strCp "delta")
            (Json.ocons (strCp "tool_calls") (Json.acons Json.onil Json.anil) Json.onil)
            Json.onil) Json.anil) Json.onil),
          payloadFlag (Json.ocons (strCp "choices")
          (Json.acons (Json.ocons (strCp "delta")
            (Json.ocons (strCp "tool_calls") (Json.acons Json.onil Json.anil) Json.onil)
            Json.onil) Json.anil) Json.onil))
    ∧ allIndexed (payloadFixed (Json.ocons (strCp "choices")
        (Json.acons (Json.ocons (strCp "delta")
          (Json.ocons (strCp "tool_calls") (Json.acons Json.onil Json.anil) Json.onil)
          Json.onil) Json.anil) Json.onil),
        payloadFlag (Json.ocons (strCp "choices")
        (Json.acons (Json.ocons (strCp "delta")
          (Json.ocons (strCp "tool_calls") (Json.acons Json.onil Json.anil) Json.onil)
          Json.onil) Json.anil) Json.onil)).1 = true :=
  ⟨by decide, rfl,
    claim_C8_amended
      (Json.ocons (strCp "choices")
        (Json.acons (Json.ocons (strCp "delta")
          (Json.ocons (strCp "tool_calls") (Json.acons Json.onil Json.anil) Json.onil)
          Json.onil) Json.anil) Json.onil)
      (payloadFixed (Json.ocons (strCp "choices")
          (Json.acons (Json.ocons (strCp "delta")
            (Json.ocons (strCp "tool_calls") (Json.acons Json.onil Json.anil) Json.onil)
            Json.onil) Json.anil) Json.onil),
        payloadFlag (Json.ocons (strCp "choices")
          (Json.acons (Json.ocons (strCp "delta")
            (Json.ocons (strCp "tool_calls") (Json.acons Json.onil Json.anil) Json.onil)
            Json.onil) Json.anil) Json.onil))
      (by decide) rfl⟩

/-- Claim C9: on the request path, a present body with a configured
replacement model that `json.loads` reads (after `detect_encoding` and a
`surrogatepass` decode) as a dict with a string `model` starting with
`gpt-4o-mini` is forwarded with `model` rewritten (serialized with
`json.dumps` default separators and encoded as UTF-8); a body the decode or
parse rejects is forwarded byte-for-byte unmodified, never rejected.  The
last conjunct exercises encoding autodetection concretely: the UTF-16-LE
spelling of a matching body decodes and parses (the witness feeds it through
the rewrite clause). -/
theorem claim_C9 (cfg : Config) (body : Bytes) :
    (loadsBytes body = none → rewriteRequestBody cfg body = .ok body)
    ∧ (∀ rj s, body ≠ [] → cfg.modelName ≠ [] → loadsBytes body = some rj →
        rj.isObj = true →
        rj.objLookup (strCp "model") = some (Json.jstr s) →
        (strCp "gpt-4o-mini").isPrefixOf s = true →
        rewriteRequestBody cfg body
          = .ok (utf8Encode (dumpsD (rj.objSet (strCp "model")
              (Json.jstr cfg.modelName)))))
    ∧ loadsBytes ((strCp "\x7b\"model\":\"gpt-4o-mini\"\x7d").flatMap
          (fun c => [c, 0]))
      = some (Json.ocons (strCp "model") (Json.jstr (strCp "gpt-4o-mini"))
          Json.onil) := by
  refine ⟨?_, ?_, by decide⟩
  · intro hld
    simp only [rewriteRequestBody]
    by_cases hc : body ≠ [] ∧ cfg.modelName ≠ []
    · rw [if_pos hc]
      simp only [hld]
    · rw [if_neg hc]
  · intro rj s hb hm hld hobj hlk hpre
    simp only [rewriteRequestBody]
    rw [if_pos ⟨hb, hm⟩]
    simp only [hld]
    rw [pyGetDefault_obj rj _ _ hobj, hlk]
    simp only [Option.getD_some]
    rw [bind_ok]
    rw [show pyStartswith (Json.jstr s) (strCp "gpt-4o-mini")
        = .ok ((strCp "gpt-4o-mini").isPrefixOf s) from rfl, bind_ok]
    rw [if_pos hpre]

theorem claim_C9_witness :
    loadsBytes ([0xFF] : Bytes) = none
    ∧ rewriteRequestBody ⟨strCp "custom-model"⟩ ([0xFF] : Bytes) = .ok [0xFF]
    ∧ rewriteRequestBody ⟨strCp "custom-model"⟩
        (strCp "\x7b\"model\": \"gpt-4o-mini\"\x7d")
      = .ok (utf8Encode (dumpsD ((Json.ocons (strCp "model")
          (Json.jstr (strCp "gpt-4o-mini")) Json.onil).objSet (strCp "model")
          (Json.jstr (strCp "custom-model")))))
    ∧ rewriteRequestBody ⟨strCp "custom-model"⟩
        ((strCp "\x7b\"model\":\"gpt-4o-mini\"\x7d").flatMap (fun c => [c, 0]))
      = .ok (utf8Encode (dumpsD ((Json.ocons (strCp "model")
          (Json.jstr (strCp "gpt-4o-mini")) Json.onil).objSet (strCp "model")
          (Json.jstr (strCp "custom-model")))))  :=
  ⟨by decide,
    (claim_C9 ⟨strCp "custom-model"⟩ ([0xFF] : Bytes)).1 (by decide),
    (claim_C9 ⟨strCp "custom-model"⟩ (strCp "\x7b\"model\": \"gpt-4o-mini\"\x7d")).2.1
      (Json.ocons (strCp "model") (Json.jstr (strCp "gpt-4o-mini")) Json.onil)
      (strCp "gpt-4o-mini") (by decide) (by decide) (by decide) (by decide)
      (by decide) (by decide),
    (claim_C9 ⟨strCp "custom-model"⟩
        ((strCp "\x7b\"model\":\"gpt-4o-mini\"\x7d").flatMap (fun c => [c, 0]))).2.1
      (Json.ocons (strCp "model") (Json.jstr (strCp "gpt-4o-mini")) Json.onil)
      (strCp "gpt-4o-mini") (by decide) (by decide) (by decide) (by decide)
      (by decide) (by decide)⟩

/-- Claim C10: the streaming loop recognizes the sentinel by exact byte
equality after stripping only trailing CR/LF — both spellings with optional
trailing `\r`/`\n` match, while a trailing space, an extra interior space,
or a different case do not; an unrecognized line does not mark termination
(`saw_done` is threaded unchanged) and goes through `fix_sse_line` like any
ordinary line. -/
theorem claim_C10 (raw : Bytes) :
    (isSentinelLine raw = true ↔
      rstripCrLf raw = strCp "data: [DONE]" ∨ rstripCrLf raw = strCp "data:[DONE]")
    ∧ isSentinelLine (strCp "data: [DONE]\r\n") = true
    ∧ isSentinelLine (strCp "data:[DONE]\n") = true
    ∧ isSentinelLine (strCp "data: [DONE] ") = false
    ∧ isSentinelLine (strCp "data:  [DONE]") = false
    ∧ isSentinelLine (strCp "data: [done]") = false
    ∧ (∀ cfg rest sawDone fixed, isSentinelLine raw = false →
        fix_sse_line cfg (rstripCrLf raw) = .ok fixed →
        streamRun cfg (raw :: rest) sawDone
          = ((fixed ++ [10]) ::
              (if (strCp "data: ").isPrefixOf fixed
               then [10] :: (streamRun cfg rest sawDone).1
               else (streamRun cfg rest sawDone).1),
              (streamRun cfg rest sawDone).2)) := by
  refine ⟨?_, by decide, by decide, by decide, by decide, by decide, ?_⟩
  · rw [isSentinelLine, Bool.or_eq_true, beq_iff_eq, beq_iff_eq]
  · intro cfg rest sawDone fixed hns hfo
    rw [isSentinelLine, Bool.or_eq_false_iff, beq_eq_false_iff_ne,
      beq_eq_false_iff_ne] at hns
    simp only [streamRun]
    rw [if_neg (by rintro (h | h) <;> [exact hns.1 h; exact hns.2 h])]
    rw [hfo]

theorem claim_C10_witness :
    isSentinelLine (strCp "data: [DONE] ") = false
    ∧ fix_sse_line ⟨[]⟩ (rstripCrLf (strCp "data: [DONE] "))
        = .ok (strCp "data: [DONE] ")
    ∧ streamRun ⟨[]⟩ [strCp "data: [DONE] "] false
        = ((strCp "data: [DONE] " ++ [10]) ::
            (if (strCp "data: ").isPrefixOf (strCp "data: [DONE] ")
             then [10] :: (streamRun ⟨[]⟩ ([] : List Bytes) false).1
             else (streamRun ⟨[]⟩ ([] : List Bytes) false).1),
            (streamRun ⟨[]⟩ ([] : List Bytes) false).2) :=
  ⟨by decide, rfl,
    (claim_C10 (strCp "data: [DONE] ")).2.2.2.2.2.2 ⟨[]⟩ [] false
      (strCp "data: [DONE] ") (by decide) rfl⟩

end SseProxy
